import Mathlib

/-!
The dynablock cache of box86: a shallow embedding of `src/dynarec/dynablock.c`.

Machine words are natural numbers reduced modulo `2^32` where the C code can
wrap (`uintptr_t` is 32 bits wide on the ARM host), the signed accumulator of
the hash is an integer wrapped into the `int32_t` range, pointers are natural
numbers with `0` for `NULL`, and code that dereferences a pointer returns an
`Except` value so that a null or dangling dereference is visible as a fault.
-/

namespace Box86

/-! ## Machine arithmetic -/

/-- The modulus of `uint32_t` / `uintptr_t`. -/
def W32 : Nat := 4294967296

/-- Wrap an integer into the `int32_t` range `[-2^31, 2^31)`. -/
def wrapS32 (x : Int) : Int := (x + 2147483648) % 4294967296 - 2147483648

/-- The conversion `(uint32_t)h` of an `int32_t`. -/
def toU32 (h : Int) : Nat := (h % 4294967296).toNat

/-- Read of a `uint8_t` through a byte pointer: guest memory is a map from
addresses to cell contents, a byte read keeps the low eight bits. -/
def readU8 (mem : Nat → Nat) (p : Nat) : Nat := mem p % 256

/-! ## `X31_hash_code` -/

/-- One round of the loop body `h = (h << 5) - h + (int32_t)*p` on `int32_t`. -/
def X31_step (h : Int) (b : Nat) : Int :=
  wrapS32 (wrapS32 (wrapS32 (h * 32) - h) + (b : Int))

/-- The loop `for (--len, ++p; len; --len, ++p) h = ...`, entered with the
already decremented `len` and the already advanced `p`. -/
def X31_loop (mem : Nat → Nat) : Nat → Nat → Int → Int
  | 0, _, h => h
  | len + 1, p, h => X31_loop mem len (p + 1) (X31_step h (readU8 mem p))

/-- Embedding of `uint32_t X31_hash_code(void* addr, int len)`, for a
non-negative `len`; `mem` is the guest memory the pointer `addr` reads. -/
def X31_hash_code (mem : Nat → Nat) (addr : Nat) (len : Nat) : Nat :=
  if len = 0 then 0
  else toU32 (X31_loop mem (len - 1) (addr + 1) ((readU8 mem addr : Nat) : Int))

/-- The recurrence of the specification: `h_0 = bytes[0]`,
`h_k = (31 * h_(k-1) + bytes[k]) mod 2^32`, bytes taken unsigned. -/
def specHash (mem : Nat → Nat) (addr : Nat) : Nat → Nat
  | 0 => readU8 mem addr
  | k + 1 => (31 * specHash mem addr k + readU8 mem (addr + (k + 1))) % W32

/-- The closed form of the specification: the polynomial in 31 whose
coefficients are the bytes, reduced modulo `2^32`. -/
def specPoly (mem : Nat → Nat) (addr : Nat) (n : Nat) : Nat :=
  (∑ i in Finset.range n, readU8 mem (addr + i) * 31 ^ (n - 1 - i)) % W32

/-! ## Data model -/

/-- What goes wrong when the C code would leave defined behaviour, or when the
recursion budget of the model is used up. -/
inductive Fault where
  /-- dereference of `NULL` or of a pointer that designates no object -/
  | nullDeref
  /-- array access outside the allocated length -/
  | outOfBounds
  /-- the recursion budget given to the model is exhausted -/
  | outOfFuel
  deriving DecidableEq

deriving instance DecidableEq for Except

/-- The fields of `dynablock_t` that `dynablock.c` reads or writes. Pointers
are natural numbers, `0` is `NULL`. The array `sons` together with its length
`sons_size` is one list. -/
structure dynablock_t where
  parent : Nat
  block : Nat
  size : Nat
  x86_addr : Nat
  x86_size : Nat
  hash : Nat
  need_test : Nat
  done : Nat
  gone : Nat
  nolinker : Nat
  tablesz : Nat
  table : Nat
  instsize : Nat
  sons : List Nat
  father : Nat
  deriving DecidableEq

/-- The block `calloc(1, sizeof(dynablock_t))` returns: every field zero. -/
def dynablock_t.zero : dynablock_t :=
  { parent := 0, block := 0, size := 0, x86_addr := 0, x86_size := 0, hash := 0,
    need_test := 0, done := 0, gone := 0, nolinker := 0, tablesz := 0, table := 0,
    instsize := 0, sons := [], father := 0 }

/-- The fields of `dynablocklist_t`. `direct` is `none` while the array is
`NULL`, otherwise the array of block pointers. `textsz` is a non-negative
`int`. -/
structure dynablocklist_t where
  text : Nat
  textsz : Nat
  nolinker : Nat
  base : Nat
  direct : Option (List Nat)
  deriving DecidableEq

/-- Calls to the external collaborators and to `free` on a block, in order. -/
inductive Event where
  /-- a call `FreeDynarecMap(block, size)` -/
  | FreeDynarecMap (block size : Nat)
  /-- a call `free(db)` on the block `db` -/
  | free (db : Nat)
  /-- a call `protectDB(addr, size)` -/
  | protectDB (addr size : Nat)
  /-- a call `FillBlock(block, filladdr)` -/
  | FillBlock (block filladdr : Nat)
  deriving DecidableEq

/-- The memory the functions work on. The block pointer `p + 1` designates
`blocks[p]`, the directory pointer `p + 1` designates `lists[p]`. A block that
was passed to `free` stays in `blocks` (`FreeDynablock` has set its `gone` to 1
before); the call is recorded in `trace`. `dynmap` is `my_context->dynmap`: an entry is `none` for a null
`dynmap_t*` and `some d` for a `dynmap_t` whose field `dynablocks` is `d`;
shards beyond the end of the list are empty. `DYNAMAP_SHIFT` is the constant
of that name. -/
structure State where
  blocks : List dynablock_t
  lists : List dynablocklist_t
  dynmap : List (Option Nat)
  DYNAMAP_SHIFT : Nat
  trace : List Event
  deriving DecidableEq

/-- The dereference `*db` of a block pointer. -/
def State.getBlock (s : State) (db : Nat) : Except Fault dynablock_t :=
  match db with
  | 0 => .error .nullDeref
  | i + 1 =>
    match s.blocks[i]? with
    | some b => .ok b
    | none => .error .nullDeref

/-- A store through a block pointer that was dereferenced before. -/
def State.setBlock (s : State) (db : Nat) (b : dynablock_t) : State :=
  match db with
  | 0 => s
  | i + 1 => { s with blocks := s.blocks.set i b }

/-- The dereference `*dynablocks` of a directory pointer. -/
def State.getList (s : State) (dynablocks : Nat) : Except Fault dynablocklist_t :=
  match dynablocks with
  | 0 => .error .nullDeref
  | i + 1 =>
    match s.lists[i]? with
    | some l => .ok l
    | none => .error .nullDeref

/-- A store through a directory pointer that was dereferenced before. -/
def State.setList (s : State) (dynablocks : Nat) (l : dynablocklist_t) : State :=
  match dynablocks with
  | 0 => s
  | i + 1 => { s with lists := s.lists.set i l }

/-- Append a call to the trace. -/
def State.emit (s : State) (e : Event) : State :=
  { s with trace := s.trace ++ [e] }

/-- Subtraction on `uintptr_t`. -/
def subU32 (a b : Nat) : Nat := (a + W32 - b % W32) % W32

/-- The load `dynablocks->direct[idx]`. -/
def State.readDirect (s : State) (dynablocks idx : Nat) : Except Fault Nat := do
  let l ← s.getList dynablocks
  match l.direct with
  | none => .error .nullDeref
  | some arr =>
    match arr[idx]? with
    | some v => .ok v
    | none => .error .outOfBounds

/-- The store `dynablocks->direct[idx] = v`. -/
def State.writeDirect (s : State) (dynablocks idx v : Nat) : Except Fault State := do
  let l ← s.getList dynablocks
  match l.direct with
  | none => .error .nullDeref
  | some arr =>
    if idx < arr.length then
      .ok (s.setList dynablocks { l with direct := some (arr.set idx v) })
    else .error .outOfBounds

/-- The C test `addr >= text && addr < text + textsz`, the sum computed on
`uintptr_t`. -/
def dynablocklist_t.covers (l : dynablocklist_t) (addr : Nat) : Prop :=
  l.text ≤ addr ∧ addr < (l.text + l.textsz) % W32

instance (l : dynablocklist_t) (addr : Nat) : Decidable (l.covers addr) :=
  inferInstanceAs (Decidable (_ ∧ _))

/-! ## `FreeDynablock` -/

/-- Modelled from the spec: `arm_lock_xchg` (an assembly helper that is not
among the sources), "atomically swap `*slot` with a new value; return the
prior", here on the entry `db->sons[i]`. The result is the prior value and the
state after the store. -/
def arm_lock_xchg_son (s : State) (db i v : Nat) : Except Fault (Nat × State) := do
  let b ← s.getBlock db
  match b.sons[i]? with
  | none => .error .outOfBounds
  | some old => .ok (old, s.setBlock db { b with sons := b.sons.set i v })

/-- Modelled from the spec: `arm_lock_xchg` (an assembly helper that is not
among the sources), "atomically swap `*slot` with a new value; return the
prior", here on the entry `dynablocks->direct[idx]`. -/
def arm_lock_xchg_direct (s : State) (dynablocks idx v : Nat) : Except Fault (Nat × State) := do
  let old ← s.readDirect dynablocks idx
  let s1 ← s.writeDirect dynablocks idx v
  .ok (old, s1)

/-- The loop `for (int i=0; i<db->sons_size; ++i) { son = arm_lock_xchg(&db->sons[i], 0);
FreeDynablock(son); }` of `FreeDynablock`, from index `i` on; `rec` is the
recursive call. The bound `db->sons_size` is read again before every round. -/
def FreeDynablock_sons (rec : State → Nat → Except Fault State) (db : Nat) :
    Nat → Nat → State → Except Fault State
  | 0, _, s => .ok s
  | n + 1, i, s => do
    let b ← s.getBlock db
    if i < b.sons.length then
      let (son, s1) ← arm_lock_xchg_son s db i 0
      let s2 ← rec s1 son
      FreeDynablock_sons rec db n (i + 1) s2
    else .ok s

/-- The part of `FreeDynablock` under the comment "remove from direct if
there": the slot `x86_addr - text` of the parent directory is set to null when
the directory has a `direct` array and covers `x86_addr`. -/
def FreeDynablock_unlink (s : State) (db : Nat) : Except Fault State := do
  let b ← s.getBlock db
  let parent ← s.getList b.parent
  let startdb := parent.text
  let enddb := (parent.text + parent.textsz) % W32
  if parent.direct.isSome then
    let addr := b.x86_addr
    if addr ≥ startdb ∧ addr < enddb then
      s.writeDirect b.parent (subU32 addr startdb) 0
    else .ok s
  else .ok s

/-- The end of `FreeDynablock`: "only the father free the DynarecMap", then
the block is released. The call `free(db)` is recorded in the trace and the
block stays in the store with `gone = 1`: a later read of it stands for a read
of released memory in the C program. -/
def FreeDynablock_release (s : State) (db : Nat) : Except Fault State := do
  let b ← s.getBlock db
  let s1 := if b.father = 0 then s.emit (.FreeDynarecMap b.block b.size) else s
  .ok (s1.emit (.free db))

/-- Embedding of `void FreeDynablock(dynablock_t* db)`. The first argument
bounds the depth of the recursion through the sons. -/
def FreeDynablock : Nat → State → Nat → Except Fault State
  | 0, _, _ => .error .outOfFuel
  | fuel + 1, s, db =>
    if db = 0 then .ok s
    else do
      let b ← s.getBlock db
      if b.gone ≠ 0 then .ok s
      else
        let s1 := s.setBlock db { b with done := 0, gone := 1 }
        let s2 ← FreeDynablock_unlink s1 db
        let b2 ← s2.getBlock db
        let s3 ← FreeDynablock_sons (FreeDynablock fuel) db b2.sons.length 0 s2
        FreeDynablock_release s3 db

/-! ## Marking -/

/-- Embedding of `void MarkDynablock(dynablock_t* db)`. -/
def MarkDynablock (s : State) (db : Nat) : Except Fault State :=
  if db = 0 then .ok s
  else do
    let b ← s.getBlock db
    let db1 := if b.father ≠ 0 then b.father else db
    let f ← s.getBlock db1
    if f.nolinker ≠ 0 then .ok (s.setBlock db1 { f with need_test := 1 })
    else .ok s

/-- The loop `for (int i=0; i<textsz; ++i) { db = direct[i]; if(db) MarkDynablock(db); }`
of `MarkDynablockList`, from index `i` on, `n` rounds. -/
def MarkDynablockList_loop (dynablocks : Nat) : Nat → Nat → State → Except Fault State
  | 0, _, s => .ok s
  | n + 1, i, s => do
    let db ← s.readDirect dynablocks i
    let s1 ← if db ≠ 0 then MarkDynablock s db else .ok s
    MarkDynablockList_loop dynablocks n (i + 1) s1

/-- Embedding of `void MarkDynablockList(dynablocklist_t** dynablocks)`. The
argument is `none` for a null `dynablocks` and `some p` when `*dynablocks` is
`p`. -/
def MarkDynablockList (s : State) (dynablocks : Option Nat) : Except Fault State :=
  match dynablocks with
  | none => .ok s
  | some p =>
    if p = 0 then .ok s
    else do
      let l ← s.getList p
      if l.nolinker = 0 then .ok s
      else if l.direct.isSome then MarkDynablockList_loop p l.textsz 0 s
      else .ok s

/-- The loop `for(uintptr_t i = start; i<end; ++i) if(direct[i-startdb])
MarkDynablock(direct[i-startdb]);` of `MarkDirectDynablock`, from `i` on, `n`
rounds. -/
def MarkDirectDynablock_loop (dynablocks startdb : Nat) : Nat → Nat → State → Except Fault State
  | 0, _, s => .ok s
  | n + 1, i, s => do
    let db ← s.readDirect dynablocks (subU32 i startdb)
    let s1 ← if db ≠ 0 then MarkDynablock s db else .ok s
    MarkDirectDynablock_loop dynablocks startdb n (i + 1) s1

/-- Embedding of `void MarkDirectDynablock(dynablocklist_t*, uintptr_t addr, uintptr_t size)`. -/
def MarkDirectDynablock (s : State) (dynablocks addr size : Nat) : Except Fault State :=
  if dynablocks = 0 then .ok s
  else do
    let l ← s.getList dynablocks
    if l.nolinker = 0 then .ok s
    else
      let startdb := l.text
      let enddb := (startdb + l.textsz) % W32
      let start := if addr < startdb then startdb else addr
      let end0 := (addr + size) % W32
      let end1 := if end0 > enddb then enddb else end0
      if end1 > startdb ∧ start < enddb then
        MarkDirectDynablock_loop dynablocks startdb (end1 - start) start s
      else .ok s

/-- Embedding of `void MarkRangeDynablock(dynablocklist_t*, uintptr_t addr, uintptr_t size)`. -/
def MarkRangeDynablock (s : State) (dynablocks addr size : Nat) : Except Fault State :=
  if dynablocks = 0 then .ok s
  else do
    let l ← s.getList dynablocks
    if l.nolinker = 0 then .ok s
    else if l.direct.isSome then MarkDirectDynablock s dynablocks addr size
    else .ok s

/-! ## `FreeRangeDynablock` -/

/-- Modelled from the spec: the `khash` set of block pointers that
`FreeRangeDynablock` fills (`khash.h` is not among the sources): `kh_put` of a
key that is present changes nothing, and the keys are visited in the order in
which they were first put. -/
def kh_put (blocks : List Nat) (db : Nat) : List Nat :=
  if db ∈ blocks then blocks else blocks ++ [db]

/-- The loop of `FreeRangeDynablock` that empties the slots of the range and
collects the blocks found there, a son replaced by its father. -/
def FreeRangeDynablock_collect (dynablocks startdb : Nat) :
    Nat → Nat → State → List Nat → Except Fault (State × List Nat)
  | 0, _, s, blocks => .ok (s, blocks)
  | n + 1, i, s, blocks => do
    let (db, s1) ← arm_lock_xchg_direct s dynablocks (subU32 i startdb) 0
    if db ≠ 0 then
      let b ← s1.getBlock db
      let db1 := if b.father ≠ 0 then b.father else db
      FreeRangeDynablock_collect dynablocks startdb n (i + 1) s1 (kh_put blocks db1)
    else
      FreeRangeDynablock_collect dynablocks startdb n (i + 1) s1 blocks

/-- The loop `kh_foreach_value(blocks, db, FreeDynablock(db);)`. -/
def FreeRangeDynablock_purge (fuel : Nat) : List Nat → State → Except Fault State
  | [], s => .ok s
  | db :: rest, s => do
    let s1 ← FreeDynablock fuel s db
    FreeRangeDynablock_purge fuel rest s1

/-- Embedding of `void FreeRangeDynablock(dynablocklist_t*, uintptr_t addr, uintptr_t size)`.
The first argument is the recursion budget of each `FreeDynablock` call. -/
def FreeRangeDynablock (fuel : Nat) (s : State) (dynablocks addr size : Nat) :
    Except Fault State :=
  if dynablocks = 0 then .ok s
  else do
    let l ← s.getList dynablocks
    if l.direct.isSome then
      let startdb := l.text
      let enddb := (startdb + l.textsz) % W32
      let start := if addr < startdb then startdb else addr
      let end0 := (addr + size) % W32
      let end1 := if end0 > enddb then enddb else end0
      let (s1, blocks) ←
        if end1 > startdb ∧ start < enddb then
          FreeRangeDynablock_collect dynablocks startdb (end1 - start) start s []
        else .ok (s, [])
      FreeRangeDynablock_purge fuel blocks s1
    else .ok s

/-! ## `AddNewDynablock` -/

/-- Embedding of `static dynablocklist_t* getDBFromAddress(uintptr_t addr)`. -/
def getDBFromAddress (s : State) (addr : Nat) : Nat :=
  match s.dynmap[addr >>> s.DYNAMAP_SHIFT]? with
  | some (some d) => d
  | _ => 0

/-- Modelled from the spec: `arm_lock_storeifnull` (an assembly helper that is
not among the sources), "if the slot is null, store the new block", on the
entry `dynablocks->direct[idx]`. As its caller expects, the result is the
content of the slot after the operation: the new value when it was stored,
the value found otherwise. -/
def arm_lock_storeifnull_direct (s : State) (dynablocks idx v : Nat) :
    Except Fault (Nat × State) := do
  let old ← s.readDirect dynablocks idx
  if old = 0 then
    let s1 ← s.writeDirect dynablocks idx v
    .ok (v, s1)
  else .ok (old, s)

/-- Embedding of `dynablock_t *AddNewDynablock(dynablocklist_t*, uintptr_t addr, int* created)`.
The last argument is the value of `*created` on entry; the result is the
state, the returned block and the value of `*created` on exit. The first
argument bounds the number of nested calls. Both `calloc` calls succeed. -/
def AddNewDynablock : Nat → State → Nat → Nat → Nat → Except Fault (State × Nat × Nat)
  | 0, _, _, _, _ => .error .outOfFuel
  | fuel + 1, s, dynablocks, addr, created =>
    if dynablocks = 0 then .ok (s, 0, 0)
    else do
      let l ← s.getList dynablocks
      if addr < l.text ∨ addr ≥ (l.text + l.textsz) % W32 then
        AddNewDynablock fuel s (getDBFromAddress s addr) addr created
      else
        let found ←
          if l.direct.isSome then s.readDirect dynablocks (subU32 addr l.text)
          else .ok 0
        if found ≠ 0 then .ok (s, found, 0)
        else if created = 0 then .ok (s, 0, created)
        else
          let s1 :=
            if l.direct.isSome then s
            else s.setList dynablocks { l with direct := some (List.replicate l.textsz 0) }
          let block := s1.blocks.length + 1
          let s2 : State := { s1 with blocks := s1.blocks ++ [dynablock_t.zero] }
          let (tmp, s3) ← arm_lock_storeifnull_direct s2 dynablocks (subU32 addr l.text) block
          if tmp ≠ block then .ok (s3.emit (.free block), tmp, 0)
          else do
            let b ← s3.getBlock block
            .ok (s3.setBlock block { b with parent := dynablocks }, block, 1)

/-! ## States used to instantiate the theorems -/

/-- Two directories, `[16, 32)` without a `direct` array and `[32, 48)` with
an empty one, reachable through shards of 16 bytes; no block yet. -/
def exState0 : State :=
  { blocks := []
    lists := [ { text := 16, textsz := 16, nolinker := 1, base := 0, direct := none },
               { text := 32, textsz := 16, nolinker := 1, base := 0,
                 direct := some (List.replicate 16 0) } ]
    dynmap := [none, some 1, some 2]
    DYNAMAP_SHIFT := 4
    trace := [] }

/-- The first directory of `exState0`. -/
def exList1 : dynablocklist_t :=
  { text := 16, textsz := 16, nolinker := 1, base := 0, direct := none }

/-- The second directory of `exState0`. -/
def exList2 : dynablocklist_t :=
  { text := 32, textsz := 16, nolinker := 1, base := 0, direct := some (List.replicate 16 0) }

/-- The state `exState0` after a block was created at address 33. -/
def exState1 : State :=
  { exState0 with
    blocks := [ { dynablock_t.zero with parent := 2, x86_addr := 33 } ]
    lists := [ { text := 16, textsz := 16, nolinker := 1, base := 0, direct := none },
               { text := 32, textsz := 16, nolinker := 1, base := 0,
                 direct := some ((List.replicate 16 0).set 1 1) } ] }

/-- The second directory of `exState1`. -/
def exList2b : dynablocklist_t :=
  { text := 32, textsz := 16, nolinker := 1, base := 0,
    direct := some ((List.replicate 16 0).set 1 1) }

/-! ## Vocabulary of the statements about `FreeDynablock` -/

/-- A pointer cell after some frees: what it held, or null. -/
def slotRel (x y : Nat) : Prop := y = x ∨ y = 0

/-- A block after some frees: untouched, or it was live and is now gone with
`done = 0`, entries of its `sons` possibly nulled, every other field kept. -/
def blockRel (b b' : dynablock_t) : Prop :=
  b' = b ∨ (b.gone = 0 ∧ ∃ sons', List.Forall₂ slotRel b.sons sons' ∧
    b' = { b with done := 0, gone := 1, sons := sons' })

/-- A `direct` array after some frees: still unallocated, or the same array
with some slots nulled. -/
def directRel : Option (List Nat) → Option (List Nat) → Prop
  | none, none => True
  | some a, some a' => List.Forall₂ slotRel a a'
  | _, _ => False

/-- A directory after some frees: only slots of `direct` may have been nulled. -/
def listRel (l l' : dynablocklist_t) : Prop :=
  ∃ d', directRel l.direct d' ∧ l' = { l with direct := d' }

/-- What a run of frees may do to the memory, the call trace left aside. -/
structure Evolves (s s' : State) : Prop where
  blocks : List.Forall₂ blockRel s.blocks s'.blocks
  lists : List.Forall₂ listRel s.lists s'.lists
  dynmap : s'.dynmap = s.dynmap
  shift : s'.DYNAMAP_SHIFT = s.DYNAMAP_SHIFT

/-- The pointer designates a block with `gone = 0`. -/
def State.live (s : State) (p : Nat) : Prop :=
  ∃ b, s.getBlock p = .ok b ∧ b.gone = 0

/-- The number of blocks with `gone = 0`. -/
def State.liveCount (s : State) : Nat :=
  s.blocks.countP (fun b => b.gone = 0)

/-- Pointers are sound: the `parent` of every block designates a directory,
every entry of a `sons` array is null or designates a block, and an allocated
`direct` array has at least `textsz` slots. -/
def State.WF (s : State) : Prop :=
  (∀ b ∈ s.blocks, (b.parent ≠ 0 ∧ b.parent ≤ s.lists.length) ∧
      ∀ q ∈ b.sons, q ≤ s.blocks.length) ∧
  (∀ l ∈ s.lists, ∀ arr ∈ l.direct, l.textsz ≤ arr.length)

instance (s : State) : Decidable s.WF :=
  inferInstanceAs (Decidable (_ ∧ _))

/-- The calls that freeing the block `p` contributes to the trace:
`FreeDynarecMap(block, size)` when it has no father, then `free(p)`. -/
def releaseEvents (s : State) (p : Nat) : List Event :=
  match s.getBlock p with
  | .ok b => (if b.father = 0 then [Event.FreeDynarecMap b.block b.size] else []) ++ [Event.free p]
  | .error _ => []

/-- The calls that freeing the blocks `ps`, in this order, contributes. -/
def eventsOf (s : State) (ps : List Nat) : List Event :=
  ps.flatMap (releaseEvents s)

/-- The blocks reachable from `db` along non-null `sons[]` entries of blocks
with `gone = 0`. -/
inductive Desc (s : State) (db : Nat) : Nat → Prop where
  | self : Desc s db db
  | son {p q : Nat} {b : dynablock_t} : Desc s db p → s.getBlock p = .ok b → b.gone = 0 →
      q ∈ b.sons → q ≠ 0 → Desc s db q

/-- The slot of `b` in its directory, `parent.direct[x86_addr - text]`, is
null whenever it exists. -/
def State.slotCleared (s : State) (b : dynablock_t) : Prop :=
  ∀ parent arr, s.getList b.parent = .ok parent → parent.direct = some arr →
    parent.covers b.x86_addr → arr[b.x86_addr - parent.text]? = some 0

/-- The trace entry is a call of `FreeDynarecMap`. -/
def Event.isFreeDynarecMap : Event → Bool
  | .FreeDynarecMap _ _ => true
  | _ => false

/-- What a call `FreeDynablock(db)` that starts in `s` and ends in `s'` has
done; `ps` lists the blocks it freed, in the order of their release. -/
structure FreePost (s : State) (db : Nat) (s' : State) (ps : List Nat) : Prop where
  ev : Evolves s s'
  nodup : ps.Nodup
  mem : ∀ p, p ∈ ps ↔ (s.live p ∧ ¬ s'.live p)
  trace : s'.trace = s.trace ++ eventsOf s ps
  desc : ∀ p ∈ ps, Desc s db p
  gone : db ≠ 0 → ¬ s'.live db
  own : ∀ b, s.getBlock db = .ok b → b.gone = 0 →
    s'.getBlock db = .ok { b with done := 0, gone := 1, sons := List.replicate b.sons.length 0 } ∧
    s'.slotCleared b ∧ ∀ q ∈ b.sons, q ≠ 0 → ¬ s'.live q

/-- The state `t` before round `i` of the loop over the sons of `db`, in a
call `FreeDynablock(db)` that started in `s` where `db` held the live block
`b`; `ps` lists the blocks released so far. -/
structure SonsInv (s : State) (db : Nat) (b : dynablock_t) (i : Nat) (t : State)
    (ps : List Nat) : Prop where
  ev : Evolves s t
  nodup : (db :: ps).Nodup
  mem : ∀ p, p ∈ db :: ps ↔ (s.live p ∧ ¬ t.live p)
  trace : t.trace = s.trace ++ eventsOf s ps
  desc : ∀ p ∈ ps, Desc s db p
  own : t.getBlock db =
    .ok { b with done := 0, gone := 1, sons := List.replicate i 0 ++ b.sons.drop i }
  cleared : t.slotCleared b
  sonsGone : ∀ j < i, ∀ q, b.sons[j]? = some q → q ≠ 0 → ¬ t.live q

/-- The father of `exState2`. -/
def exFather : dynablock_t :=
  { dynablock_t.zero with
    parent := 1, block := 4096, size := 64, x86_addr := 17, x86_size := 8, nolinker := 1,
    sons := [2] }

/-- The son of `exState2`. -/
def exSon : dynablock_t :=
  { dynablock_t.zero with
    parent := 1, block := 4128, size := 32, x86_addr := 20, x86_size := 5, nolinker := 1,
    father := 1 }

/-- A father (block 1, at address 17) with one son (block 2, at address 20)
in the directory `[16, 32)`; the son is also entered at the offset of
address 21. -/
def exState2 : State :=
  { blocks := [exFather, exSon]
    lists := [ { text := 16, textsz := 16, nolinker := 1, base := 0,
                 direct := some [0, 1, 0, 0, 2, 2, 0, 0, 0, 0, 0, 0, 0, 0, 0, 0] } ]
    dynmap := [none, some 1]
    DYNAMAP_SHIFT := 4
    trace := [] }

/-- The state `exState2` after `FreeDynablock` on the son: the son is gone and
its slot at the offset of address 20 is null; the entry at the offset of
address 21 and the `sons` array of the father are as before. -/
def exState2_son_freed : State :=
  { blocks := [exFather, { exSon with gone := 1 }]
    lists := [ { text := 16, textsz := 16, nolinker := 1, base := 0,
                 direct := some [0, 1, 0, 0, 0, 2, 0, 0, 0, 0, 0, 0, 0, 0, 0, 0] } ]
    dynmap := [none, some 1]
    DYNAMAP_SHIFT := 4
    trace := [Event.free 2] }

/-- A directory with `nolinker = 0` that holds one live top-level block at
address 17. -/
def exState3 : State :=
  { blocks := [ { dynablock_t.zero with parent := 1, block := 4096, size := 64, x86_addr := 17 } ]
    lists := [ { text := 16, textsz := 4, nolinker := 0, base := 0, direct := some [0, 1, 0, 0] } ]
    dynmap := [none, some 1]
    DYNAMAP_SHIFT := 4
    trace := [] }

/-- The directory of `exState3`. -/
def exList3 : dynablocklist_t :=
  { text := 16, textsz := 4, nolinker := 0, base := 0, direct := some [0, 1, 0, 0] }

/-- The state `exState3` after `FreeRangeDynablock` on the byte at address 17. -/
def exState3_freed : State :=
  { blocks := [ { dynablock_t.zero with
                  parent := 1, block := 4096, size := 64, x86_addr := 17, gone := 1 } ]
    lists := [ { text := 16, textsz := 4, nolinker := 0, base := 0, direct := some [0, 0, 0, 0] } ]
    dynmap := [none, some 1]
    DYNAMAP_SHIFT := 4
    trace := [Event.FreeDynarecMap 4096 64, Event.free 1] }

/-! ## Vocabulary of the statements about marking -/

/-- The block `f` is the one `MarkDynablock` selects for some block found in
`direct` at a guest address of `[lo, hi)`: the father of the block found when
it has one, the block found otherwise. -/
def MarkHit (s : State) (arr : List Nat) (text lo hi f : Nat) : Prop :=
  ∃ i d bd, lo ≤ i ∧ i < hi ∧ arr[i - text]? = some d ∧ d ≠ 0 ∧ s.getBlock d = .ok bd ∧
    f = (if bd.father ≠ 0 then bd.father else d)

/-- The state `t` of the marking loop over `[lo, i)` that started in `s`:
nothing but `need_test` of the selected `nolinker` blocks has changed. -/
structure MarkInv (s : State) (arr : List Nat) (text lo i : Nat) (t : State) : Prop where
  lists : t.lists = s.lists
  dynmap : t.dynmap = s.dynmap
  shift : t.DYNAMAP_SHIFT = s.DYNAMAP_SHIFT
  trace : t.trace = s.trace
  marked : ∀ p bp, s.getBlock p = .ok bp → bp.nolinker ≠ 0 → MarkHit s arr text lo i p →
    t.getBlock p = .ok { bp with need_test := 1 }
  others : ∀ p bp, s.getBlock p = .ok bp → ¬ (bp.nolinker ≠ 0 ∧ MarkHit s arr text lo i p) →
    t.getBlock p = .ok bp

/-- A directory with `nolinker = 1` whose slots hold a father (block 1), its
son (block 2) and a block of its own (block 3) with `nolinker = 0`. -/
def exState4 : State :=
  { blocks := [ { dynablock_t.zero with parent := 1, x86_addr := 17, nolinker := 1, sons := [2] },
                { dynablock_t.zero with parent := 1, x86_addr := 18, nolinker := 1, father := 1 },
                { dynablock_t.zero with parent := 1, x86_addr := 19 } ]
    lists := [ { text := 16, textsz := 4, nolinker := 1, base := 0, direct := some [0, 1, 2, 3] } ]
    dynmap := [none, some 1]
    DYNAMAP_SHIFT := 4
    trace := [] }

/-- The directory of `exState4`. -/
def exList4 : dynablocklist_t :=
  { text := 16, textsz := 4, nolinker := 1, base := 0, direct := some [0, 1, 2, 3] }


/-! ## Dispatch: `internalDBGetBlock`, `DBGetBlock`, `DBAlternateBlock` -/

/-- What the dispatch path takes from outside of `dynablock.c`: the guest
memory that `X31_hash_code` reads, the translator `FillBlock(block, filladdr)`
as the change it makes to the memory, and the ELF-loader lookup
`GetDynablocksFromAddress(emu->context, addr)` as the directory pointer it
returns. -/
structure Env where
  mem : Nat → Nat
  FillBlock : State → Nat → Nat → State
  GetDynablocksFromAddress : Nat → Nat

/-- The part `if(current) { ... }` of `internalDBGetBlock`: the values of
`dynablocks` and `block` after it. A non-null `block` is what the function
returns at once. -/
def internalDBGetBlock_hint (s : State) (addr current : Nat) : Except Fault (Nat × Nat) :=
  if current = 0 then .ok (0, 0)
  else do
    let c ← s.getBlock current
    let l ← s.getList c.parent
    if ¬ (addr ≥ l.text ∧ addr < (l.text + l.textsz) % W32) then .ok (0, 0)
    else if l.direct.isSome ∧ addr ≥ l.text ∧ addr < (l.text + l.textsz) % W32 then do
      let block ← s.readDirect c.parent (subU32 addr l.text)
      .ok (c.parent, block)
    else .ok (c.parent, 0)

/-- Embedding of `static dynablock_t* internalDBGetBlock(emu, addr, filladdr, create, current)`.
The result is the state and the returned block. The first argument after the
environment is the recursion budget of `AddNewDynablock`. The call of
`FillBlock` is recorded in the trace before its effect is applied. -/
def internalDBGetBlock (env : Env) (fuel : Nat) (s : State)
    (addr filladdr create current : Nat) : Except Fault (State × Nat) :=
  match internalDBGetBlock_hint s addr current with
  | .error e => .error e
  | .ok (dyn0, blk0) =>
    if blk0 ≠ 0 then .ok (s, blk0)
    else
      let dyn1 := if dyn0 = 0 then getDBFromAddress s addr else dyn0
      let dyn2 := if dyn1 = 0 then env.GetDynablocksFromAddress addr else dyn1
      if dyn2 = 0 then .ok (s, 0)
      else
        match s.getList dyn2 with
        | .error e => .error e
        | .ok l =>
          match (if l.direct.isSome ∧ l.covers addr then s.readDirect dyn2 (subU32 addr l.text)
                 else .ok 0) with
          | .error e => .error e
          | .ok block =>
            if block ≠ 0 then .ok (s, block)
            else
              match AddNewDynablock fuel s dyn2 addr create with
              | .error e => .error e
              | .ok (s1, blk, created) =>
                if created = 0 then .ok (s1, blk)
                else
                  match s1.getBlock blk with
                  | .error e => .error e
                  | .ok b =>
                    let s2 := s1.setBlock blk { b with x86_addr := addr }
                    .ok (env.FillBlock (s2.emit (.FillBlock blk filladdr)) blk filladdr, blk)

/-- The test `db->need_test || (db->father && db->father->need_test)`. -/
def needsTest (s : State) (b : dynablock_t) : Except Fault Bool :=
  if b.need_test ≠ 0 then .ok true
  else if b.father ≠ 0 then
    match s.getBlock b.father with
    | .error e => .error e
    | .ok fb => .ok (decide (fb.need_test ≠ 0))
  else .ok false

/-- The value `father->nolinker ? X31_hash_code(father->x86_addr, father->x86_size) : 0`. -/
def currentHash (env : Env) (f : dynablock_t) : Nat :=
  if f.nolinker ≠ 0 then X31_hash_code env.mem f.x86_addr f.x86_size else 0

/-- The lines `if(*current && father->x86_addr>=(*current)->x86_addr &&
(father->x86_addr+father->x86_size)<(*current)->x86_addr) *current = NULL;` of
`DBGetBlock`: the value of `*current` after them. -/
def DBGetBlock_dropCurrent (s : State) (f : dynablock_t) (current : Nat) : Except Fault Nat :=
  if current = 0 then .ok 0
  else
    match s.getBlock current with
    | .error e => .error e
    | .ok c =>
      if f.x86_addr ≥ c.x86_addr ∧ (f.x86_addr + f.x86_size) % W32 < c.x86_addr then .ok 0
      else .ok current

/-- Embedding of `dynablock_t* DBGetBlock(emu, addr, create, dynablock_t** current)`.
The last argument is the value of `*current` on entry; the result is the state,
the returned block and the value of `*current` on exit. -/
def DBGetBlock (env : Env) (fuel : Nat) (s : State) (addr create current : Nat) :
    Except Fault (State × Nat × Nat) :=
  match internalDBGetBlock env fuel s addr addr create current with
  | .error e => .error e
  | .ok (s1, db) =>
    if db = 0 then .ok (s1, db, current)
    else
      match s1.getBlock db with
      | .error e => .error e
      | .ok b =>
        match needsTest s1 b with
        | .error e => .error e
        | .ok false => .ok (s1, db, current)
        | .ok true =>
          let father := if b.father ≠ 0 then b.father else db
          match s1.getBlock father with
          | .error e => .error e
          | .ok f =>
            if currentHash env f ≠ f.hash then
              match DBGetBlock_dropCurrent s1 f current with
              | .error e => .error e
              | .ok cur1 =>
                match FreeDynablock fuel s1 father with
                | .error e => .error e
                | .ok s2 =>
                  match internalDBGetBlock env fuel s2 addr addr create cur1 with
                  | .error e => .error e
                  | .ok (s3, db1) => .ok (s3, db1, cur1)
            else
              .ok ((s1.setBlock father { f with need_test := 0 }).emit
                    (.protectDB f.x86_addr f.x86_size), db, current)

/-- Embedding of `dynablock_t* DBAlternateBlock(emu, addr, filladdr)`. -/
def DBAlternateBlock (env : Env) (fuel : Nat) (s : State) (addr filladdr : Nat) :
    Except Fault (State × Nat) :=
  match internalDBGetBlock env fuel s addr filladdr 1 0 with
  | .error e => .error e
  | .ok (s1, db) =>
    if db = 0 then .ok (s1, db)
    else
      match s1.getBlock db with
      | .error e => .error e
      | .ok b =>
        match needsTest s1 b with
        | .error e => .error e
        | .ok false => .ok (s1, db)
        | .ok true =>
          let father := if b.father ≠ 0 then b.father else db
          match s1.getBlock father with
          | .error e => .error e
          | .ok f =>
            if currentHash env f ≠ f.hash then
              match FreeDynablock fuel s1 father with
              | .error e => .error e
              | .ok s2 => internalDBGetBlock env fuel s2 addr filladdr 1 0
            else
              .ok ((s1.setBlock father { f with need_test := 0 }).emit
                    (.protectDB f.x86_addr f.x86_size), db)

/-! ## `FindDynablockDynablocklist` -/

/-- The test `(uintptr_t)addr>=s && (uintptr_t)addr<e` of
`FindDynablockDynablocklist`, with `s = db->block` and `e = db->block + db->size`
computed on `uintptr_t`. -/
def dynablock_t.holdsNative (b : dynablock_t) (addr : Nat) : Prop :=
  addr ≥ b.block ∧ addr < (b.block + b.size) % W32

instance (b : dynablock_t) (addr : Nat) : Decidable (b.holdsNative addr) :=
  inferInstanceAs (Decidable (_ ∧ _))

/-- The loop `for(int i=0; i<dynablocks->textsz; ++i)` of
`FindDynablockDynablocklist`, from index `i` on, `n` rounds. -/
def FindDynablockDynablocklist_loop (s : State) (addr dynablocks : Nat) :
    Nat → Nat → Except Fault Nat
  | 0, _ => .ok 0
  | n + 1, i =>
    match s.readDirect dynablocks i with
    | .error e => .error e
    | .ok db =>
      if db ≠ 0 then
        match s.getBlock db with
        | .error e => .error e
        | .ok b =>
          if b.holdsNative addr then .ok (if b.father ≠ 0 then b.father else db)
          else FindDynablockDynablocklist_loop s addr dynablocks n (i + 1)
      else FindDynablockDynablocklist_loop s addr dynablocks n (i + 1)

/-- Embedding of `dynablock_t* FindDynablockDynablocklist(void* addr, dynablocklist_t*)`.
The function writes nothing, so its result is the returned block alone. -/
def FindDynablockDynablocklist (s : State) (addr dynablocks : Nat) : Except Fault Nat :=
  if dynablocks = 0 then .ok 0
  else
    match s.getList dynablocks with
    | .error e => .error e
    | .ok l =>
      if l.direct.isSome then FindDynablockDynablocklist_loop s addr dynablocks l.textsz 0
      else .ok 0

/-! ## States and collaborators used to instantiate the dispatch theorems -/

/-- A guest memory: the byte at address `a` is `a mod 251`. -/
def exMem : Nat → Nat := fun a => a % 251

/-- A translator that fills in a block of two guest bytes: native code at
8192, 16 bytes long, the hash of the two bytes at the fill address, `nolinker`
and `done` set; nothing else changes. -/
def exFill (s : State) (block filladdr : Nat) : State :=
  match s.getBlock block with
  | .ok b =>
    s.setBlock block
      { b with block := 8192, size := 16, x86_size := 2,
               hash := X31_hash_code exMem filladdr 2, nolinker := 1, done := 1 }
  | .error _ => s

/-- The collaborators used in the examples; the ELF loader knows no directory. -/
def exEnv : Env :=
  { mem := exMem, FillBlock := exFill, GetDynablocksFromAddress := fun _ => 0 }

/-- A block at address 17 whose stored hash (0) differs from the hash of its
two guest bytes, with `need_test` set. -/
def exStale : dynablock_t :=
  { dynablock_t.zero with
    parent := 1, block := 4096, size := 64, x86_addr := 17, x86_size := 2, need_test := 1,
    nolinker := 1 }

/-- The directory `[16, 20)` with `exStale` (block 1) at the offset of address 17. -/
def exState6 : State :=
  { blocks := [exStale]
    lists := [ { text := 16, textsz := 4, nolinker := 1, base := 0, direct := some [0, 1, 0, 0] } ]
    dynmap := [none, some 1]
    DYNAMAP_SHIFT := 4
    trace := [] }

/-- The directory of `exState6`. -/
def exList6 : dynablocklist_t :=
  { text := 16, textsz := 4, nolinker := 1, base := 0, direct := some [0, 1, 0, 0] }

/-- The state `exState6` after `DBGetBlock` at address 17 with the stale block
as hint: the stale block is gone, a new block 2 sits in its slot. -/
def exState6_after : State :=
  { blocks := [ { exStale with gone := 1 },
                { dynablock_t.zero with
                  parent := 1, block := 8192, size := 16, x86_addr := 17, x86_size := 2,
                  hash := 545, done := 1, nolinker := 1 } ]
    lists := [ { text := 16, textsz := 4, nolinker := 1, base := 0, direct := some [0, 2, 0, 0] } ]
    dynmap := [none, some 1]
    DYNAMAP_SHIFT := 4
    trace := [Event.FreeDynarecMap 4096 64, Event.free 1, Event.FillBlock 2 17] }

/-! ## Vocabulary of the statements about the dispatch path -/

/-- The directory that `internalDBGetBlock` takes for `addr` when the hint
gives none: the one of the address-space directory, else the one of the ELF
loader. -/
def route (env : Env) (s : State) (addr : Nat) : Nat :=
  if getDBFromAddress s addr = 0 then env.GetDynablocksFromAddress addr
  else getDBFromAddress s addr

/-- The lookup of `internalDBGetBlock(addr, current)` locates the block `db`:
it consults the directory `X`, which is the parent of the hint when that
covers `addr` and the routed directory otherwise, and `X` covers `addr` and
holds `db` at `direct[addr - text]`. -/
def Located (env : Env) (s : State) (addr current X db : Nat) : Prop :=
  (∃ l arr, s.getList X = .ok l ∧ l.covers addr ∧ l.direct = some arr ∧
    arr[addr - l.text]? = some db ∧ db ≠ 0) ∧
  (current = 0 ∧ route env s addr = X ∨
   ∃ c lc, current ≠ 0 ∧ s.getBlock current = .ok c ∧ s.getList c.parent = .ok lc ∧
     (lc.covers addr ∧ c.parent = X ∨ ¬ lc.covers addr ∧ route env s addr = X))

/-- Modelled on the words of the specification: `get_block` with the address
given to `FillBlock` as a parameter of its own; `get_alternate_block` is this
function with `create = 1` and no hint. -/
def DBGetBlock_fill (env : Env) (fuel : Nat) (s : State) (addr filladdr create current : Nat) :
    Except Fault (State × Nat × Nat) :=
  match internalDBGetBlock env fuel s addr filladdr create current with
  | .error e => .error e
  | .ok (s1, db) =>
    if db = 0 then .ok (s1, db, current)
    else
      match s1.getBlock db with
      | .error e => .error e
      | .ok b =>
        match needsTest s1 b with
        | .error e => .error e
        | .ok false => .ok (s1, db, current)
        | .ok true =>
          let father := if b.father ≠ 0 then b.father else db
          match s1.getBlock father with
          | .error e => .error e
          | .ok f =>
            if currentHash env f ≠ f.hash then
              match DBGetBlock_dropCurrent s1 f current with
              | .error e => .error e
              | .ok cur1 =>
                match FreeDynablock fuel s1 father with
                | .error e => .error e
                | .ok s2 =>
                  match internalDBGetBlock env fuel s2 addr filladdr create cur1 with
                  | .error e => .error e
                  | .ok (s3, db1) => .ok (s3, db1, cur1)
            else
              .ok ((s1.setBlock father { f with need_test := 0 }).emit
                    (.protectDB f.x86_addr f.x86_size), db, current)

/-- The block `exStale` with the hash of its guest bytes stored. -/
def exFresh : dynablock_t := { exStale with hash := 545 }

/-- The state `exState6` with `exFresh` in place of `exStale`. -/
def exState6_fresh : State := { exState6 with blocks := [exFresh] }

/-- The slot `k` of the array holds a block whose native code range contains
the address `a`. -/
def NativeHit (s : State) (arr : List Nat) (a k : Nat) : Prop :=
  ∃ d bd, arr[k]? = some d ∧ d ≠ 0 ∧ s.getBlock d = .ok bd ∧ bd.holdsNative a

/-- Two blocks with native code at `[4096, 4160)`, a father (block 1) and its
son (block 2), the son in the lower slot of the directory `[16, 20)`. -/
def exState7 : State :=
  { blocks := [ { dynablock_t.zero with parent := 1, block := 4096, size := 64, x86_addr := 18 },
                { dynablock_t.zero with
                  parent := 1, block := 4128, size := 32, x86_addr := 17, father := 1 } ]
    lists := [ { text := 16, textsz := 4, nolinker := 1, base := 0, direct := some [0, 2, 1, 0] } ]
    dynmap := [none, some 1]
    DYNAMAP_SHIFT := 4
    trace := [] }

/-- The directory of `exState7`. -/
def exList7 : dynablocklist_t :=
  { text := 16, textsz := 4, nolinker := 1, base := 0, direct := some [0, 2, 1, 0] }

/-- Two live top-level blocks with the guest address 17; the slot of that
address holds block 2, block 1 is in no slot. -/
def exState8 : State :=
  { blocks := [ { dynablock_t.zero with parent := 1, block := 4096, size := 64, x86_addr := 17 },
                { dynablock_t.zero with parent := 1, block := 8192, size := 64, x86_addr := 17 } ]
    lists := [ { text := 16, textsz := 4, nolinker := 1, base := 0, direct := some [0, 2, 0, 0] } ]
    dynmap := [none, some 1]
    DYNAMAP_SHIFT := 4
    trace := [] }

/-- The state `exState8` after `FreeDynablock` on block 1. -/
def exState8_after : State :=
  { blocks := [ { dynablock_t.zero with
                  parent := 1, block := 4096, size := 64, x86_addr := 17, gone := 1 },
                { dynablock_t.zero with parent := 1, block := 8192, size := 64, x86_addr := 17 } ]
    lists := [ { text := 16, textsz := 4, nolinker := 1, base := 0, direct := some [0, 0, 0, 0] } ]
    dynmap := [none, some 1]
    DYNAMAP_SHIFT := 4
    trace := [Event.FreeDynarecMap 4096 64, Event.free 1] }

/-! ## More vocabulary of the statements about `FreeDynablock` -/

/-- Every `direct` slot that differs between `s` and `s'` is the slot
`x86_addr - text`, in the parent directory, of a block that was live in `s`
and is not live in `s'`. -/
def SlotFrame (s s' : State) : Prop :=
  ∀ (D : Nat) (l l' : dynablocklist_t) (arr arr' : List Nat) (j : Nat),
    s.getList D = .ok l → s'.getList D = .ok l' → l.direct = some arr → l'.direct = some arr' →
    arr'[j]? ≠ arr[j]? →
    ∃ p bp, s.getBlock p = .ok bp ∧ bp.gone = 0 ∧ ¬ s'.live p ∧ bp.parent = D ∧
      l.covers bp.x86_addr ∧ j = bp.x86_addr - l.text

/-- Every block other than `ex` that was live in `s` and is not live in `s'`
has no live block left among the non-null entries its `sons` array had in `s`. -/
def SonsClosed (s s' : State) (ex : Nat) : Prop :=
  ∀ (p : Nat) (bp : dynablock_t), p ≠ ex → s.getBlock p = .ok bp → bp.gone = 0 → ¬ s'.live p →
    ∀ q ∈ bp.sons, q ≠ 0 → ¬ s'.live q

/-- A `sons[]` graph with cycles: block 1 lists its son and itself, block 2
lists its father; block 3 is on its own. -/
def exState9 : State :=
  { blocks := [ { dynablock_t.zero with
                  parent := 1, block := 4096, size := 64, x86_addr := 17, sons := [2, 1] },
                { dynablock_t.zero with
                  parent := 1, block := 4128, size := 32, x86_addr := 18, father := 1,
                  sons := [1] },
                { dynablock_t.zero with parent := 1, block := 8192, size := 64, x86_addr := 19 } ]
    lists := [ { text := 16, textsz := 4, nolinker := 1, base := 0, direct := some [0, 1, 2, 3] } ]
    dynmap := [none, some 1]
    DYNAMAP_SHIFT := 4
    trace := [] }

/-! ## Vocabulary of the statements about `FreeRangeDynablock` -/

/-- The state `t` and the set `blocks` of the collecting loop of
`FreeRangeDynablock` over the guest addresses `[lo, i)` of the directory `D`,
which held `l` with the array `arr` in the starting state `s`: the slots of
these addresses are null, everything else is as in `s`, and `blocks` holds,
once each, the father-or-self of the blocks found. -/
structure CollectInv (s : State) (D : Nat) (l : dynablocklist_t) (arr : List Nat)
    (lo i : Nat) (t : State) (blocks : List Nat) : Prop where
  ev : Evolves s t
  blocks_eq : t.blocks = s.blocks
  trace : t.trace = s.trace
  others : ∀ D', D' ≠ D → t.getList D' = s.getList D'
  slots : ∃ arr_t, t.getList D = .ok { l with direct := some arr_t } ∧
    (∀ j, lo ≤ j + l.text → j + l.text < i → j < arr.length → arr_t[j]? = some 0) ∧
    (∀ j, ¬ (lo ≤ j + l.text ∧ j + l.text < i) → arr_t[j]? = arr[j]?)
  nodup : blocks.Nodup
  mem : ∀ f, f ∈ blocks ↔ MarkHit s arr l.text lo i f

/-- The `FreeDynarecMap` calls that the release of the blocks `ps`
contributes: one for each block without father, in the order of `ps`. -/
def mapCallsOf (s : State) (ps : List Nat) : List Event :=
  ps.flatMap (fun p =>
    match s.getBlock p with
    | .ok b => if b.father = 0 then [Event.FreeDynarecMap b.block b.size] else []
    | .error _ => [])

/-- The directory of `exState9`. -/
def exList9 : dynablocklist_t :=
  { text := 16, textsz := 4, nolinker := 1, base := 0, direct := some [0, 1, 2, 3] }

/-! ## Vocabulary of the statements about the hint of the dispatch path -/

/-- Every directory whose range contains `addr` is the one that the
address-space directory returns for `addr`. -/
def Routed (s : State) (addr : Nat) : Prop :=
  ∀ D l, s.getList D = .ok l → l.covers addr → getDBFromAddress s addr = D

/-- What the dispatch path keeps of the state `s`: every block of `s` is still
there with the same `parent`, every directory with the same range, and the
address-space directory is the same. -/
structure Keeps (s s' : State) : Prop where
  blocks : ∀ p b, s.getBlock p = .ok b → ∃ b', s'.getBlock p = .ok b' ∧ b'.parent = b.parent
  lists : ∀ D l, s.getList D = .ok l →
    ∃ l', s'.getList D = .ok l' ∧ l'.text = l.text ∧ l'.textsz = l.textsz
  dynmap : s'.dynmap = s.dynmap
  shift : s'.DYNAMAP_SHIFT = s.DYNAMAP_SHIFT

/-- The part of `internalDBGetBlock` from `if(!dynablocks) return NULL;` on,
as a function of the directory `dynablocks` chosen before. -/
def internalDBGetBlock_from (env : Env) (fuel : Nat) (s : State)
    (addr filladdr create dyn2 : Nat) : Except Fault (State × Nat) :=
  if dyn2 = 0 then .ok (s, 0)
  else
    match s.getList dyn2 with
    | .error e => .error e
    | .ok l =>
      match (if l.direct.isSome ∧ l.covers addr then s.readDirect dyn2 (subU32 addr l.text)
             else .ok 0) with
      | .error e => .error e
      | .ok block =>
        if block ≠ 0 then .ok (s, block)
        else
          match AddNewDynablock fuel s dyn2 addr create with
          | .error e => .error e
          | .ok (s1, blk, created) =>
            if created = 0 then .ok (s1, blk)
            else
              match s1.getBlock blk with
              | .error e => .error e
              | .ok b =>
                let s2 := s1.setBlock blk { b with x86_addr := addr }
                .ok (env.FillBlock (s2.emit (.FillBlock blk filladdr)) blk filladdr, blk)

/-! ## Vocabulary of the statements about invalidation in `DBGetBlock` -/

/-- Every block that was live in `s` and is not live in `s'` has a null slot
`x86_addr - text` in its parent directory in `s'`. -/
def AllCleared (s s' : State) : Prop :=
  ∀ (p : Nat) (bp : dynablock_t), s.getBlock p = .ok bp → bp.gone = 0 → ¬ s'.live p →
    s'.slotCleared bp

/-- The block `exStale` (block 1) sits in the slot of its own address 17 and
also in the slot of address 18. -/
def exState10 : State :=
  { blocks := [exStale]
    lists := [ { text := 16, textsz := 4, nolinker := 1, base := 0, direct := some [0, 1, 1, 0] } ]
    dynmap := [none, some 1]
    DYNAMAP_SHIFT := 4
    trace := [] }

/-- The state `exState10` after `DBGetBlock` at address 18: block 1 is gone
and still sits in the slot of address 18. -/
def exState10_after : State :=
  { blocks := [ { exStale with gone := 1 } ]
    lists := [ { text := 16, textsz := 4, nolinker := 1, base := 0, direct := some [0, 0, 1, 0] } ]
    dynmap := [none, some 1]
    DYNAMAP_SHIFT := 4
    trace := [Event.FreeDynarecMap 4096 64, Event.free 1] }

/-! ## States used for the statements about hash collisions and index bounds -/

/-- The guest memory at translation time in the collision example: the bytes
`0, 31` at the addresses 17 and 18. -/
def exMemOld : Nat → Nat := fun a => if a = 18 then 31 else 0

/-- The guest memory after the write in the collision example: the bytes
`1, 0` at the addresses 17 and 18. -/
def exMemNew : Nat → Nat := fun a => if a = 17 then 1 else 0

/-- The collaborators of the collision example: the guest memory is `exMemNew`. -/
def exEnvNew : Env :=
  { mem := exMemNew, FillBlock := exFill, GetDynablocksFromAddress := fun _ => 0 }

/-- A block translated from the two bytes `0, 31` at address 17 (stored hash 31),
with `need_test` set. -/
def exCollide : dynablock_t :=
  { dynablock_t.zero with
    parent := 1, block := 4096, size := 64, x86_addr := 17, x86_size := 2, hash := 31,
    need_test := 1, nolinker := 1, done := 1 }

/-- The directory `[16, 20)` with `exCollide` (block 1) at the offset of address 17. -/
def exState11 : State := { exState6 with blocks := [exCollide] }

/-- Every allocated `direct` array has exactly `textsz` slots. -/
def Shaped (s : State) : Prop :=
  ∀ D l arr, s.getList D = .ok l → l.direct = some arr → arr.length = l.textsz

/-- The stale block of `exState6` (block 1, at address 17) next to a live block
with a valid hash (block 2, at address 19) in the directory `[16, 20)`. -/
def exState12 : State :=
  { blocks := [ exStale,
                { dynablock_t.zero with
                  parent := 1, block := 12288, size := 16, x86_addr := 19, x86_size := 1,
                  hash := 19, done := 1, nolinker := 1 } ]
    lists := [ { text := 16, textsz := 4, nolinker := 1, base := 0, direct := some [0, 1, 0, 2] } ]
    dynmap := [none, some 1]
    DYNAMAP_SHIFT := 4
    trace := [] }

/-- The directory of `exState12`. -/
def exList12 : dynablocklist_t :=
  { text := 16, textsz := 4, nolinker := 1, base := 0, direct := some [0, 1, 0, 2] }

/-- The state `exState6` after `FreeDynablock` on its block. -/
def exState6_freed : State :=
  { blocks := [ { exStale with gone := 1 } ]
    lists := [ { text := 16, textsz := 4, nolinker := 1, base := 0, direct := some [0, 0, 0, 0] } ]
    dynmap := [none, some 1]
    DYNAMAP_SHIFT := 4
    trace := [Event.FreeDynarecMap 4096 64, Event.free 1] }

/-! ## The hash -/

theorem toU32_X31_step (h : Int) (b : Nat) :
    toU32 (X31_step h b) = (31 * toU32 h + b) % W32 := by
  unfold toU32 X31_step wrapS32 W32
  omega

theorem toU32_readU8 (mem : Nat → Nat) (p : Nat) :
    toU32 ((readU8 mem p : Nat) : Int) = readU8 mem p := by
  unfold toU32 readU8
  omega

theorem X31_loop_spec (mem : Nat → Nat) (addr : Nat) :
    ∀ (len k : Nat) (h : Int), toU32 h = specHash mem addr k →
      toU32 (X31_loop mem len (addr + (k + 1)) h) = specHash mem addr (k + len) := by
  intro len
  induction len with
  | zero => intro k h hh; simpa [X31_loop] using hh
  | succ n ih =>
    intro k h hh
    have hstep : toU32 (X31_step h (readU8 mem (addr + (k + 1)))) = specHash mem addr (k + 1) := by
      rw [toU32_X31_step, hh]; rfl
    have := ih (k + 1) _ hstep
    have e : k + (n + 1) = k + 1 + n := by omega
    rw [e, ← this]
    rfl

theorem specHash_eq_specPoly (mem : Nat → Nat) (addr : Nat) :
    ∀ k, specHash mem addr k = specPoly mem addr (k + 1) := by
  intro k
  induction k with
  | zero => simp [specHash, specPoly, readU8, W32]; omega
  | succ k ih =>
    unfold specHash
    rw [ih]
    unfold specPoly
    rw [Finset.sum_range_succ _ (k + 1)]
    have : ∑ i in Finset.range (k + 1), readU8 mem (addr + i) * 31 ^ (k + 1 + 1 - 1 - i)
        = 31 * ∑ i in Finset.range (k + 1), readU8 mem (addr + i) * 31 ^ (k + 1 - 1 - i) := by
      rw [Finset.mul_sum]
      apply Finset.sum_congr rfl
      intro i hi
      have hi2 : i < k + 1 := Finset.mem_range.mp hi
      have : k + 1 + 1 - 1 - i = (k + 1 - 1 - i) + 1 := by omega
      rw [this, pow_succ]; ring
    rw [this]
    simp only [Nat.add_sub_cancel, Nat.sub_self, pow_zero, mul_one]
    rw [Nat.add_mod, Nat.mul_mod, Nat.mod_mod, ← Nat.mul_mod, ← Nat.add_mod]

/-- C1: for a byte sequence of length `n >= 1` (the bytes of `mem` from `addr`
on, each read as an unsigned byte), `X31_hash_code` is the value `h_(n-1)` of the
recurrence `h_0 = bytes[0]`, `h_k = (31 * h_(k-1) + bytes[k]) mod 2^32`, and it is
the polynomial `sum of bytes[i] * 31^(n-1-i)` reduced modulo `2^32`. -/
theorem X31_hash_code_spec (mem : Nat → Nat) (addr n : Nat) (hn : 1 ≤ n) :
    X31_hash_code mem addr n = specHash mem addr (n - 1) ∧
    X31_hash_code mem addr n = specPoly mem addr n := by
  obtain ⟨m, rfl⟩ : ∃ m, n = m + 1 := ⟨n - 1, by omega⟩
  have h1 : X31_hash_code mem addr (m + 1) = specHash mem addr m := by
    unfold X31_hash_code
    simp only [Nat.add_one_ne_zero, if_false, Nat.add_sub_cancel]
    have := X31_loop_spec mem addr m 0 ((readU8 mem addr : Nat) : Int) (by rw [toU32_readU8]; rfl)
    simpa using this
  refine ⟨by simpa using h1, ?_⟩
  rw [h1, specHash_eq_specPoly]

/-- Instance of C1 on the three bytes `1, 2, 3` stored at address 100. -/
theorem X31_hash_code_spec_witness :
    1 ≤ 3 ∧
    X31_hash_code (fun a => [1, 2, 3].getD (a - 100) 0) 100 3
      = specHash (fun a => [1, 2, 3].getD (a - 100) 0) 100 (3 - 1) ∧
    X31_hash_code (fun a => [1, 2, 3].getD (a - 100) 0) 100 3
      = specPoly (fun a => [1, 2, 3].getD (a - 100) 0) 100 3 :=
  ⟨by decide, X31_hash_code_spec (fun a => [1, 2, 3].getD (a - 100) 0) 100 3 (by decide)⟩

/-! ## Accessors and `AddNewDynablock` -/

theorem bind_ok {ε α β : Type} (a : α) (f : α → Except ε β) :
    (Except.ok a >>= f) = f a := rfl

theorem bind_error {ε α β : Type} (e : ε) (f : α → Except ε β) :
    ((Except.error e : Except ε α) >>= f) = Except.error e := rfl

theorem subU32_eq (a b : Nat) (h1 : b ≤ a) (h2 : a < W32) : subU32 a b = a - b := by
  unfold subU32 W32 at *
  omega

theorem covers_sub (l : dynablocklist_t) (addr : Nat) (h : l.covers addr) :
    subU32 addr l.text = addr - l.text ∧ addr - l.text < l.textsz ∧ addr < W32 := by
  unfold dynablocklist_t.covers at h
  have h3 : (l.text + l.textsz) % W32 ≤ l.text + l.textsz := Nat.mod_le _ _
  have h4 : (l.text + l.textsz) % W32 < W32 := Nat.mod_lt _ (by unfold W32; omega)
  refine ⟨subU32_eq _ _ h.1 (by omega), by omega, by omega⟩

theorem AddNewDynablock_found (fuel : Nat) (s : State) (D addr created : Nat)
    (l : dynablocklist_t) (arr : List Nat) (b : Nat)
    (hl : s.getList D = .ok l) (hcov : l.covers addr)
    (hd : l.direct = some arr) (hslot : arr[addr - l.text]? = some b) (hb : b ≠ 0) :
    AddNewDynablock (fuel + 1) s D addr created = .ok (s, b, 0) := by
  have hD : D ≠ 0 := by rintro rfl; simp [State.getList] at hl
  obtain ⟨hsub, -, -⟩ := covers_sub l addr hcov
  have hc := hcov
  unfold dynablocklist_t.covers at hc
  have hng : ¬ (addr < l.text ∨ addr ≥ (l.text + l.textsz) % W32) := by omega
  simp [AddNewDynablock, hD, hl, hng, hd, State.readDirect, hsub, hslot, hb, bind, Except.bind]

theorem AddNewDynablock_miss (fuel : Nat) (s : State) (D addr : Nat)
    (l : dynablocklist_t)
    (hl : s.getList D = .ok l) (hcov : l.covers addr)
    (hempty : l.direct = none ∨ ∃ arr, l.direct = some arr ∧ arr[addr - l.text]? = some 0) :
    AddNewDynablock (fuel + 1) s D addr 0 = .ok (s, 0, 0) := by
  have hD : D ≠ 0 := by rintro rfl; simp [State.getList] at hl
  obtain ⟨hsub, -, -⟩ := covers_sub l addr hcov
  have hc := hcov
  unfold dynablocklist_t.covers at hc
  have hng : ¬ (addr < l.text ∨ addr ≥ (l.text + l.textsz) % W32) := by omega
  rcases hempty with hd | ⟨arr, hd, hslot⟩
  · simp [AddNewDynablock, hD, hl, hng, hd, bind, Except.bind]
  · simp [AddNewDynablock, hD, hl, hng, hd, State.readDirect, hsub, hslot, bind, Except.bind]


theorem getList_ne_zero {s : State} {D : Nat} {l : dynablocklist_t}
    (hl : s.getList D = .ok l) : D ≠ 0 ∧ s.lists[D - 1]? = some l := by
  cases D with
  | zero => simp [State.getList] at hl
  | succ i =>
    simp only [State.getList] at hl
    cases h : s.lists[i]? with
    | none => simp [h] at hl
    | some l2 =>
      simp only [h, Except.ok.injEq] at hl
      subst hl
      exact ⟨Nat.succ_ne_zero _, by simpa using h⟩

theorem getBlock_ne_zero {s : State} {p : Nat} {b : dynablock_t}
    (hb : s.getBlock p = .ok b) : p ≠ 0 ∧ s.blocks[p - 1]? = some b := by
  cases p with
  | zero => simp [State.getBlock] at hb
  | succ i =>
    simp only [State.getBlock] at hb
    cases h : s.blocks[i]? with
    | none => simp [h] at hb
    | some l2 =>
      simp only [h, Except.ok.injEq] at hb
      subst hb
      exact ⟨Nat.succ_ne_zero _, by simpa using h⟩

@[simp] theorem getList_setBlock (s : State) (p : Nat) (b : dynablock_t) (D : Nat) :
    (s.setBlock p b).getList D = s.getList D := by
  cases p <;> rfl

@[simp] theorem getBlock_setList (s : State) (D : Nat) (l : dynablocklist_t) (p : Nat) :
    (s.setList D l).getBlock p = s.getBlock p := by
  cases D <;> rfl

@[simp] theorem getList_emit (s : State) (e : Event) (D : Nat) :
    (s.emit e).getList D = s.getList D := rfl

@[simp] theorem getBlock_emit (s : State) (e : Event) (p : Nat) :
    (s.emit e).getBlock p = s.getBlock p := rfl

theorem getList_setList_same {s : State} {D : Nat} {l : dynablocklist_t}
    (hl : s.getList D = .ok l) (l2 : dynablocklist_t) :
    (s.setList D l2).getList D = .ok l2 := by
  obtain ⟨hD, hget⟩ := getList_ne_zero hl
  obtain ⟨i, rfl⟩ : ∃ i, D = i + 1 := ⟨D - 1, by omega⟩
  have hi : i < s.lists.length := by
    simp at hget
    exact (List.getElem?_eq_some_iff.mp hget).1
  simp [State.getList, State.setList, hi]

theorem getList_setList_ne (s : State) {D D2 : Nat} (l2 : dynablocklist_t) (h : D2 ≠ D) :
    (s.setList D l2).getList D2 = s.getList D2 := by
  cases D with
  | zero => rfl
  | succ i =>
    cases D2 with
    | zero => rfl
    | succ j =>
      have : i ≠ j := by omega
      simp [State.getList, State.setList, List.getElem?_set_ne this]

theorem getBlock_setBlock_same {s : State} {p : Nat} {b : dynablock_t}
    (hb : s.getBlock p = .ok b) (b2 : dynablock_t) :
    (s.setBlock p b2).getBlock p = .ok b2 := by
  obtain ⟨hD, hget⟩ := getBlock_ne_zero hb
  obtain ⟨i, rfl⟩ : ∃ i, p = i + 1 := ⟨p - 1, by omega⟩
  have hi : i < s.blocks.length := by
    simp at hget
    exact (List.getElem?_eq_some_iff.mp hget).1
  simp [State.getBlock, State.setBlock, hi]

theorem getBlock_setBlock_ne (s : State) {p q : Nat} (b2 : dynablock_t) (h : q ≠ p) :
    (s.setBlock p b2).getBlock q = s.getBlock q := by
  cases p with
  | zero => rfl
  | succ i =>
    cases q with
    | zero => rfl
    | succ j =>
      have : i ≠ j := by omega
      simp [State.getBlock, State.setBlock, List.getElem?_set_ne this]

theorem AddNewDynablock_create (fuel : Nat) (s : State) (D addr created : Nat)
    (l : dynablocklist_t)
    (hl : s.getList D = .ok l) (hcov : l.covers addr)
    (hempty : l.direct = none ∨ ∃ arr, l.direct = some arr ∧ arr[addr - l.text]? = some 0)
    (hc : created ≠ 0) :
    AddNewDynablock (fuel + 1) s D addr created =
      .ok ({ s with
              blocks := s.blocks ++ [{ dynablock_t.zero with parent := D }]
              lists := s.lists.set (D - 1)
                { l with direct := some (((l.direct.getD (List.replicate l.textsz 0)).set
                    (addr - l.text) (s.blocks.length + 1))) } },
           s.blocks.length + 1, 1) := by
  obtain ⟨hD, hget⟩ := getList_ne_zero hl
  obtain ⟨hsub, hlt, -⟩ := covers_sub l addr hcov
  have hc2 := hcov
  unfold dynablocklist_t.covers at hc2
  have hng : ¬ (addr < l.text ∨ addr ≥ (l.text + l.textsz) % W32) := by omega
  obtain ⟨i, rfl⟩ : ∃ i, D = i + 1 := ⟨D - 1, by omega⟩
  simp only [Nat.add_sub_cancel] at hget
  obtain ⟨hi, hli⟩ := List.getElem?_eq_some_iff.mp hget
  subst hli
  clear hl
  rcases hempty with hd | ⟨arr, hd, hslot⟩
  · simp [AddNewDynablock, hng, hd, State.readDirect, State.writeDirect, State.setList,
      State.getList, State.getBlock, State.setBlock, arm_lock_storeifnull_direct, hsub, hc,
      bind, Except.bind, hi, hlt, dynablock_t.zero]
  · have hlt2 : addr - s.lists[i].text < arr.length := (List.getElem?_eq_some_iff.mp hslot).1
    simp [AddNewDynablock, hng, hd, State.readDirect, State.writeDirect, State.setList,
      State.getList, State.getBlock, State.setBlock, arm_lock_storeifnull_direct, hsub, hc,
      bind, Except.bind, hi, hlt2, hslot, dynablock_t.zero, State.emit]


theorem AddNewDynablock_unfold_out (fuel : Nat) (s : State) (D1 addr created : Nat)
    (l1 : dynablocklist_t) (hl1 : s.getList D1 = .ok l1) (hout : ¬ l1.covers addr) :
    AddNewDynablock (fuel + 1) s D1 addr created =
      AddNewDynablock fuel s (getDBFromAddress s addr) addr created := by
  obtain ⟨hD, -⟩ := getList_ne_zero hl1
  unfold dynablocklist_t.covers at hout
  have hng : (addr < l1.text ∨ addr ≥ (l1.text + l1.textsz) % W32) := by omega
  simp only [AddNewDynablock, hD, hl1, hng, bind, Except.bind, if_false, if_true]

theorem AddNewDynablock_null (fuel : Nat) (s : State) (addr created : Nat) :
    AddNewDynablock (fuel + 1) s 0 addr created = .ok (s, 0, 0) := by
  simp [AddNewDynablock]

theorem AddNewDynablock_inrange_new (fuel : Nat) (s : State) (D addr created : Nat)
    (l : dynablocklist_t)
    (hl : s.getList D = .ok l) (hcov : l.covers addr)
    (hempty : l.direct = none ∨ ∃ arr, l.direct = some arr ∧ arr[addr - l.text]? = some 0)
    (hc : created ≠ 0) :
    ∃ s' b arr',
      AddNewDynablock (fuel + 1) s D addr created = .ok (s', b, 1) ∧
      b ≠ 0 ∧ s.getBlock b = .error .nullDeref ∧
      s'.getBlock b = .ok { dynablock_t.zero with parent := D } ∧
      (∀ p, p ≠ b → s'.getBlock p = s.getBlock p) ∧
      s'.getList D = .ok { l with direct := some arr' } ∧
      arr'[addr - l.text]? = some b ∧
      (∀ j, j ≠ addr - l.text →
        arr'[j]? = (l.direct.getD (List.replicate l.textsz 0))[j]?) ∧
      (∀ D2, D2 ≠ D → s'.getList D2 = s.getList D2) ∧
      s'.dynmap = s.dynmap ∧ s'.DYNAMAP_SHIFT = s.DYNAMAP_SHIFT ∧ s'.trace = s.trace := by
  have hlen : addr - l.text < (l.direct.getD (List.replicate l.textsz 0)).length := by
    rcases hempty with hd | ⟨arr, hd, hslot⟩
    · simpa [hd] using (covers_sub l addr hcov).2.1
    · simpa [hd] using (List.getElem?_eq_some_iff.mp hslot).1
  refine ⟨_, _, (l.direct.getD (List.replicate l.textsz 0)).set (addr - l.text)
      (s.blocks.length + 1), AddNewDynablock_create fuel s D addr created l hl hcov hempty hc,
    Nat.succ_ne_zero _, ?_, ?_, ?_, ?_, ?_, ?_, ?_, rfl, rfl, rfl⟩
  · simp [State.getBlock]
  · simp [State.getBlock]
  · intro p hp
    cases p with
    | zero => rfl
    | succ i =>
      have hi : i ≠ s.blocks.length := by omega
      simp only [State.getBlock]
      by_cases h : i < s.blocks.length
      · simp [List.getElem?_append_left h]
      · have h2 : s.blocks.length < i := by omega
        have h3 : s.blocks.length + 1 ≤ i := h2
        simp [List.getElem?_eq_none, h3, Nat.le_of_lt h2]
  · obtain ⟨hD, hget⟩ := getList_ne_zero hl
    obtain ⟨i, rfl⟩ : ∃ i, D = i + 1 := ⟨D - 1, by omega⟩
    simp only [Nat.add_sub_cancel] at hget
    obtain ⟨hi, -⟩ := List.getElem?_eq_some_iff.mp hget
    simp [State.getList, hi]
  · simp [hlen]
  · intro j hj
    exact List.getElem?_set_ne (Ne.symm hj)
  · intro D2 hD2
    obtain ⟨hD, -⟩ := getList_ne_zero hl
    cases D2 with
    | zero => rfl
    | succ j =>
      have : D - 1 ≠ j := by omega
      simp [State.getList, List.getElem?_set_ne this]

/-- C2: in a directory `D` that covers `addr` and whose slot `addr - text` is
empty (or whose `direct` array is not allocated), `AddNewDynablock` with
`*created != 0` returns a block `b` that designated no block before, whose
fields are all zero except `parent = D`, sets `*created = 1`, stores `b` at
`D.direct[addr - text]` and changes no other slot, block, directory or call
trace. -/
theorem AddNewDynablock_creates (fuel : Nat) (s : State) (D addr created : Nat)
    (l : dynablocklist_t)
    (hl : s.getList D = .ok l) (hcov : l.covers addr)
    (hempty : l.direct = none ∨ ∃ arr, l.direct = some arr ∧ arr[addr - l.text]? = some 0)
    (hc : created ≠ 0) :
    ∃ s' b arr',
      AddNewDynablock (fuel + 1) s D addr created = .ok (s', b, 1) ∧
      b ≠ 0 ∧ s.getBlock b = .error .nullDeref ∧
      s'.getBlock b = .ok { dynablock_t.zero with parent := D } ∧
      (∀ p, p ≠ b → s'.getBlock p = s.getBlock p) ∧
      s'.getList D = .ok { l with direct := some arr' } ∧
      arr'[addr - l.text]? = some b ∧
      (∀ j, j ≠ addr - l.text →
        arr'[j]? = (l.direct.getD (List.replicate l.textsz 0))[j]?) ∧
      (∀ D2, D2 ≠ D → s'.getList D2 = s.getList D2) ∧
      s'.dynmap = s.dynmap ∧ s'.DYNAMAP_SHIFT = s.DYNAMAP_SHIFT ∧ s'.trace = s.trace :=
  AddNewDynablock_inrange_new fuel s D addr created l hl hcov hempty hc

/-- Instance of C2: creation at address 17 in the first directory of `exState0`. -/
theorem AddNewDynablock_creates_witness :
    ∃ s' b arr',
      AddNewDynablock (0 + 1) exState0 1 17 1 = .ok (s', b, 1) ∧
      b ≠ 0 ∧ exState0.getBlock b = .error .nullDeref ∧
      s'.getBlock b = .ok { dynablock_t.zero with parent := 1 } ∧
      (∀ p, p ≠ b → s'.getBlock p = exState0.getBlock p) ∧
      s'.getList 1 = .ok { exList1 with direct := some arr' } ∧
      arr'[17 - exList1.text]? = some b ∧
      (∀ j, j ≠ 17 - exList1.text →
        arr'[j]? = (exList1.direct.getD (List.replicate exList1.textsz 0))[j]?) ∧
      (∀ D2, D2 ≠ 1 → s'.getList D2 = exState0.getList D2) ∧
      s'.dynmap = exState0.dynmap ∧ s'.DYNAMAP_SHIFT = exState0.DYNAMAP_SHIFT ∧
      s'.trace = exState0.trace :=
  AddNewDynablock_creates 0 exState0 1 17 1 exList1 rfl (by decide) (Or.inl rfl) (by decide)

/-- C3: in a directory that covers `addr`, `AddNewDynablock` returns the block
found in the slot and sets `*created = 0` whatever was requested; with an
empty slot (or no `direct` array) and `*created = 0` on entry it returns null
and `*created` stays 0. In both cases the state is the same as before. -/
theorem AddNewDynablock_lookup (fuel : Nat) (s : State) (D addr created : Nat)
    (l : dynablocklist_t) (hl : s.getList D = .ok l) (hcov : l.covers addr) :
    (∀ arr b, l.direct = some arr → arr[addr - l.text]? = some b → b ≠ 0 →
      AddNewDynablock (fuel + 1) s D addr created = .ok (s, b, 0)) ∧
    ((l.direct = none ∨ ∃ arr, l.direct = some arr ∧ arr[addr - l.text]? = some 0) →
      created = 0 → AddNewDynablock (fuel + 1) s D addr created = .ok (s, 0, 0)) := by
  refine ⟨fun arr b hd hslot hb =>
    AddNewDynablock_found fuel s D addr created l arr b hl hcov hd hslot hb, ?_⟩
  intro hempty hc
  subst hc
  exact AddNewDynablock_miss fuel s D addr l hl hcov hempty

/-- Instance of C3 on `exState1`: address 33 holds block 1, address 34 is empty. -/
theorem AddNewDynablock_lookup_witness :
    AddNewDynablock (0 + 1) exState1 2 33 1 = .ok (exState1, 1, 0) ∧
    AddNewDynablock (0 + 1) exState1 2 34 0 = .ok (exState1, 0, 0) :=
  ⟨(AddNewDynablock_lookup 0 exState1 2 33 1 exList2b rfl (by decide)).1
      _ 1 rfl (by decide) (by decide),
   (AddNewDynablock_lookup 0 exState1 2 34 0 exList2b rfl (by decide)).2
      (Or.inr ⟨_, rfl, by decide⟩) rfl⟩

/-- C4: for an address outside the range of `D1`, `AddNewDynablock(D1, addr, created)`
is the call `AddNewDynablock(D2, addr, created)` on the directory `D2` that
`getDBFromAddress` finds for `addr`: the two have the same result and final
state. When `D2` covers `addr`, its slot is empty and creation is requested,
the new block is installed in `D2.direct[addr - D2.text]` with `parent = D2`
and `D1` is unchanged; when the shard holds no directory the call returns null
with `*created = 0` and the state unchanged. -/
theorem AddNewDynablock_delegates (s : State) (D1 addr created : Nat)
    (l1 : dynablocklist_t) (hl1 : s.getList D1 = .ok l1) (hout : ¬ l1.covers addr) :
    (∀ fuel, AddNewDynablock (fuel + 1) s D1 addr created =
      AddNewDynablock fuel s (getDBFromAddress s addr) addr created) ∧
    (∀ r, (∃ fuel, AddNewDynablock fuel s D1 addr created = .ok r) ↔
      (∃ fuel, AddNewDynablock fuel s (getDBFromAddress s addr) addr created = .ok r)) ∧
    (∀ l2, s.getList (getDBFromAddress s addr) = .ok l2 → l2.covers addr →
      (l2.direct = none ∨ ∃ arr, l2.direct = some arr ∧ arr[addr - l2.text]? = some 0) →
      created ≠ 0 → ∀ fuel, ∃ s' b arr',
        AddNewDynablock (fuel + 2) s D1 addr created = .ok (s', b, 1) ∧
        b ≠ 0 ∧ s.getBlock b = .error .nullDeref ∧
        s'.getBlock b = .ok { dynablock_t.zero with parent := getDBFromAddress s addr } ∧
        s'.getList (getDBFromAddress s addr) = .ok { l2 with direct := some arr' } ∧
        arr'[addr - l2.text]? = some b ∧
        s'.getList D1 = .ok l1) ∧
    (getDBFromAddress s addr = 0 →
      ∀ fuel, AddNewDynablock (fuel + 2) s D1 addr created = .ok (s, 0, 0)) := by
  have hstep := fun fuel => AddNewDynablock_unfold_out fuel s D1 addr created l1 hl1 hout
  refine ⟨hstep, ?_, ?_, ?_⟩
  · intro r
    constructor
    · rintro ⟨fuel, h⟩
      cases fuel with
      | zero => simp [AddNewDynablock] at h
      | succ f => exact ⟨f, by rw [← hstep f]; exact h⟩
    · rintro ⟨fuel, h⟩
      exact ⟨fuel + 1, by rw [hstep fuel]; exact h⟩
  · intro l2 hl2 hcov hempty hc fuel
    have hne : D1 ≠ getDBFromAddress s addr := by
      intro h
      rw [← h, hl1] at hl2
      cases hl2
      exact hout hcov
    obtain ⟨s', b, arr', h1, h2, h3, h4, -, h6, h7, -, h9, -⟩ :=
      AddNewDynablock_inrange_new fuel s (getDBFromAddress s addr) addr created l2 hl2 hcov
        hempty hc
    refine ⟨s', b, arr', ?_, h2, h3, h4, h6, h7, ?_⟩
    · rw [hstep (fuel + 1)]; exact h1
    · rw [h9 D1 hne]; exact hl1
  · intro h0 fuel
    rw [hstep (fuel + 1), h0]
    exact AddNewDynablock_null fuel s addr created

/-- Instance of C4: address 37 asked of the first directory of `exState0`, which
ends at 32; shard 2 holds the second directory. -/
theorem AddNewDynablock_delegates_witness :
    AddNewDynablock (0 + 2) exState0 1 37 1 = AddNewDynablock (0 + 1) exState0 2 37 1 ∧
    AddNewDynablock (0 + 2) exState0 1 7 1 = .ok (exState0, 0, 0) :=
  ⟨by
    have h := (AddNewDynablock_delegates exState0 1 37 1 exList1 rfl (by decide)).1 1
    exact h,
   (AddNewDynablock_delegates exState0 1 7 1 exList1 rfl (by decide)).2.2.2 rfl 0⟩

/-! ## The relations between the memory before and after frees -/

theorem slotRel_refl (x : Nat) : slotRel x x := Or.inl rfl

theorem slotRel_trans {x y z : Nat} (h1 : slotRel x y) (h2 : slotRel y z) : slotRel x z := by
  unfold slotRel at *
  rcases h2 with h2 | h2
  · subst h2; exact h1
  · exact Or.inr h2

theorem slots_refl (l : List Nat) : List.Forall₂ slotRel l l :=
  List.forall₂_same.mpr (fun x _ => slotRel_refl x)

theorem slots_trans {a b c : List Nat} (h1 : List.Forall₂ slotRel a b)
    (h2 : List.Forall₂ slotRel b c) : List.Forall₂ slotRel a c := by
  induction h1 generalizing c with
  | nil => cases h2; exact List.Forall₂.nil
  | cons hxy _ ih =>
    cases h2 with
    | cons hyz htl => exact List.Forall₂.cons (slotRel_trans hxy hyz) (ih htl)

theorem slots_set_zero {a b : List Nat} (h : List.Forall₂ slotRel a b) (i : Nat) :
    List.Forall₂ slotRel a (b.set i 0) := by
  induction h generalizing i with
  | nil => exact List.Forall₂.nil
  | cons hxy htl ih =>
    cases i with
    | zero => exact List.Forall₂.cons (Or.inr rfl) htl
    | succ j => exact List.Forall₂.cons hxy (ih j)

theorem slots_getElem? {a b : List Nat} (h : List.Forall₂ slotRel a b) (i : Nat) (y : Nat)
    (hy : b[i]? = some y) : ∃ x, a[i]? = some x ∧ slotRel x y := by
  induction h generalizing i with
  | nil => simp at hy
  | cons hxy htl ih =>
    cases i with
    | zero =>
      simp only [List.getElem?_cons_zero, Option.some.injEq] at hy
      subst hy
      exact ⟨_, by simp, hxy⟩
    | succ j =>
      simp only [List.getElem?_cons_succ] at hy ⊢
      exact ih j hy

theorem slots_zero_stays {a b : List Nat} (h : List.Forall₂ slotRel a b) (i : Nat)
    (hx : a[i]? = some 0) : b[i]? = some 0 := by
  induction h generalizing i with
  | nil => simp at hx
  | cons hxy htl ih =>
    cases i with
    | zero =>
      simp only [List.getElem?_cons_zero, Option.some.injEq] at hx ⊢
      subst hx
      rcases hxy with h | h
      · exact h
      · exact h
    | succ j =>
      simp only [List.getElem?_cons_succ] at hx ⊢
      exact ih j hx

theorem blockRel_refl (b : dynablock_t) : blockRel b b := Or.inl rfl

theorem blockRel_of_gone {b b' : dynablock_t} (h : blockRel b b') (hg : b.gone ≠ 0) : b' = b := by
  rcases h with h | ⟨h0, -⟩
  · exact h
  · exact absurd h0 hg

theorem blockRel_of_live {b b' : dynablock_t} (h : blockRel b b') (hg : b'.gone = 0) : b' = b := by
  rcases h with h | ⟨-, sons', -, h⟩
  · exact h
  · subst h; simp at hg

theorem blockRel_trans {a b c : dynablock_t} (h1 : blockRel a b) (h2 : blockRel b c) :
    blockRel a c := by
  rcases h1 with h1 | ⟨ha, sons', hs, hb⟩
  · subst h1; exact h2
  · have hg : b.gone ≠ 0 := by subst hb; simp
    have := blockRel_of_gone h2 hg
    subst this
    exact Or.inr ⟨ha, sons', hs, hb⟩

theorem directRel_refl (d : Option (List Nat)) : directRel d d := by
  cases d with
  | none => trivial
  | some a => exact slots_refl a

theorem directRel_trans {a b c : Option (List Nat)} (h1 : directRel a b) (h2 : directRel b c) :
    directRel a c := by
  match a, b, c, h1, h2 with
  | none, none, none, _, _ => trivial
  | some _, some _, some _, h1, h2 => exact slots_trans h1 h2

theorem listRel_refl (l : dynablocklist_t) : listRel l l := ⟨l.direct, directRel_refl _, rfl⟩

theorem listRel_trans {a b c : dynablocklist_t} (h1 : listRel a b) (h2 : listRel b c) :
    listRel a c := by
  obtain ⟨d1, hd1, rfl⟩ := h1
  obtain ⟨d2, hd2, rfl⟩ := h2
  exact ⟨d2, directRel_trans hd1 hd2, rfl⟩

theorem forall₂_trans_of {α : Type} {R : α → α → Prop}
    (htr : ∀ {x y z}, R x y → R y z → R x z) {a b c : List α}
    (h1 : List.Forall₂ R a b) (h2 : List.Forall₂ R b c) : List.Forall₂ R a c := by
  induction h1 generalizing c with
  | nil => cases h2; exact List.Forall₂.nil
  | cons hxy _ ih =>
    cases h2 with
    | cons hyz htl => exact List.Forall₂.cons (htr hxy hyz) (ih htl)

theorem forall₂_set_of {α : Type} {R : α → α → Prop} {a b : List α}
    (h : List.Forall₂ R a b) (i : Nat) (y : α)
    (hy : ∀ x, a[i]? = some x → R x y) : List.Forall₂ R a (b.set i y) := by
  induction h generalizing i with
  | nil => exact List.Forall₂.nil
  | cons hxy htl ih =>
    cases i with
    | zero => exact List.Forall₂.cons (hy _ (by simp)) htl
    | succ j => exact List.Forall₂.cons hxy (ih j (fun x hx => hy x (by simpa using hx)))

theorem forall₂_getElem? {α : Type} {R : α → α → Prop} {a b : List α}
    (h : List.Forall₂ R a b) (i : Nat) (x : α) (hx : a[i]? = some x) :
    ∃ y, b[i]? = some y ∧ R x y := by
  induction h generalizing i with
  | nil => simp at hx
  | cons hxy htl ih =>
    cases i with
    | zero =>
      simp only [List.getElem?_cons_zero, Option.some.injEq] at hx
      subst hx
      exact ⟨_, by simp, hxy⟩
    | succ j =>
      simp only [List.getElem?_cons_succ] at hx ⊢
      exact ih j hx

theorem forall₂_getElem?_right {α : Type} {R : α → α → Prop} {a b : List α}
    (h : List.Forall₂ R a b) (i : Nat) (y : α) (hy : b[i]? = some y) :
    ∃ x, a[i]? = some x ∧ R x y := by
  induction h generalizing i with
  | nil => simp at hy
  | cons hxy htl ih =>
    cases i with
    | zero =>
      simp only [List.getElem?_cons_zero, Option.some.injEq] at hy
      subst hy
      exact ⟨_, by simp, hxy⟩
    | succ j =>
      simp only [List.getElem?_cons_succ] at hy ⊢
      exact ih j hy

theorem Evolves.refl (s : State) : Evolves s s :=
  ⟨List.forall₂_same.mpr (fun b _ => blockRel_refl b),
   List.forall₂_same.mpr (fun l _ => listRel_refl l), rfl, rfl⟩

theorem Evolves.trans {a b c : State} (h1 : Evolves a b) (h2 : Evolves b c) : Evolves a c :=
  ⟨forall₂_trans_of (R := blockRel) (fun hxy hyz => blockRel_trans hxy hyz) h1.blocks h2.blocks,
   forall₂_trans_of (R := listRel) (fun hxy hyz => listRel_trans hxy hyz) h1.lists h2.lists,
   h2.dynmap.trans h1.dynmap, h2.shift.trans h1.shift⟩

theorem getBlock_eq_ok_iff (s : State) (p : Nat) (b : dynablock_t) :
    s.getBlock p = .ok b ↔ p ≠ 0 ∧ s.blocks[p - 1]? = some b := by
  constructor
  · exact getBlock_ne_zero
  · rintro ⟨hp, h⟩
    obtain ⟨i, rfl⟩ : ∃ i, p = i + 1 := ⟨p - 1, by omega⟩
    simp only [Nat.add_sub_cancel] at h
    simp [State.getBlock, h]

theorem getList_eq_ok_iff (s : State) (p : Nat) (l : dynablocklist_t) :
    s.getList p = .ok l ↔ p ≠ 0 ∧ s.lists[p - 1]? = some l := by
  constructor
  · exact getList_ne_zero
  · rintro ⟨hp, h⟩
    obtain ⟨i, rfl⟩ : ∃ i, p = i + 1 := ⟨p - 1, by omega⟩
    simp only [Nat.add_sub_cancel] at h
    simp [State.getList, h]

theorem Evolves.block_rel {s s' : State} (h : Evolves s s') {p : Nat} {b : dynablock_t}
    (hb : s.getBlock p = .ok b) : ∃ b', s'.getBlock p = .ok b' ∧ blockRel b b' := by
  rw [getBlock_eq_ok_iff] at hb
  obtain ⟨b', hb', hr⟩ := forall₂_getElem? h.blocks _ _ hb.2
  exact ⟨b', (getBlock_eq_ok_iff _ _ _).mpr ⟨hb.1, hb'⟩, hr⟩

theorem Evolves.block_rel_right {s s' : State} (h : Evolves s s') {p : Nat} {b' : dynablock_t}
    (hb : s'.getBlock p = .ok b') : ∃ b, s.getBlock p = .ok b ∧ blockRel b b' := by
  rw [getBlock_eq_ok_iff] at hb
  obtain ⟨b, hb2, hr⟩ := forall₂_getElem?_right h.blocks _ _ hb.2
  exact ⟨b, (getBlock_eq_ok_iff _ _ _).mpr ⟨hb.1, hb2⟩, hr⟩

theorem Evolves.list_rel {s s' : State} (h : Evolves s s') {p : Nat} {l : dynablocklist_t}
    (hl : s.getList p = .ok l) : ∃ l', s'.getList p = .ok l' ∧ listRel l l' := by
  rw [getList_eq_ok_iff] at hl
  obtain ⟨l', hl', hr⟩ := forall₂_getElem? h.lists _ _ hl.2
  exact ⟨l', (getList_eq_ok_iff _ _ _).mpr ⟨hl.1, hl'⟩, hr⟩

theorem Evolves.list_rel_right {s s' : State} (h : Evolves s s') {p : Nat} {l' : dynablocklist_t}
    (hl : s'.getList p = .ok l') : ∃ l, s.getList p = .ok l ∧ listRel l l' := by
  rw [getList_eq_ok_iff] at hl
  obtain ⟨l, hl2, hr⟩ := forall₂_getElem?_right h.lists _ _ hl.2
  exact ⟨l, (getList_eq_ok_iff _ _ _).mpr ⟨hl.1, hl2⟩, hr⟩

/-- A block that is live after frees was live before, and was not touched. -/
theorem Evolves.live_back {s s' : State} (h : Evolves s s') {p : Nat} {b' : dynablock_t}
    (hb : s'.getBlock p = .ok b') (hg : b'.gone = 0) : s.getBlock p = .ok b' := by
  obtain ⟨b, hb2, hr⟩ := h.block_rel_right hb
  have := blockRel_of_live hr hg
  subst this
  exact hb2

theorem Evolves.live_mono {s s' : State} (h : Evolves s s') {p : Nat} (hl : s'.live p) :
    s.live p := by
  obtain ⟨b', hb, hg⟩ := hl
  exact ⟨b', h.live_back hb hg, hg⟩

/-- A block that was gone before frees is not touched by them. -/
theorem Evolves.gone_stays {s s' : State} (h : Evolves s s') {p : Nat} {b : dynablock_t}
    (hb : s.getBlock p = .ok b) (hg : b.gone ≠ 0) : s'.getBlock p = .ok b := by
  obtain ⟨b', hb2, hr⟩ := h.block_rel hb
  have := blockRel_of_gone hr hg
  subst this
  exact hb2

theorem Evolves.blocks_length {s s' : State} (h : Evolves s s') :
    s'.blocks.length = s.blocks.length := h.blocks.length_eq.symm

theorem Evolves.lists_length {s s' : State} (h : Evolves s s') :
    s'.lists.length = s.lists.length := h.lists.length_eq.symm

theorem WF_of_Evolves {s s' : State} (h : Evolves s s') (hwf : s.WF) : s'.WF := by
  obtain ⟨hb, hl⟩ := hwf
  refine ⟨?_, ?_⟩
  · intro b' hb'
    obtain ⟨i, hi⟩ := List.getElem?_of_mem hb'
    obtain ⟨b, hbi, hr⟩ := forall₂_getElem?_right h.blocks i b' hi
    have hmem : b ∈ s.blocks := List.getElem?_mem hbi
    obtain ⟨hpar, hsons⟩ := hb b hmem
    rw [h.blocks_length, h.lists_length]
    rcases hr with hr | ⟨-, sons', hs, hr⟩
    · subst hr; exact ⟨hpar, hsons⟩
    · subst hr
      refine ⟨hpar, ?_⟩
      intro q hq
      obtain ⟨j, hj⟩ := List.getElem?_of_mem hq
      obtain ⟨x, hx, hxq⟩ := forall₂_getElem?_right hs j q hj
      rcases hxq with hxq | hxq
      · subst hxq; exact hsons _ (List.getElem?_mem hx)
      · subst hxq; exact Nat.zero_le _
  · intro l' hl' arr' harr'
    obtain ⟨i, hi⟩ := List.getElem?_of_mem hl'
    obtain ⟨l, hli, d', hd, hr⟩ := forall₂_getElem?_right h.lists i l' hi
    have hmem : l ∈ s.lists := List.getElem?_mem hli
    subst hr
    simp only [Option.mem_def] at harr'
    subst harr'
    cases hld : l.direct with
    | none => rw [hld] at hd; simp [directRel] at hd
    | some arr =>
      rw [hld] at hd
      simp only [directRel] at hd
      have := hl l hmem arr (by simp [hld])
      rw [← hd.length_eq]
      exact this

theorem countP_le_of_blockRel {a b : List dynablock_t} (h : List.Forall₂ blockRel a b) :
    b.countP (fun x => x.gone = 0) ≤ a.countP (fun x => x.gone = 0) := by
  induction h with
  | nil => exact Nat.le_refl _
  | @cons x y l1 l2 hxy _ ih =>
    rw [List.countP_cons, List.countP_cons]
    by_cases hy : y.gone = 0
    · have := blockRel_of_live hxy hy
      subst this
      simp only [hy, decide_True, if_true]
      omega
    · simp only [hy, decide_False, Bool.false_eq_true, if_false]
      omega

theorem countP_lt_of_blockRel {a b : List dynablock_t} (h : List.Forall₂ blockRel a b)
    (i : Nat) (x y : dynablock_t) (hx : a[i]? = some x) (hy : b[i]? = some y)
    (hxg : x.gone = 0) (hyg : y.gone ≠ 0) :
    b.countP (fun x => x.gone = 0) < a.countP (fun x => x.gone = 0) := by
  induction h generalizing i with
  | nil => simp at hx
  | @cons x0 y0 l1 l2 hxy htl ih =>
    rw [List.countP_cons, List.countP_cons]
    cases i with
    | zero =>
      simp only [List.getElem?_cons_zero, Option.some.injEq] at hx hy
      subst hx; subst hy
      have := countP_le_of_blockRel htl
      simp only [hxg, hyg, decide_True, decide_False, if_true, Bool.false_eq_true, if_false]
      omega
    | succ j =>
      simp only [List.getElem?_cons_succ] at hx hy
      have := ih j hx hy
      by_cases hy0 : y0.gone = 0
      · have := blockRel_of_live hxy hy0
        subst this
        simp only [hy0, decide_True, if_true]
        omega
      · simp only [hy0, decide_False, Bool.false_eq_true, if_false]
        omega

theorem Evolves.liveCount_le {s s' : State} (h : Evolves s s') : s'.liveCount ≤ s.liveCount :=
  countP_le_of_blockRel h.blocks

theorem Evolves.liveCount_lt {s s' : State} (h : Evolves s s') {p : Nat}
    (hl : s.live p) (hn : ¬ s'.live p) : s'.liveCount < s.liveCount := by
  obtain ⟨b, hb, hg⟩ := hl
  obtain ⟨b', hb', -⟩ := h.block_rel hb
  have hg' : b'.gone ≠ 0 := fun h0 => hn ⟨b', hb', h0⟩
  rw [getBlock_eq_ok_iff] at hb hb'
  exact countP_lt_of_blockRel h.blocks _ b b' hb.2 hb'.2 hg hg'

theorem not_live_zero (s : State) : ¬ s.live 0 := by
  rintro ⟨b, hb, -⟩
  simp [State.getBlock] at hb

theorem getBlock_of_le {s : State} {p : Nat} (hp : p ≠ 0) (hle : p ≤ s.blocks.length) :
    ∃ b, s.getBlock p = .ok b := by
  obtain ⟨i, rfl⟩ : ∃ i, p = i + 1 := ⟨p - 1, by omega⟩
  have hi : i < s.blocks.length := by omega
  exact ⟨s.blocks[i], by simp [State.getBlock, hi]⟩

theorem getList_of_le {s : State} {p : Nat} (hp : p ≠ 0) (hle : p ≤ s.lists.length) :
    ∃ l, s.getList p = .ok l := by
  obtain ⟨i, rfl⟩ : ∃ i, p = i + 1 := ⟨p - 1, by omega⟩
  have hi : i < s.lists.length := by omega
  exact ⟨s.lists[i], by simp [State.getList, hi]⟩

theorem mem_blocks_of_getBlock {s : State} {p : Nat} {b : dynablock_t}
    (h : s.getBlock p = .ok b) : b ∈ s.blocks :=
  List.getElem?_mem ((getBlock_eq_ok_iff _ _ _).mp h).2

theorem mem_lists_of_getList {s : State} {p : Nat} {l : dynablocklist_t}
    (h : s.getList p = .ok l) : l ∈ s.lists :=
  List.getElem?_mem ((getList_eq_ok_iff _ _ _).mp h).2

/-! ### Single steps -/

theorem Evolves_setBlock {s t : State} (h : Evolves s t) {db : Nat} {b : dynablock_t}
    (hb : s.getBlock db = .ok b) (b2 : dynablock_t) (hr : blockRel b b2) :
    Evolves s (t.setBlock db b2) := by
  obtain ⟨hdb, hget⟩ := getBlock_ne_zero hb
  obtain ⟨i, rfl⟩ : ∃ i, db = i + 1 := ⟨db - 1, by omega⟩
  simp only [Nat.add_sub_cancel] at hget
  refine ⟨?_, h.lists, h.dynmap, h.shift⟩
  simp only [State.setBlock]
  apply forall₂_set_of h.blocks
  intro x hx
  rw [hget] at hx
  cases hx
  exact hr

theorem Evolves_setList {s t : State} (h : Evolves s t) {D : Nat} {l : dynablocklist_t}
    (hl : s.getList D = .ok l) (l2 : dynablocklist_t) (hr : listRel l l2) :
    Evolves s (t.setList D l2) := by
  obtain ⟨hD, hget⟩ := getList_ne_zero hl
  obtain ⟨i, rfl⟩ : ∃ i, D = i + 1 := ⟨D - 1, by omega⟩
  simp only [Nat.add_sub_cancel] at hget
  refine ⟨h.blocks, ?_, h.dynmap, h.shift⟩
  simp only [State.setList]
  apply forall₂_set_of h.lists
  intro x hx
  rw [hget] at hx
  cases hx
  exact hr

theorem Evolves_emit {s t : State} (h : Evolves s t) (e : Event) : Evolves s (t.emit e) :=
  ⟨h.blocks, h.lists, h.dynmap, h.shift⟩

theorem slotCleared_of_Evolves {t t' : State} (h : Evolves t t') {b : dynablock_t}
    (hc : t.slotCleared b) : t'.slotCleared b := by
  intro parent' arr' hl' hd' hcov
  obtain ⟨parent, hl, d', hd, hr⟩ := h.list_rel_right hl'
  subst hr
  simp only at hd'
  subst hd'
  cases hpd : parent.direct with
  | none => rw [hpd] at hd; simp [directRel] at hd
  | some arr =>
    rw [hpd] at hd
    simp only [directRel] at hd
    exact slots_zero_stays hd _ (hc parent arr hl hpd hcov)

theorem writeDirect_eq {s : State} {D idx v : Nat} {l : dynablocklist_t} {arr : List Nat}
    (hl : s.getList D = .ok l) (hd : l.direct = some arr) (hi : idx < arr.length) :
    s.writeDirect D idx v = .ok (s.setList D { l with direct := some (arr.set idx v) }) := by
  simp [State.writeDirect, hl, hd, hi, bind, Except.bind]

theorem readDirect_eq {s : State} {D idx : Nat} {l : dynablocklist_t} {arr : List Nat}
    (hl : s.getList D = .ok l) (hd : l.direct = some arr) :
    s.readDirect D idx =
      match arr[idx]? with
      | some v => .ok v
      | none => .error .outOfBounds := by
  simp [State.readDirect, hl, hd, bind, Except.bind]

theorem setList_blocks (s : State) (D : Nat) (l : dynablocklist_t) :
    (s.setList D l).blocks = s.blocks := by
  cases D <;> rfl

theorem setList_trace (s : State) (D : Nat) (l : dynablocklist_t) :
    (s.setList D l).trace = s.trace := by
  cases D <;> rfl

theorem setBlock_trace (s : State) (p : Nat) (b : dynablock_t) :
    (s.setBlock p b).trace = s.trace := by
  cases p <;> rfl

theorem setBlock_lists (s : State) (p : Nat) (b : dynablock_t) :
    (s.setBlock p b).lists = s.lists := by
  cases p <;> rfl

theorem FreeDynablock_unlink_spec {t : State} (hwf : t.WF) {db : Nat} {b : dynablock_t}
    (hb : t.getBlock db = .ok b) :
    ∃ t2, FreeDynablock_unlink t db = .ok t2 ∧ t2.blocks = t.blocks ∧ t2.trace = t.trace ∧
      Evolves t t2 ∧ t2.slotCleared b := by
  obtain ⟨hpar, -⟩ := hwf.1 b (mem_blocks_of_getBlock hb)
  obtain ⟨parent, hl⟩ := getList_of_le hpar.1 hpar.2
  have hnone : ∀ (h : ¬ (parent.direct.isSome = true ∧ parent.covers b.x86_addr)),
      t.slotCleared b := by
    intro h parent2 arr hl2 hd hcov
    rw [hl] at hl2
    cases hl2
    exact absurd ⟨by simp [hd], hcov⟩ h
  cases hd : parent.direct with
  | none =>
    refine ⟨t, ?_, rfl, rfl, Evolves.refl t, hnone (by simp [hd])⟩
    simp [FreeDynablock_unlink, hb, hl, hd, bind, Except.bind]
  | some arr =>
    by_cases hcov : parent.covers b.x86_addr
    · obtain ⟨hsub, hlt, -⟩ := covers_sub parent _ hcov
      have hlen : parent.textsz ≤ arr.length :=
        hwf.2 parent (mem_lists_of_getList hl) arr (by simp [hd])
      have hi : b.x86_addr - parent.text < arr.length := by omega
      have hc2 := hcov
      unfold dynablocklist_t.covers at hc2
      refine ⟨t.setList b.parent { parent with direct := some (arr.set (b.x86_addr - parent.text) 0) },
        ?_, setList_blocks _ _ _, setList_trace _ _ _, ?_, ?_⟩
      · simp only [FreeDynablock_unlink, hb, hl, hd, bind, Except.bind, Option.isSome_some,
          if_true, hsub, ge_iff_le, hc2, and_self]
        exact writeDirect_eq hl hd hi
      · refine Evolves_setList (Evolves.refl t) hl _ ⟨_, ?_, rfl⟩
        rw [hd]
        exact slots_set_zero (slots_refl arr) _
      · intro parent2 arr2 hl2 hd2 _
        rw [getList_setList_same hl] at hl2
        cases hl2
        simp only [Option.some.injEq] at hd2
        subst hd2
        simp [hi]
    · refine ⟨t, ?_, rfl, rfl, Evolves.refl t, hnone (fun h => hcov h.2)⟩
      have hc2 := hcov
      unfold dynablocklist_t.covers at hc2
      simp only [FreeDynablock_unlink, hb, hl, hd, bind, Except.bind, Option.isSome_some,
          if_true, ge_iff_le, hc2, if_false]

theorem FreeDynablock_release_spec {t : State} {db : Nat} {b : dynablock_t}
    (hb : t.getBlock db = .ok b) :
    FreeDynablock_release t db =
      .ok { t with trace := t.trace ++
        ((if b.father = 0 then [Event.FreeDynarecMap b.block b.size] else []) ++ [Event.free db]) } := by
  simp only [FreeDynablock_release, hb, bind, Except.bind]
  by_cases hf : b.father = 0 <;> simp [hf, State.emit]

/-! ### Reachability along `sons[]` -/

theorem Desc_zero {s : State} {p : Nat} (h : Desc s 0 p) : p = 0 := by
  induction h with
  | self => rfl
  | son _ hb _ _ _ ih =>
    subst ih
    simp [State.getBlock] at hb

theorem Desc_trans {s : State} {a b c : Nat} (h1 : Desc s a b) (h2 : Desc s b c) :
    Desc s a c := by
  induction h2 with
  | self => exact h1
  | son _ hb hg hq hq0 ih => exact Desc.son ih hb hg hq hq0

theorem Desc_mono {s t : State} (h : Evolves s t) {a p : Nat} (hd : Desc t a p) :
    Desc s a p := by
  induction hd with
  | self => exact Desc.self
  | son _ hb hg hq hq0 ih => exact Desc.son ih (h.live_back hb hg) hg hq hq0

/-! ### The trace of released blocks -/

theorem eventsOf_append (s : State) (a b : List Nat) :
    eventsOf s (a ++ b) = eventsOf s a ++ eventsOf s b := by
  simp [eventsOf, List.flatMap_append]

theorem eventsOf_congr {s t : State} {ps : List Nat}
    (h : ∀ p ∈ ps, t.getBlock p = s.getBlock p) : eventsOf t ps = eventsOf s ps := by
  induction ps with
  | nil => rfl
  | cons p ps ih =>
    simp only [eventsOf, List.flatMap_cons] at ih ⊢
    rw [ih (fun q hq => h q (List.mem_cons_of_mem _ hq))]
    simp only [releaseEvents, h p (List.mem_cons_self _ _)]

/-! ### The `sons` array during the loop -/

theorem sons_progress_get (l : List Nat) (i : Nat) :
    (List.replicate i 0 ++ l.drop i)[i]? = l[i]? := by
  rw [List.getElem?_append_right (by simp)]
  simp

theorem sons_progress_set (l : List Nat) (i : Nat) (hi : i < l.length) :
    (List.replicate i 0 ++ l.drop i).set i 0 = List.replicate (i + 1) 0 ++ l.drop (i + 1) := by
  induction i generalizing l with
  | zero =>
    cases l with
    | nil => simp at hi
    | cons x xs => simp
  | succ j ih =>
    cases l with
    | nil => simp at hi
    | cons x xs =>
      have := ih xs (by simpa using hi)
      simp only [List.replicate_succ, List.drop_succ_cons, List.cons_append, List.set_cons_succ,
        this]

theorem sons_progress_done (l : List Nat) :
    List.replicate l.length 0 ++ l.drop l.length = List.replicate l.length 0 := by
  simp

/-! ### The loop over the sons and the whole call -/

theorem SonsInv.live_iff {s t : State} {db : Nat} {b : dynablock_t} {i : Nat} {ps : List Nat}
    (h : SonsInv s db b i t ps) : ¬ t.live db := by
  rintro ⟨b', hb', hg⟩
  rw [h.own] at hb'
  cases hb'
  simp at hg

theorem FreeDynablock_sons_spec (fuel : Nat)
    (IH : ∀ t q, t.WF → q ≤ t.blocks.length → t.liveCount < fuel →
      ∃ t' ps, FreeDynablock fuel t q = .ok t' ∧ FreePost t q t' ps)
    (s : State) (db : Nat) (b : dynablock_t) (hwf : s.WF)
    (hb : s.getBlock db = .ok b) (hg : b.gone = 0) (hfuel : s.liveCount < fuel + 1) :
    ∀ n i t ps, SonsInv s db b i t ps → i + n = b.sons.length →
      ∃ t' ps', FreeDynablock_sons (FreeDynablock fuel) db n i t = .ok t' ∧
        SonsInv s db b b.sons.length t' ps' := by
  intro n
  induction n with
  | zero =>
    intro i t ps hinv hlen
    have : i = b.sons.length := by omega
    subst this
    exact ⟨t, ps, rfl, hinv⟩
  | succ n ih =>
    intro i t ps hinv hlen
    have hi : i < b.sons.length := by omega
    have hlive_s : s.live db := ⟨b, hb, hg⟩
    have hnl_t : ¬ t.live db := hinv.live_iff
    -- the entry read by the exchange
    obtain ⟨son, hson⟩ : ∃ son, b.sons[i]? = some son := ⟨b.sons[i], by simp [hi]⟩
    have hson_t : (List.replicate i 0 ++ b.sons.drop i)[i]? = some son := by
      rw [sons_progress_get]; exact hson
    have hlen_t : (List.replicate i 0 ++ b.sons.drop i).length = b.sons.length := by
      simp; omega
    -- the state after the exchange
    let bt1 : dynablock_t :=
      { b with done := 0, gone := 1, sons := List.replicate (i + 1) 0 ++ b.sons.drop (i + 1) }
    have hxchg : arm_lock_xchg_son t db i 0 = .ok (son, t.setBlock db bt1) := by
      simp only [arm_lock_xchg_son, hinv.own, bind, Except.bind, hson_t,
        sons_progress_set b.sons i hi]
    have hrel1 : blockRel b bt1 := by
      refine Or.inr ⟨hg, _, ?_, rfl⟩
      have h0 : List.Forall₂ slotRel b.sons (List.replicate i 0 ++ b.sons.drop i) := by
        obtain ⟨bt, hbt, hr⟩ := hinv.ev.block_rel hb
        rw [hinv.own] at hbt
        cases hbt
        rcases hr with hr | ⟨-, sons', hs, hr⟩
        · have := congrArg dynablock_t.gone hr
          simp [hg] at this
        · have := congrArg dynablock_t.sons hr
          simp only at this
          rw [this]; exact hs
      have := slots_set_zero h0 i
      rw [sons_progress_set b.sons i hi] at this
      exact this
    have hev1 : Evolves s (t.setBlock db bt1) := Evolves_setBlock hinv.ev hb bt1 hrel1
    have hown1 : (t.setBlock db bt1).getBlock db = .ok bt1 :=
      getBlock_setBlock_same hinv.own bt1
    have hlive1 : ∀ p, (t.setBlock db bt1).live p ↔ t.live p := by
      intro p
      by_cases hp : p = db
      · subst hp
        constructor
        · rintro ⟨b', hb', hg'⟩
          rw [hown1] at hb'
          cases hb'
          simp at hg'
        · intro h; exact absurd h hnl_t
      · simp only [State.live, getBlock_setBlock_ne t bt1 hp]
    have hwf1 : (t.setBlock db bt1).WF := WF_of_Evolves hev1 hwf
    have hson_le : son ≤ (t.setBlock db bt1).blocks.length := by
      rw [hev1.blocks_length]
      exact (hwf.1 b (mem_blocks_of_getBlock hb)).2 son (List.getElem?_mem hson)
    have hcount1 : (t.setBlock db bt1).liveCount < fuel := by
      have := hev1.liveCount_lt hlive_s (fun h => hnl_t ((hlive1 db).mp h))
      omega
    obtain ⟨t2, ps2, hcall, hpost⟩ := IH _ son hwf1 hson_le hcount1
    -- the invariant after the round
    have hev2 : Evolves s t2 := hev1.trans hpost.ev
    have hown2 : t2.getBlock db = .ok bt1 := hpost.ev.gone_stays hown1 (by simp [bt1])
    have hinv2 : SonsInv s db b (i + 1) t2 (ps ++ ps2) := by
      refine ⟨hev2, ?_, ?_, ?_, ?_, hown2, ?_, ?_⟩
      · have hdis : ∀ p, p ∈ db :: ps → p ∉ ps2 := by
          intro p hp hp2
          have h1 := ((hinv.mem p).mp hp).2
          have h2 := ((hpost.mem p).mp hp2).1
          exact h1 ((hlive1 p).mp h2)
        have : (db :: ps ++ ps2).Nodup :=
          List.Nodup.append hinv.nodup hpost.nodup (fun p hp hp2 => hdis p hp hp2)
        simpa using this
      · intro p
        have hm1 := hinv.mem p
        have hm2 := hpost.mem p
        rw [hlive1] at hm2
        rw [← List.cons_append, List.mem_append, hm1, hm2]
        constructor
        · rintro (⟨h1, h2⟩ | ⟨h1, h2⟩)
          · exact ⟨h1, fun h3 => h2 ((hlive1 p).mp (hpost.ev.live_mono h3))⟩
          · exact ⟨hinv.ev.live_mono h1, h2⟩
        · rintro ⟨h1, h2⟩
          by_cases h3 : t.live p
          · exact Or.inr ⟨h3, h2⟩
          · exact Or.inl ⟨h1, h3⟩
      · rw [hpost.trace, setBlock_trace, hinv.trace, eventsOf_append, List.append_assoc]
        congr 1
        congr 1
        apply eventsOf_congr
        intro p hp
        obtain ⟨⟨bp, hbp, hgp⟩, -⟩ := (hpost.mem p).mp hp
        rw [hbp, hev1.live_back hbp hgp]
      · intro p hp
        rcases List.mem_append.mp hp with hp | hp
        · exact hinv.desc p hp
        · have hd1 : Desc s son p := Desc_mono hev1 (hpost.desc p hp)
          by_cases hs0 : son = 0
          · subst hs0
            have hp0 := Desc_zero hd1
            subst hp0
            exact absurd ((hpost.mem 0).mp hp).1 (not_live_zero _)
          · exact Desc_trans (Desc.son Desc.self hb hg (List.getElem?_mem hson) hs0) hd1
      · have hc1 : (t.setBlock db bt1).slotCleared b := by
          intro parent arr hl
          rw [getList_setBlock] at hl
          exact hinv.cleared parent arr hl
        exact slotCleared_of_Evolves hpost.ev hc1
      · intro j hj q hq hq0
        by_cases hji : j = i
        · subst hji
          rw [hson] at hq
          cases hq
          exact hpost.gone hq0
        · intro hl
          exact hinv.sonsGone j (by omega) q hq hq0 ((hlive1 q).mp (hpost.ev.live_mono hl))
    obtain ⟨t', ps', hrest, hfin⟩ := ih (i + 1) t2 (ps ++ ps2) hinv2 (by omega)
    refine ⟨t', ps', ?_, hfin⟩
    simp only [FreeDynablock_sons, hinv.own, bind, Except.bind, hlen_t, hi, if_true, hxchg, hcall]
    exact hrest

theorem FreeDynablock_null (fuel : Nat) (s : State) : FreeDynablock (fuel + 1) s 0 = .ok s := by
  simp [FreeDynablock]

theorem FreeDynablock_gone (fuel : Nat) (s : State) (db : Nat) (b : dynablock_t)
    (hb : s.getBlock db = .ok b) (hg : b.gone ≠ 0) : FreeDynablock (fuel + 1) s db = .ok s := by
  obtain ⟨hdb, -⟩ := getBlock_ne_zero hb
  simp [FreeDynablock, hdb, hb, hg, bind, Except.bind]

theorem FreePost_noop (s : State) (db : Nat) (h : ¬ s.live db) : FreePost s db s [] := by
  refine ⟨Evolves.refl s, List.nodup_nil, ?_, by simp [eventsOf], ?_, fun _ => h, ?_⟩
  · intro p; simp
  · intro p hp; simp at hp
  · intro b hb hg; exact absurd ⟨b, hb, hg⟩ h

theorem FreeDynablock_spec : ∀ (fuel : Nat) (s : State) (db : Nat), s.WF →
    db ≤ s.blocks.length → s.liveCount < fuel →
    ∃ s' ps, FreeDynablock fuel s db = .ok s' ∧ FreePost s db s' ps := by
  intro fuel
  induction fuel with
  | zero => intro s db _ _ h; omega
  | succ fuel IH =>
    intro s db hwf hle hfuel
    by_cases hdb : db = 0
    · subst hdb
      exact ⟨s, [], FreeDynablock_null fuel s, FreePost_noop s 0 (not_live_zero s)⟩
    obtain ⟨b, hb⟩ := getBlock_of_le hdb hle
    by_cases hg : b.gone = 0
    swap
    · refine ⟨s, [], FreeDynablock_gone fuel s db b hb hg, FreePost_noop s db ?_⟩
      rintro ⟨b', hb', hg'⟩
      rw [hb] at hb'
      cases hb'
      exact hg hg'
    -- the block is live
    have hlive : s.live db := ⟨b, hb, hg⟩
    let b1 : dynablock_t := { b with done := 0, gone := 1 }
    have hrel1 : blockRel b b1 := Or.inr ⟨hg, b.sons, slots_refl _, rfl⟩
    have hev1 : Evolves s (s.setBlock db b1) := Evolves_setBlock (Evolves.refl s) hb b1 hrel1
    have hown1 : (s.setBlock db b1).getBlock db = .ok b1 := getBlock_setBlock_same hb b1
    have hwf1 : (s.setBlock db b1).WF := WF_of_Evolves hev1 hwf
    obtain ⟨s2, hunlink, hblocks2, htrace2, hev12, hcl2⟩ := FreeDynablock_unlink_spec hwf1 hown1
    have hget2 : ∀ p, s2.getBlock p = (s.setBlock db b1).getBlock p := by
      intro p; simp only [State.getBlock, hblocks2]
    have hown2 : s2.getBlock db = .ok b1 := by rw [hget2]; exact hown1
    have hev2 : Evolves s s2 := hev1.trans hev12
    have hinv0 : SonsInv s db b 0 s2 [] := by
      refine ⟨hev2, by simp, ?_, ?_, ?_, ?_, ?_, ?_⟩
      · intro p
        simp only [List.mem_singleton]
        constructor
        · rintro rfl
          refine ⟨hlive, ?_⟩
          rintro ⟨b', hb', hg'⟩
          rw [hown2] at hb'
          cases hb'
          simp [b1] at hg'
        · rintro ⟨⟨bp, hbp, hgp⟩, h2⟩
          by_contra hne
          apply h2
          refine ⟨bp, ?_, hgp⟩
          rw [hget2, getBlock_setBlock_ne s b1 hne]
          exact hbp
      · rw [htrace2, setBlock_trace]; simp [eventsOf]
      · intro p hp; simp at hp
      · rw [hown2]; simp [b1]
      · exact hcl2
      · intro j hj; omega
    obtain ⟨s3, ps3, hloop, hinv3⟩ :=
      FreeDynablock_sons_spec fuel IH s db b hwf hb hg hfuel b.sons.length 0 s2 [] hinv0
        (by omega)
    have hown3 := hinv3.own
    rw [sons_progress_done] at hown3
    refine ⟨{ s3 with trace := s3.trace ++
          ((if b.father = 0 then [Event.FreeDynarecMap b.block b.size] else []) ++
            [Event.free db]) }, ps3 ++ [db], ?_, ?_⟩
    · simp only [FreeDynablock, hdb, hb, hg, bind, Except.bind, if_false, ne_eq,
        not_true_eq_false, hunlink, hown2]
      have hl1 : b1.sons.length = b.sons.length := rfl
      rw [hl1, hloop]
      exact (FreeDynablock_release_spec hown3).trans rfl
    · have hlive' : ∀ p, (State.live { s3 with trace := s3.trace ++
          ((if b.father = 0 then [Event.FreeDynarecMap b.block b.size] else []) ++
            [Event.free db]) } p) ↔ s3.live p := fun p => Iff.rfl
      refine ⟨⟨hinv3.ev.blocks, hinv3.ev.lists, hinv3.ev.dynmap, hinv3.ev.shift⟩, ?_, ?_, ?_, ?_,
        ?_, ?_⟩
      · have := hinv3.nodup
        rw [List.nodup_cons] at this
        exact List.Nodup.append this.2 (List.nodup_singleton db)
          (fun p hp hp2 => by
            rw [List.mem_singleton] at hp2
            subst hp2
            exact this.1 hp)
      · intro p
        rw [hlive', ← hinv3.mem p, List.mem_append, List.mem_singleton, List.mem_cons]
        exact Or.comm
      · simp only
        rw [hinv3.trace, eventsOf_append, List.append_assoc]
        congr 2
        simp [eventsOf, releaseEvents, hb]
      · intro p hp
        rcases List.mem_append.mp hp with hp | hp
        · exact hinv3.desc p hp
        · rw [List.mem_singleton] at hp
          subst hp
          exact Desc.self
      · intro _
        rw [hlive']
        exact hinv3.live_iff
      · intro b' hb' _
        rw [hb] at hb'
        cases hb'
        refine ⟨hown3, hinv3.cleared, ?_⟩
        intro q hq hq0
        rw [hlive']
        obtain ⟨j, hj⟩ := List.getElem?_of_mem hq
        have hjlt : j < b.sons.length := (List.getElem?_eq_some_iff.mp hj).1
        exact hinv3.sonsGone j hjlt q hj hq0

/-! ### The recursion budget does not change the result -/

theorem FreeDynablock_sons_mono (r1 r2 : State → Nat → Except Fault State)
    (h : ∀ t q t', r1 t q = .ok t' → r2 t q = .ok t') (db : Nat) :
    ∀ n i t t', FreeDynablock_sons r1 db n i t = .ok t' →
      FreeDynablock_sons r2 db n i t = .ok t' := by
  intro n
  induction n with
  | zero => intro i t t' h1; exact h1
  | succ n ih =>
    intro i t t' h1
    simp only [FreeDynablock_sons] at h1 ⊢
    cases hb : t.getBlock db with
    | error e => rw [hb] at h1; cases h1
    | ok b =>
      rw [hb] at h1
      simp only [bind_ok] at h1 ⊢
      by_cases hi : i < b.sons.length
      · simp only [hi, if_true] at h1 ⊢
        cases hx : arm_lock_xchg_son t db i 0 with
        | error e => rw [hx] at h1; cases h1
        | ok v =>
          rw [hx] at h1
          simp only [bind_ok] at h1 ⊢
          cases hr : r1 v.2 v.1 with
          | error e => rw [hr] at h1; cases h1
          | ok t2 =>
            rw [hr] at h1
            rw [h _ _ _ hr]
            simp only [bind_ok] at h1 ⊢
            exact ih _ _ _ h1
      · simp only [hi, if_false] at h1 ⊢
        exact h1

theorem FreeDynablock_fuel_succ : ∀ (fuel : Nat) (s : State) (db : Nat) (s' : State),
    FreeDynablock fuel s db = .ok s' → FreeDynablock (fuel + 1) s db = .ok s' := by
  intro fuel
  induction fuel with
  | zero => intro s db s' h; cases h
  | succ f ih =>
    intro s db s' h
    rw [FreeDynablock] at h ⊢
    by_cases hdb : db = 0
    · simp only [hdb, if_true] at h ⊢; exact h
    · simp only [hdb, if_false] at h ⊢
      cases hb : s.getBlock db with
      | error e => rw [hb] at h; cases h
      | ok b =>
        rw [hb] at h
        simp only [bind_ok] at h ⊢
        by_cases hg : b.gone ≠ 0
        · rw [if_pos hg] at h ⊢; exact h
        · rw [if_neg hg] at h ⊢
          cases hu : FreeDynablock_unlink (s.setBlock db { b with done := 0, gone := 1 }) db with
          | error e => rw [hu] at h; cases h
          | ok s2 =>
            rw [hu] at h
            simp only [bind_ok] at h ⊢
            cases hb2 : s2.getBlock db with
            | error e => rw [hb2] at h; cases h
            | ok b2 =>
              rw [hb2] at h
              simp only [bind_ok] at h ⊢
              cases hs : FreeDynablock_sons (FreeDynablock f) db b2.sons.length 0 s2 with
              | error e => rw [hs] at h; cases h
              | ok s3 =>
                rw [hs] at h
                rw [FreeDynablock_sons_mono (FreeDynablock f) (FreeDynablock (f + 1)) ih db _ _ _ _ hs]
                exact h

theorem FreeDynablock_fuel_le {f1 f2 : Nat} (hle : f1 ≤ f2) {s : State} {db : Nat} {s' : State}
    (h : FreeDynablock f1 s db = .ok s') : FreeDynablock f2 s db = .ok s' := by
  induction hle with
  | refl => exact h
  | step _ ih => exact FreeDynablock_fuel_succ _ _ _ _ ih

/-- With sound pointers `FreeDynablock` returns, and returns the same state,
for every recursion budget above the number of live blocks. -/
theorem FreeDynablock_total (s : State) (db : Nat) (hwf : s.WF) (hle : db ≤ s.blocks.length) :
    ∃ s' ps, FreePost s db s' ps ∧
      ∀ fuel, s.liveCount < fuel → FreeDynablock fuel s db = .ok s' := by
  obtain ⟨s', ps, hcall, hpost⟩ :=
    FreeDynablock_spec (s.liveCount + 1) s db hwf hle (Nat.lt_succ_self _)
  exact ⟨s', ps, hpost, fun fuel hf => FreeDynablock_fuel_le hf hcall⟩

/-! ### Consequences for the claims about `FreeDynablock` -/

theorem filter_eventsOf_single (s : State) (F : Nat) (e : Event) :
    ∀ ps : List Nat, ps.Nodup → F ∈ ps →
      (∀ p ∈ ps, p ≠ F → (releaseEvents s p).filter Event.isFreeDynarecMap = []) →
      (releaseEvents s F).filter Event.isFreeDynarecMap = [e] →
      (eventsOf s ps).filter Event.isFreeDynarecMap = [e] := by
  intro ps
  induction ps with
  | nil => intro _ h; simp at h
  | cons p ps ih =>
    intro hnd hmem hother hF
    rw [List.nodup_cons] at hnd
    have hrest : ∀ qs : List Nat, F ∉ qs →
        (∀ q ∈ qs, q ≠ F → (releaseEvents s q).filter Event.isFreeDynarecMap = []) →
        (eventsOf s qs).filter Event.isFreeDynarecMap = [] := by
      intro qs
      induction qs with
      | nil => intro _ _; rfl
      | cons q qs ihq =>
        intro hn ho
        have hq : q ≠ F := fun h => hn (h ▸ List.mem_cons_self _ _)
        have h1 := ho q (List.mem_cons_self _ _) hq
        have h2 := ihq (fun h => hn (List.mem_cons_of_mem _ h))
          (fun r hr => ho r (List.mem_cons_of_mem _ hr))
        simp only [eventsOf, List.flatMap_cons, List.filter_append] at h2 ⊢
        rw [h1, h2]; rfl
    simp only [eventsOf, List.flatMap_cons, List.filter_append]
    by_cases hp : p = F
    · subst hp
      rw [hF]
      have := hrest ps hnd.1 (fun q hq => hother q (List.mem_cons_of_mem _ hq))
      simp only [eventsOf] at this
      rw [this]; rfl
    · rw [hother p (List.mem_cons_self _ _) hp]
      have hmem2 : F ∈ ps := by
        rcases List.mem_cons.mp hmem with h | h
        · exact absurd h.symm hp
        · exact h
      have := ih hnd.2 hmem2 (fun q hq => hother q (List.mem_cons_of_mem _ hq)) hF
      simp only [eventsOf] at this
      rw [this]; rfl

theorem FreeDynablock_cascade (s : State) (F : Nat) (bF : dynablock_t)
    (hwf : s.WF) (hF : s.getBlock F = .ok bF) (hlive : bF.gone = 0) (htop : bF.father = 0)
    (hsons : ∀ q ∈ bF.sons, q ≠ 0 →
      ∃ bq, s.getBlock q = .ok bq ∧ bq.gone = 0 ∧ bq.father = F ∧ bq.sons = []) :
    ∃ s' t, (∀ fuel, s.liveCount < fuel → FreeDynablock fuel s F = .ok s') ∧
      s'.getBlock F =
        .ok { bF with done := 0, gone := 1, sons := List.replicate bF.sons.length 0 } ∧
      (∀ q ∈ bF.sons, q ≠ 0 → ∀ bq, s.getBlock q = .ok bq →
        s'.getBlock q = .ok { bq with done := 0, gone := 1 }) ∧
      s'.trace = s.trace ++ t ∧
      t.filter Event.isFreeDynarecMap = [Event.FreeDynarecMap bF.block bF.size] := by
  obtain ⟨hF0, hFget⟩ := getBlock_ne_zero hF
  have hFle : F ≤ s.blocks.length := by
    have := (List.getElem?_eq_some_iff.mp hFget).1
    omega
  obtain ⟨s', ps, hpost, hcall⟩ := FreeDynablock_total s F hwf hFle
  obtain ⟨hown, -, hsg⟩ := hpost.own bF hF hlive
  refine ⟨s', eventsOf s ps, hcall, hown, ?_, hpost.trace, ?_⟩
  · intro q hq hq0 bq hbq
    obtain ⟨bq2, hbq2, hgq, -, hsq⟩ := hsons q hq hq0
    rw [hbq] at hbq2
    cases hbq2
    obtain ⟨bq', hbq', hr⟩ := hpost.ev.block_rel hbq
    rcases hr with hr | ⟨-, sons', hs, hr⟩
    · subst hr
      exact absurd ⟨bq', hbq', hgq⟩ (hsg q hq hq0)
    · rw [hsq] at hs
      cases hs
      rw [hbq', hr, hsq]
  · have hdesc : ∀ p, Desc s F p → p = F ∨ (p ∈ bF.sons ∧ p ≠ 0) := by
      intro p hd
      induction hd with
      | self => exact Or.inl rfl
      | son _ hb hg hq hq0 ih =>
        rcases ih with ih | ⟨ih1, ih2⟩
        · subst ih
          rw [hF] at hb
          cases hb
          exact Or.inr ⟨hq, hq0⟩
        · obtain ⟨bq, hbq, -, -, hsq⟩ := hsons _ ih1 ih2
          rw [hbq] at hb
          cases hb
          rw [hsq] at hq
          simp at hq
    apply filter_eventsOf_single s F _ ps hpost.nodup
    · exact (hpost.mem F).mpr ⟨⟨bF, hF, hlive⟩, hpost.gone hF0⟩
    · intro p hp hpF
      rcases hdesc p (hpost.desc p hp) with h | ⟨h1, h2⟩
      · exact absurd h hpF
      · obtain ⟨bq, hbq, -, hfq, -⟩ := hsons p h1 h2
        have : bq.father ≠ 0 := by rw [hfq]; exact hF0
        simp [releaseEvents, hbq, this, Event.isFreeDynarecMap]
    · simp [releaseEvents, hF, htop, Event.isFreeDynarecMap]

/-- C5: for a live top-level block `F` whose non-null sons are live blocks
with `father = F` and no sons of their own, `FreeDynablock(F)` (run with a
recursion budget above the number of live blocks) returns, and sets `gone = 1`
and `done = 0` on `F` and on every son, leaves every entry of `F.sons` null, and the
calls of `FreeDynarecMap` it adds to the trace are exactly one, with the
arguments `(F.block, F.size)`. -/
theorem FreeDynablock_frees_sons (s : State) (F : Nat) (bF : dynablock_t)
    (hwf : s.WF) (hF : s.getBlock F = .ok bF) (hlive : bF.gone = 0) (htop : bF.father = 0)
    (hsons : ∀ q ∈ bF.sons, q ≠ 0 →
      ∃ bq, s.getBlock q = .ok bq ∧ bq.gone = 0 ∧ bq.father = F ∧ bq.sons = []) :
    ∃ s' t, (∀ fuel, s.liveCount < fuel → FreeDynablock fuel s F = .ok s') ∧
      s'.getBlock F =
        .ok { bF with done := 0, gone := 1, sons := List.replicate bF.sons.length 0 } ∧
      (∀ q ∈ bF.sons, q ≠ 0 → ∀ bq, s.getBlock q = .ok bq →
        s'.getBlock q = .ok { bq with done := 0, gone := 1 }) ∧
      s'.trace = s.trace ++ t ∧
      t.filter Event.isFreeDynarecMap = [Event.FreeDynarecMap bF.block bF.size] :=
  FreeDynablock_cascade s F bF hwf hF hlive htop hsons

/-- Instance of C5: the father of `exState2` is freed. -/
theorem FreeDynablock_frees_sons_witness :
    ∃ s' t, (∀ fuel, exState2.liveCount < fuel → FreeDynablock fuel exState2 1 = .ok s') ∧
      s'.getBlock 1 =
        .ok { exFather with done := 0, gone := 1,
                            sons := List.replicate exFather.sons.length 0 } ∧
      (∀ q ∈ exFather.sons, q ≠ 0 → ∀ bq, exState2.getBlock q = .ok bq →
        s'.getBlock q = .ok { bq with done := 0, gone := 1 }) ∧
      s'.trace = exState2.trace ++ t ∧
      t.filter Event.isFreeDynarecMap = [Event.FreeDynarecMap exFather.block exFather.size] :=
  FreeDynablock_frees_sons exState2 1 exFather (by decide) rfl rfl rfl
    (by
      intro q hq _
      have : q = 2 := by simpa [exFather] using hq
      subst this
      exact ⟨exSon, rfl, rfl, rfl, rfl⟩)

/-- C6: `FreeDynablock` on a null pointer or on a block whose `gone` flag is
set returns the state it was given: no slot, no `sons` entry, no flag and no
trace entry changes. Hence, in a state with sound pointers, `FreeDynablock(b)`
returns a state `s'` from which a second `FreeDynablock(b)` returns `s'` again:
the two calls leave the state and the trace of the first. -/
theorem FreeDynablock_idempotent (s : State) (b : Nat) :
    (∀ fuel, FreeDynablock (fuel + 1) s 0 = .ok s) ∧
    (∀ fuel blk, s.getBlock b = .ok blk → blk.gone ≠ 0 →
      FreeDynablock (fuel + 1) s b = .ok s) ∧
    (s.WF → b ≤ s.blocks.length →
      ∃ s', (∀ fuel, s.liveCount < fuel → FreeDynablock fuel s b = .ok s') ∧
        ∀ fuel, FreeDynablock (fuel + 1) s' b = .ok s') := by
  refine ⟨fun fuel => FreeDynablock_null fuel s,
    fun fuel blk hb hg => FreeDynablock_gone fuel s b blk hb hg, ?_⟩
  intro hwf hle
  obtain ⟨s', ps, hpost, hcall⟩ := FreeDynablock_total s b hwf hle
  refine ⟨s', hcall, ?_⟩
  intro f
  by_cases hb0 : b = 0
  · subst hb0; exact FreeDynablock_null f s'
  · obtain ⟨blk', hblk'⟩ := getBlock_of_le (s := s') hb0 (by rw [hpost.ev.blocks_length]; exact hle)
    exact FreeDynablock_gone f s' b blk' hblk' (fun h0 => hpost.gone hb0 ⟨blk', hblk', h0⟩)

/-- Instance of C6 on `exState2_son_freed`, where block 2 is gone, and on
`exState2`, where the father is freed twice. -/
theorem FreeDynablock_idempotent_witness :
    FreeDynablock (0 + 1) exState2_son_freed 2 = .ok exState2_son_freed ∧
    ∃ s', (∀ fuel, exState2.liveCount < fuel → FreeDynablock fuel exState2 1 = .ok s') ∧
      ∀ fuel, FreeDynablock (fuel + 1) s' 1 = .ok s' :=
  ⟨(FreeDynablock_idempotent exState2_son_freed 2).2.1 0 { exSon with gone := 1 } rfl
      (by decide),
   (FreeDynablock_idempotent exState2 1).2.2 (by decide) (by decide)⟩

theorem list_set_same {α : Type} {l : List α} {i : Nat} {a : α} (h : l[i]? = some a) :
    l.set i a = l := by
  induction l generalizing i with
  | nil => rfl
  | cons x xs ih =>
    cases i with
    | zero =>
      simp only [List.getElem?_cons_zero, Option.some.injEq] at h
      subst h; rfl
    | succ j =>
      simp only [List.getElem?_cons_succ] at h
      simp only [List.set_cons_succ, ih h]

theorem setList_same {s : State} {D : Nat} {l : dynablocklist_t}
    (hl : s.getList D = .ok l) : s.setList D l = s := by
  obtain ⟨hD, hget⟩ := getList_ne_zero hl
  obtain ⟨i, rfl⟩ : ∃ i, D = i + 1 := ⟨D - 1, by omega⟩
  simp only [Nat.add_sub_cancel] at hget
  simp only [State.setList, list_set_same hget]

theorem arm_lock_xchg_direct_null {s : State} {D idx : Nat} {l : dynablocklist_t}
    {arr : List Nat} (hl : s.getList D = .ok l) (hd : l.direct = some arr)
    (h0 : arr[idx]? = some 0) : arm_lock_xchg_direct s D idx 0 = .ok (0, s) := by
  have hi : idx < arr.length := (List.getElem?_eq_some_iff.mp h0).1
  have hsame : ({ l with direct := some (arr.set idx 0) } : dynablocklist_t) = l := by
    rw [list_set_same h0, ← hd]
  simp only [arm_lock_xchg_direct, readDirect_eq hl hd, h0, writeDirect_eq hl hd hi, bind,
    Except.bind, hsame, setList_same hl]

theorem FreeRangeDynablock_collect_empty {s : State} {D : Nat} {l : dynablocklist_t}
    {arr : List Nat} (hl : s.getList D = .ok l) (hd : l.direct = some arr)
    (blocks : List Nat) :
    ∀ n i, (∀ j, i ≤ j → j < i + n → l.text ≤ j ∧ j < W32 ∧ arr[j - l.text]? = some 0) →
      FreeRangeDynablock_collect D l.text n i s blocks = .ok (s, blocks) := by
  intro n
  induction n with
  | zero => intro i _; rfl
  | succ n ih =>
    intro i h
    obtain ⟨h1, h2, h3⟩ := h i (Nat.le_refl _) (by omega)
    have h0 : arr[subU32 i l.text]? = some 0 := by rw [subU32_eq _ _ h1 h2]; exact h3
    have hx := arm_lock_xchg_direct_null hl hd h0
    simp only [FreeRangeDynablock_collect, hx, bind, Except.bind, ne_eq, not_true_eq_false,
      if_false]
    exact ih (i + 1) (fun j hj1 hj2 => h j (by omega) (by omega))

theorem FreeRangeDynablock_empty (fuel : Nat) (s : State) (D addr size : Nat)
    (l : dynablocklist_t) (hl : s.getList D = .ok l)
    (hempty : ∀ arr, l.direct = some arr → ∀ i, l.covers i → addr ≤ i →
      i < (addr + size) % W32 → arr[i - l.text]? = some 0) :
    FreeRangeDynablock fuel s D addr size = .ok s := by
  obtain ⟨hD, -⟩ := getList_ne_zero hl
  cases hd : l.direct with
  | none => simp [FreeRangeDynablock, hD, hl, hd, bind, Except.bind]
  | some arr =>
    simp only [FreeRangeDynablock, hD, hl, hd, bind, Except.bind, if_false, Option.isSome_some,
      if_true]
    have hW : (l.text + l.textsz) % W32 < W32 := Nat.mod_lt _ (by unfold W32; omega)
    split_ifs with h1 h2 h3 h3 h2 h3 h3 <;>
      first
      | rfl
      | (rw [FreeRangeDynablock_collect_empty hl hd [] _ _ (by
            intro j hj1 hj2
            have hc : l.covers j := by unfold dynablocklist_t.covers; omega
            exact ⟨by omega, by omega, hempty arr hd j hc (by omega) (by omega)⟩)]
         rfl)

/-- C8 fails as stated: the directory of `exState3` has `nolinker = 0`, and
`FreeRangeDynablock` on the byte at address 17 empties the slot, sets `gone`
on the block found there and calls `FreeDynarecMap`. -/
theorem FreeRangeDynablock_ignores_nolinker :
    exState3.getList 1 = .ok exList3 ∧ exList3.nolinker = 0 ∧
    FreeRangeDynablock 2 exState3 1 17 1 = .ok exState3_freed ∧
    exState3_freed ≠ exState3 := by
  decide

/-- C8 as amended: for every directory, whatever its `nolinker`, whose `direct`
array is not allocated or whose slots are null on the intersection of
`[addr, addr+size)` with the range of the directory, `FreeRangeDynablock`
leaves the whole state unchanged: no slot is cleared, no block gets `gone`,
`FreeDynarecMap` is not called. -/
theorem FreeRangeDynablock_no_block (fuel : Nat) (s : State) (D addr size : Nat)
    (l : dynablocklist_t) (hl : s.getList D = .ok l)
    (hempty : ∀ arr, l.direct = some arr → ∀ i, l.covers i → addr ≤ i →
      i < (addr + size) % W32 → arr[i - l.text]? = some 0) :
    FreeRangeDynablock fuel s D addr size = .ok s :=
  FreeRangeDynablock_empty fuel s D addr size l hl hempty

/-- Instance of amended C8: the bytes at 18 and 19 of `exState3` hold no block. -/
theorem FreeRangeDynablock_no_block_witness :
    FreeRangeDynablock 2 exState3 1 18 2 = .ok exState3 :=
  FreeRangeDynablock_no_block 2 exState3 1 18 2 exList3 rfl (by
    intro arr harr i hc h1 h2
    have harr2 : arr = [0, 1, 0, 0] := by
      simp only [exList3, Option.some.injEq] at harr
      exact harr.symm
    subst harr2
    have h3 : i < 20 := by
      have : (18 + 2) % W32 = 20 := by decide
      omega
    have : i = 18 ∨ i = 19 := by omega
    rcases this with rfl | rfl <;> decide)

/-- C9: on a directory with `nolinker = 0`, `MarkRangeDynablock`,
`MarkDirectDynablock` and `MarkDynablockList` return the state they were
given: no field of any block and no slot changes. -/
theorem Mark_skips_linker_directory (s : State) (D addr size : Nat) (l : dynablocklist_t)
    (hl : s.getList D = .ok l) (hn : l.nolinker = 0) :
    MarkRangeDynablock s D addr size = .ok s ∧
    MarkDirectDynablock s D addr size = .ok s ∧
    MarkDynablockList s (some D) = .ok s := by
  obtain ⟨hD, -⟩ := getList_ne_zero hl
  refine ⟨?_, ?_, ?_⟩
  · simp [MarkRangeDynablock, hD, hl, hn, bind, Except.bind]
  · simp [MarkDirectDynablock, hD, hl, hn, bind, Except.bind]
  · simp [MarkDynablockList, hD, hl, hn, bind, Except.bind]

/-- Instance of C9 on the directory of `exState3`. -/
theorem Mark_skips_linker_directory_witness :
    MarkRangeDynablock exState3 1 16 4 = .ok exState3 ∧
    MarkDirectDynablock exState3 1 16 4 = .ok exState3 ∧
    MarkDynablockList exState3 (some 1) = .ok exState3 :=
  Mark_skips_linker_directory exState3 1 16 4 exList3 rfl rfl

theorem MarkHit_succ (s : State) (arr : List Nat) (text lo i f : Nat) (hlo : lo ≤ i) :
    MarkHit s arr text lo (i + 1) f ↔
      MarkHit s arr text lo i f ∨
        ∃ d bd, arr[i - text]? = some d ∧ d ≠ 0 ∧ s.getBlock d = .ok bd ∧
          f = (if bd.father ≠ 0 then bd.father else d) := by
  constructor
  · rintro ⟨j, d, bd, h1, h2, h3, h4, h5, h6⟩
    by_cases hj : j = i
    · subst hj; exact Or.inr ⟨d, bd, h3, h4, h5, h6⟩
    · exact Or.inl ⟨j, d, bd, h1, by omega, h3, h4, h5, h6⟩
  · rintro (⟨j, d, bd, h1, h2, h3, h4, h5, h6⟩ | ⟨d, bd, h3, h4, h5, h6⟩)
    · exact ⟨j, d, bd, h1, by omega, h3, h4, h5, h6⟩
    · exact ⟨i, d, bd, hlo, by omega, h3, h4, h5, h6⟩

theorem MarkInv.block_at {s t : State} {arr : List Nat} {text lo i : Nat}
    (h : MarkInv s arr text lo i t) {p : Nat} {bp : dynablock_t} (hp : s.getBlock p = .ok bp) :
    ∃ bt, t.getBlock p = .ok bt ∧ bt.father = bp.father ∧ bt.nolinker = bp.nolinker ∧
      { bt with need_test := 1 } = { bp with need_test := 1 } := by
  by_cases hc : bp.nolinker ≠ 0 ∧ MarkHit s arr text lo i p
  · exact ⟨_, h.marked p bp hp hc.1 hc.2, rfl, rfl, rfl⟩
  · exact ⟨_, h.others p bp hp hc, rfl, rfl, rfl⟩

theorem MarkDirectDynablock_loop_spec (s : State) (D : Nat) (l : dynablocklist_t)
    (arr : List Nat) (hl : s.getList D = .ok l) (hd : l.direct = some arr)
    (hslots : ∀ d ∈ arr, d ≤ s.blocks.length)
    (hfathers : ∀ b ∈ s.blocks, b.father ≤ s.blocks.length) (lo : Nat) :
    ∀ n i t, MarkInv s arr l.text lo i t → lo ≤ i →
      (∀ j, i ≤ j → j < i + n → l.text ≤ j ∧ j < W32 ∧ j - l.text < arr.length) →
      ∃ t', MarkDirectDynablock_loop D l.text n i t = .ok t' ∧
        MarkInv s arr l.text lo (i + n) t' := by
  intro n
  induction n with
  | zero => intro i t hinv _ _; exact ⟨t, rfl, hinv⟩
  | succ n ih =>
    intro i t hinv hlo hidx
    obtain ⟨h1, h2, h3⟩ := hidx i (Nat.le_refl _) (by omega)
    have hlt : t.getList D = .ok l := by
      simp only [State.getList, hinv.lists] at hl ⊢; exact hl
    obtain ⟨d, hdv⟩ : ∃ d, arr[i - l.text]? = some d := ⟨arr[i - l.text], by simp [h3]⟩
    have hread : t.readDirect D (subU32 i l.text) = .ok d := by
      rw [readDirect_eq hlt hd, subU32_eq _ _ h1 h2, hdv]
    -- one round leads to a state that satisfies the invariant up to `i + 1`
    have hround : ∃ t1, (d = 0 ∧ t1 = t ∨ d ≠ 0 ∧ MarkDynablock t d = .ok t1) ∧
        MarkInv s arr l.text lo (i + 1) t1 := by
      by_cases hd0 : d = 0
      · subst hd0
        refine ⟨t, Or.inl ⟨rfl, rfl⟩, hinv.lists, hinv.dynmap, hinv.shift, hinv.trace, ?_, ?_⟩
        · intro p bp hp hn hh
          rcases (MarkHit_succ s arr l.text lo i p hlo).mp hh with hh | ⟨d, bd, e1, e2, -, -⟩
          · exact hinv.marked p bp hp hn hh
          · rw [hdv] at e1; cases e1; exact absurd rfl e2
        · intro p bp hp hc
          apply hinv.others p bp hp
          rintro ⟨hn, hh⟩
          exact hc ⟨hn, (MarkHit_succ s arr l.text lo i p hlo).mpr (Or.inl hh)⟩
      · have hdle := hslots d (List.getElem?_mem hdv)
        obtain ⟨bd, hbd⟩ := getBlock_of_le hd0 hdle
        obtain ⟨bdt, hbdt, hfat, -, -⟩ := hinv.block_at hbd
        -- the block that is marked
        have htgt0 : (if bd.father ≠ 0 then bd.father else d) ≠ 0 := by
          by_cases hf : bd.father = 0 <;> simp [hf, hd0]
        have htgtle : (if bd.father ≠ 0 then bd.father else d) ≤ s.blocks.length := by
          by_cases hf : bd.father = 0
          · simp [hf, hdle]
          · simp only [ne_eq, hf, not_false_eq_true, if_true]
            exact hfathers bd (mem_blocks_of_getBlock hbd)
        obtain ⟨bf, hbf⟩ := getBlock_of_le htgt0 htgtle
        obtain ⟨bft, hbft, -, hnol, hsame⟩ := hinv.block_at hbf
        have hhit : ∀ p, MarkHit s arr l.text lo (i + 1) p ↔
            MarkHit s arr l.text lo i p ∨ p = (if bd.father ≠ 0 then bd.father else d) := by
          intro p
          rw [MarkHit_succ s arr l.text lo i p hlo]
          constructor
          · rintro (h | ⟨d2, bd2, e1, -, e3, e4⟩)
            · exact Or.inl h
            · rw [hdv] at e1; cases e1
              rw [hbd] at e3; cases e3
              exact Or.inr e4
          · rintro (h | h)
            · exact Or.inl h
            · exact Or.inr ⟨d, bd, hdv, hd0, hbd, h⟩
        by_cases hnl : bf.nolinker = 0
        · refine ⟨t, Or.inr ⟨hd0, ?_⟩, hinv.lists, hinv.dynmap, hinv.shift, hinv.trace, ?_, ?_⟩
          · have hnlt : bft.nolinker = 0 := by rw [hnol]; exact hnl
            simp only [MarkDynablock, hd0, hbdt, hfat, hbft, hnlt, bind_ok,
              if_false, ne_eq, not_true_eq_false, not_false_eq_true, if_true]
          · intro p bp hp hn hh
            rcases (hhit p).mp hh with hh | hh
            · exact hinv.marked p bp hp hn hh
            · subst hh
              rw [hbf] at hp; cases hp
              exact absurd hnl hn
          · intro p bp hp hc
            apply hinv.others p bp hp
            rintro ⟨hn, hh⟩
            exact hc ⟨hn, (hhit p).mpr (Or.inl hh)⟩
        · refine ⟨t.setBlock (if bd.father ≠ 0 then bd.father else d) { bf with need_test := 1 },
            Or.inr ⟨hd0, ?_⟩, ?_, ?_, ?_, ?_, ?_, ?_⟩
          · have hnlt : bft.nolinker ≠ 0 := by rw [hnol]; exact hnl
            simp only [MarkDynablock, hd0, hbdt, hfat, hbft, hnlt, bind_ok,
              if_false, ne_eq, not_false_eq_true, if_true, hsame]
          · rw [setBlock_lists]; exact hinv.lists
          · cases hq : (if bd.father ≠ 0 then bd.father else d) with
            | zero => exact hinv.dynmap
            | succ k => exact hinv.dynmap
          · cases hq : (if bd.father ≠ 0 then bd.father else d) with
            | zero => exact hinv.shift
            | succ k => exact hinv.shift
          · rw [setBlock_trace]; exact hinv.trace
          · intro p bp hp hn hh
            by_cases hpe : p = (if bd.father ≠ 0 then bd.father else d)
            · subst hpe
              rw [hbf] at hp; cases hp
              exact getBlock_setBlock_same hbft _
            · rw [getBlock_setBlock_ne t _ hpe]
              rcases (hhit p).mp hh with hh | hh
              · exact hinv.marked p bp hp hn hh
              · exact absurd hh hpe
          · intro p bp hp hc
            have hpe : p ≠ (if bd.father ≠ 0 then bd.father else d) := by
              intro hpe
              subst hpe
              rw [hbf] at hp; cases hp
              exact hc ⟨hnl, (hhit _).mpr (Or.inr rfl)⟩
            rw [getBlock_setBlock_ne t _ hpe]
            apply hinv.others p bp hp
            rintro ⟨hn, hh⟩
            exact hc ⟨hn, (hhit p).mpr (Or.inl hh)⟩
    obtain ⟨t1, hr1, hinv1⟩ := hround
    obtain ⟨t', hrest, hfin⟩ := ih (i + 1) t1 hinv1 (by omega)
      (fun j hj1 hj2 => hidx j (by omega) (by omega))
    refine ⟨t', ?_, ?_⟩
    · simp only [MarkDirectDynablock_loop, hread, bind_ok]
      rcases hr1 with ⟨hd0, ht1⟩ | ⟨hd0, hm⟩
      · subst ht1
        simp only [hd0, ne_eq, not_true_eq_false, if_false]
        exact hrest
      · simp only [hd0, ne_eq, not_false_eq_true, if_true, hm, bind_ok]
        exact hrest
    · have : i + (n + 1) = i + 1 + n := by omega
      rw [this]; exact hfin

theorem MarkInv_refl (s : State) (arr : List Nat) (text lo : Nat) :
    MarkInv s arr text lo lo s := by
  refine ⟨rfl, rfl, rfl, rfl, ?_, ?_⟩
  · rintro p bp _ _ ⟨i, _, _, h1, h2, _⟩
    omega
  · intro p bp hp _
    exact hp

theorem MarkInv_empty (s : State) (arr : List Nat) (text lo hi : Nat) (h : hi ≤ lo) :
    MarkInv s arr text lo hi s := by
  refine ⟨rfl, rfl, rfl, rfl, ?_, ?_⟩
  · rintro p bp _ _ ⟨i, _, _, h1, h2, _⟩
    omega
  · intro p bp hp _
    exact hp

theorem MarkDirectDynablock_spec (s : State) (D addr size : Nat) (l : dynablocklist_t)
    (arr : List Nat) (hl : s.getList D = .ok l) (hn : l.nolinker ≠ 0)
    (hd : l.direct = some arr) (hlen : l.textsz ≤ arr.length)
    (hslots : ∀ d ∈ arr, d ≤ s.blocks.length)
    (hfathers : ∀ b ∈ s.blocks, b.father ≤ s.blocks.length)
    (hsum : addr + size < W32) :
    ∃ s', MarkDirectDynablock s D addr size = .ok s' ∧
      MarkInv s arr l.text (max addr l.text) (min (addr + size) ((l.text + l.textsz) % W32)) s' := by
  obtain ⟨hD, -⟩ := getList_ne_zero hl
  have hmod : (addr + size) % W32 = addr + size := Nat.mod_eq_of_lt hsum
  have hW : (l.text + l.textsz) % W32 < W32 := Nat.mod_lt _ (by unfold W32; omega)
  have hle : (l.text + l.textsz) % W32 ≤ l.text + l.textsz := Nat.mod_le _ _
  have hstart : (if addr < l.text then l.text else addr) = max addr l.text := by
    by_cases h : addr < l.text
    · simp only [h, if_true]; omega
    · simp only [h, if_false]; omega
  have hend : (if addr + size > (l.text + l.textsz) % W32 then (l.text + l.textsz) % W32
      else addr + size) = min (addr + size) ((l.text + l.textsz) % W32) := by
    by_cases h : addr + size > (l.text + l.textsz) % W32
    · simp only [h, if_true]; omega
    · simp only [h, if_false]; omega
  simp only [MarkDirectDynablock, hD, hl, hn, bind_ok, if_false, hmod, hstart, hend]
  by_cases hc : min (addr + size) ((l.text + l.textsz) % W32) > l.text ∧
      max addr l.text < (l.text + l.textsz) % W32
  · simp only [hc, and_self, if_true]
    by_cases hord : max addr l.text ≤ min (addr + size) ((l.text + l.textsz) % W32)
    · obtain ⟨s', hrun, hinv⟩ := MarkDirectDynablock_loop_spec s D l arr hl hd hslots hfathers
        (max addr l.text) (min (addr + size) ((l.text + l.textsz) % W32) - max addr l.text)
        (max addr l.text) s (MarkInv_refl s arr l.text _) (Nat.le_refl _)
        (by intro j hj1 hj2; omega)
      refine ⟨s', hrun, ?_⟩
      have : max addr l.text + (min (addr + size) ((l.text + l.textsz) % W32) - max addr l.text)
          = min (addr + size) ((l.text + l.textsz) % W32) := by omega
      rw [this] at hinv
      exact hinv
    · have h0 : min (addr + size) ((l.text + l.textsz) % W32) - max addr l.text = 0 := by omega
      rw [h0]
      exact ⟨s, rfl, MarkInv_empty s arr l.text _ _ (by omega)⟩
  · simp only [hc, if_false]
    refine ⟨s, rfl, MarkInv_empty s arr l.text _ _ ?_⟩
    omega

/-- C10: on a directory with `nolinker != 0` and an allocated `direct` array,
for a range whose end does not wrap, `MarkRangeDynablock` changes nothing but
`need_test`: afterwards a block `f` has `need_test = 1` exactly when it had
before, or `f.nolinker != 0` and `f` is the father (the block itself when it
has none) of a block found in `direct` at a guest address of the intersection
of `[addr, addr+size)` with the range of the directory. A block that is not
selected in this way is unchanged, so a son found in the range is not marked
on its own account. -/
theorem MarkRangeDynablock_marks (s : State) (D addr size : Nat) (l : dynablocklist_t)
    (arr : List Nat) (hl : s.getList D = .ok l) (hn : l.nolinker ≠ 0)
    (hd : l.direct = some arr) (hlen : l.textsz ≤ arr.length)
    (hslots : ∀ d ∈ arr, d ≤ s.blocks.length)
    (hfathers : ∀ b ∈ s.blocks, b.father ≤ s.blocks.length)
    (hsum : addr + size < W32) :
    ∃ s', MarkRangeDynablock s D addr size = .ok s' ∧
      s'.lists = s.lists ∧ s'.dynmap = s.dynmap ∧ s'.DYNAMAP_SHIFT = s.DYNAMAP_SHIFT ∧
      s'.trace = s.trace ∧
      (∀ f bf, s.getBlock f = .ok bf →
        ∃ bf', s'.getBlock f = .ok bf' ∧ bf' = { bf with need_test := bf'.need_test } ∧
          (bf'.need_test = 1 ↔ bf.need_test = 1 ∨ (bf.nolinker ≠ 0 ∧
            MarkHit s arr l.text (max addr l.text)
              (min (addr + size) ((l.text + l.textsz) % W32)) f)) ∧
          (¬ (bf.nolinker ≠ 0 ∧ MarkHit s arr l.text (max addr l.text)
              (min (addr + size) ((l.text + l.textsz) % W32)) f) → bf' = bf)) ∧
      (∀ i d bd, max addr l.text ≤ i → i < min (addr + size) ((l.text + l.textsz) % W32) →
        arr[i - l.text]? = some d → d ≠ 0 → s.getBlock d = .ok bd → bd.father ≠ 0 →
        ¬ MarkHit s arr l.text (max addr l.text)
            (min (addr + size) ((l.text + l.textsz) % W32)) d →
        s'.getBlock d = .ok bd) := by
  obtain ⟨hD, -⟩ := getList_ne_zero hl
  obtain ⟨s', hrun, hinv⟩ :=
    MarkDirectDynablock_spec s D addr size l arr hl hn hd hlen hslots hfathers hsum
  refine ⟨s', ?_, hinv.lists, hinv.dynmap, hinv.shift, hinv.trace, ?_, ?_⟩
  · simp only [MarkRangeDynablock, hD, hl, hn, hd, bind_ok, if_false, Option.isSome_some,
      if_true]
    exact hrun
  · intro f bf hf
    by_cases hc : bf.nolinker ≠ 0 ∧ MarkHit s arr l.text (max addr l.text)
        (min (addr + size) ((l.text + l.textsz) % W32)) f
    · refine ⟨_, hinv.marked f bf hf hc.1 hc.2, rfl, ?_, fun h => absurd hc h⟩
      exact ⟨fun _ => Or.inr hc, fun _ => rfl⟩
    · refine ⟨_, hinv.others f bf hf hc, rfl, ?_, fun _ => rfl⟩
      exact ⟨fun h => Or.inl h, fun h => h.elim id (fun h2 => absurd h2 hc)⟩
  · intro i d bd _ _ _ _ hbd _ hnh
    exact hinv.others d bd hbd (fun h => hnh h.2)

/-- Instance of C10: the bytes 17 and 18 of `exState4` are marked; the slots
hold the father and its son. -/
theorem MarkRangeDynablock_marks_witness :
    ∃ s', MarkRangeDynablock exState4 1 17 2 = .ok s' ∧
      s'.lists = exState4.lists ∧ s'.dynmap = exState4.dynmap ∧
      s'.DYNAMAP_SHIFT = exState4.DYNAMAP_SHIFT ∧ s'.trace = exState4.trace ∧
      (∀ f bf, exState4.getBlock f = .ok bf →
        ∃ bf', s'.getBlock f = .ok bf' ∧ bf' = { bf with need_test := bf'.need_test } ∧
          (bf'.need_test = 1 ↔ bf.need_test = 1 ∨ (bf.nolinker ≠ 0 ∧
            MarkHit exState4 [0, 1, 2, 3] exList4.text (max 17 exList4.text)
              (min (17 + 2) ((exList4.text + exList4.textsz) % W32)) f)) ∧
          (¬ (bf.nolinker ≠ 0 ∧ MarkHit exState4 [0, 1, 2, 3] exList4.text (max 17 exList4.text)
              (min (17 + 2) ((exList4.text + exList4.textsz) % W32)) f) → bf' = bf)) ∧
      (∀ i d bd, max 17 exList4.text ≤ i →
        i < min (17 + 2) ((exList4.text + exList4.textsz) % W32) →
        [0, 1, 2, 3][i - exList4.text]? = some d → d ≠ 0 → exState4.getBlock d = .ok bd →
        bd.father ≠ 0 →
        ¬ MarkHit exState4 [0, 1, 2, 3] exList4.text (max 17 exList4.text)
            (min (17 + 2) ((exList4.text + exList4.textsz) % W32)) d →
        s'.getBlock d = .ok bd) :=
  MarkRangeDynablock_marks exState4 1 17 2 exList4 [0, 1, 2, 3] rfl (by decide) rfl (by decide)
    (by decide) (by decide) (by decide)

/-! ## The dispatch path -/

/-- C18 fails on the code: the directory of `exState3` covers `[16, 20)` and
is the one its shard `[16, 32)` holds, and `AddNewDynablock` for address 25
delegates to that same directory again and again, so that no recursion budget
is enough for the call to return. -/
theorem AddNewDynablock_diverges :
    getDBFromAddress exState3 25 = 1 ∧
    ∀ fuel, AddNewDynablock fuel exState3 1 25 1 = .error .outOfFuel := by
  refine ⟨by decide, ?_⟩
  intro fuel
  induction fuel with
  | zero => rfl
  | succ f ih =>
    rw [AddNewDynablock_unfold_out f exState3 1 25 1 exList3 rfl (by decide)]
    exact ih

/-- C12 fails on the code: in `exState6` the hint is the stale block itself
(block 1, at address 17). `DBGetBlock` frees it, the test before the free
leaves `*current` as it is, and the call ends with `*current` still pointing
to block 1, which is gone. -/
theorem DBGetBlock_keeps_freed_current :
    DBGetBlock_dropCurrent exState6 exStale 1 = .ok 1 ∧
    DBGetBlock exEnv 2 exState6 17 1 1 = .ok (exState6_after, 2, 1) ∧
    exState6_after.getBlock 1 = .ok { exStale with gone := 1 } := by
  decide

theorem internalDBGetBlock_hint_null (s : State) (addr : Nat) :
    internalDBGetBlock_hint s addr 0 = .ok (0, 0) := by
  simp [internalDBGetBlock_hint]

theorem covers_iff (l : dynablocklist_t) (addr : Nat) :
    l.covers addr ↔ (addr ≥ l.text ∧ addr < (l.text + l.textsz) % W32) := Iff.rfl

theorem internalDBGetBlock_found (env : Env) (fuel : Nat) (s : State)
    (addr filladdr create current X db : Nat) (h : Located env s addr current X db) :
    internalDBGetBlock env fuel s addr filladdr create current = .ok (s, db) := by
  obtain ⟨⟨l, arr, hl, hcov, hd, hslot, hdb⟩, hroute⟩ := h
  obtain ⟨hX, -⟩ := getList_ne_zero hl
  obtain ⟨hsub, -, -⟩ := covers_sub l addr hcov
  have hread : s.readDirect X (subU32 addr l.text) = .ok db := by
    rw [readDirect_eq hl hd, hsub, hslot]
  -- the path through the routed directory
  have hlong : ∀ dyn0, (dyn0 = 0 ∧ route env s addr = X ∨ dyn0 = X) →
      (let dyn1 := if dyn0 = 0 then getDBFromAddress s addr else dyn0
       let dyn2 := if dyn1 = 0 then env.GetDynablocksFromAddress addr else dyn1
       dyn2) = X := by
    intro dyn0 h0
    rcases h0 with ⟨h0, hr⟩ | h0
    · subst h0
      simpa [route] using hr
    · subst h0
      simp [hX]
  rcases hroute with ⟨hc0, hr⟩ | ⟨c, lc, hc0, hc, hlc, hpar⟩
  · subst hc0
    have h2 := hlong 0 (Or.inl ⟨rfl, hr⟩)
    simp only [if_true] at h2
    simp only [internalDBGetBlock, internalDBGetBlock_hint_null, ne_eq, not_true_eq_false,
      if_false, if_true, h2, hX, hl, hd, Option.isSome_some, hcov, and_self, hread, hdb,
      not_false_eq_true]
  · rcases hpar with ⟨hcv, hpX⟩ | ⟨hncv, hr⟩
    · have hcv2 := (covers_iff lc addr).mp hcv
      rw [hpX] at hlc
      rw [hl] at hlc
      cases hlc
      have hhint : internalDBGetBlock_hint s addr current = .ok (X, db) := by
        simp only [internalDBGetBlock_hint, hc0, if_false, hc, bind_ok, hpX, hl, hcv2,
          not_true_eq_false, hd, Option.isSome_some, and_self, if_true, hread]
      simp only [internalDBGetBlock, hhint, ne_eq, hdb, not_false_eq_true, if_true]
    · have hncv2 : ¬ (addr ≥ lc.text ∧ addr < (lc.text + lc.textsz) % W32) := hncv
      have hhint : internalDBGetBlock_hint s addr current = .ok (0, 0) := by
        simp only [internalDBGetBlock_hint, hc0, if_false, hc, bind_ok, hlc, hncv2,
          not_false_eq_true, if_true]
      have h2 := hlong 0 (Or.inl ⟨rfl, hr⟩)
      simp only [if_true] at h2
      simp only [internalDBGetBlock, hhint, ne_eq, not_true_eq_false,
        if_false, if_true, h2, hX, hl, hd, Option.isSome_some, hcov, and_self, hread, hdb,
        not_false_eq_true]

theorem needsTest_of (s : State) (b : dynablock_t)
    (h : b.need_test ≠ 0 ∨ (b.father ≠ 0 ∧ ∃ fb, s.getBlock b.father = .ok fb ∧ fb.need_test ≠ 0)) :
    needsTest s b = .ok true := by
  unfold needsTest
  by_cases h1 : b.need_test ≠ 0
  · rw [if_pos h1]
  · rcases h with h | ⟨h2, fb, hfb, h3⟩
    · exact absurd h h1
    · rw [if_neg h1, if_pos h2, hfb]
      simp [h3]

/-- C13: when the lookup of `DBGetBlock` locates `db`, `db` or its father has
`need_test` set, the father-or-self `f` has `nolinker != 0` and the hash of
the `f.x86_size` guest bytes at `f.x86_addr` equals `f.hash`, the call returns
`db` and leaves `*current` alone; `f.need_test` is 0 afterwards, the trace
gains the one call `protectDB(f.x86_addr, f.x86_size)` and nothing else, and no
other block, no directory and no slot changes. -/
theorem DBGetBlock_hash_match (env : Env) (fuel : Nat) (s : State)
    (addr create current X db father : Nat) (b f : dynablock_t)
    (hloc : Located env s addr current X db) (hb : s.getBlock db = .ok b)
    (htest : b.need_test ≠ 0 ∨
      (b.father ≠ 0 ∧ ∃ fb, s.getBlock b.father = .ok fb ∧ fb.need_test ≠ 0))
    (hfather : father = if b.father ≠ 0 then b.father else db)
    (hf : s.getBlock father = .ok f) (hnl : f.nolinker ≠ 0)
    (hhash : X31_hash_code env.mem f.x86_addr f.x86_size = f.hash) :
    ∃ s', DBGetBlock env fuel s addr create current = .ok (s', db, current) ∧
      s'.getBlock father = .ok { f with need_test := 0 } ∧
      (∀ p, p ≠ father → s'.getBlock p = s.getBlock p) ∧
      s'.lists = s.lists ∧ s'.dynmap = s.dynmap ∧ s'.DYNAMAP_SHIFT = s.DYNAMAP_SHIFT ∧
      s'.trace = s.trace ++ [Event.protectDB f.x86_addr f.x86_size] := by
  have hdb : db ≠ 0 := hloc.1.choose_spec.choose_spec.2.2.2.2
  have hlook := internalDBGetBlock_found env fuel s addr addr create current X db hloc
  have hcur : currentHash env f = f.hash := by
    unfold currentHash
    rw [if_pos hnl, hhash]
  subst hfather
  refine ⟨(s.setBlock (if b.father ≠ 0 then b.father else db) { f with need_test := 0 }).emit
      (.protectDB f.x86_addr f.x86_size), ?_, ?_, ?_, ?_, ?_, ?_, ?_⟩
  · simp only [DBGetBlock, hlook, hdb, if_false, hb, needsTest_of s b htest, hf, hcur, ne_eq,
      not_true_eq_false]
  · rw [getBlock_emit]; exact getBlock_setBlock_same hf _
  · intro p hp
    rw [getBlock_emit]; exact getBlock_setBlock_ne s _ hp
  · exact setBlock_lists _ _ _
  · cases (if b.father ≠ 0 then b.father else db) <;> rfl
  · cases (if b.father ≠ 0 then b.father else db) <;> rfl
  · simp only [State.emit, setBlock_trace]

/-- Instance of C13: in `exState6` with the stored hash set to the hash of the
guest bytes (545), the block at address 17 is validated. -/
theorem DBGetBlock_hash_match_witness :
    ∃ s', DBGetBlock exEnv 2 exState6_fresh 17 1 0 = .ok (s', 1, 0) ∧
      s'.getBlock 1 = .ok { exFresh with need_test := 0 } ∧
      (∀ p, p ≠ 1 → s'.getBlock p = exState6_fresh.getBlock p) ∧
      s'.lists = exState6_fresh.lists ∧ s'.dynmap = exState6_fresh.dynmap ∧
      s'.DYNAMAP_SHIFT = exState6_fresh.DYNAMAP_SHIFT ∧
      s'.trace = exState6_fresh.trace ++ [Event.protectDB exFresh.x86_addr exFresh.x86_size] :=
  DBGetBlock_hash_match exEnv 2 exState6_fresh 17 1 0 1 1 1 exFresh exFresh
    ⟨⟨exList6, [0, 1, 0, 0], rfl, by decide, rfl, by decide, by decide⟩, Or.inl ⟨rfl, by decide⟩⟩
    rfl (Or.inl (by decide)) (by decide) rfl (by decide) (by decide)

theorem DBGetBlock_dropCurrent_null (s : State) (f : dynablock_t) :
    DBGetBlock_dropCurrent s f 0 = .ok 0 := by
  simp [DBGetBlock_dropCurrent]

/-- C15: `DBAlternateBlock(emu, addr, filladdr)` returns the block and the
state of `get_block` with `create = 1`, no hint, and `filladdr` as the address
given to `FillBlock`; `DBGetBlock` is that function with `filladdr = addr`. In
particular `DBAlternateBlock(emu, addr, addr)` returns the block and the state
of `DBGetBlock(emu, addr, 1, &current)` with `current = null`. -/
theorem DBAlternateBlock_eq_DBGetBlock (env : Env) (fuel : Nat) (s : State)
    (addr filladdr : Nat) :
    DBAlternateBlock env fuel s addr filladdr =
      (DBGetBlock_fill env fuel s addr filladdr 1 0).map (fun r => (r.1, r.2.1)) ∧
    (∀ create current, DBGetBlock env fuel s addr create current =
      DBGetBlock_fill env fuel s addr addr create current) ∧
    DBAlternateBlock env fuel s addr addr =
      (DBGetBlock env fuel s addr 1 0).map (fun r => (r.1, r.2.1)) := by
  have key : ∀ fa, DBAlternateBlock env fuel s addr fa =
      (DBGetBlock_fill env fuel s addr fa 1 0).map (fun r => (r.1, r.2.1)) := by
    intro fa
    unfold DBAlternateBlock DBGetBlock_fill
    cases h1 : internalDBGetBlock env fuel s addr fa 1 0 with
    | error e => rfl
    | ok r =>
      obtain ⟨s1, db⟩ := r
      simp only
      by_cases hdb : db = 0
      · simp only [hdb, if_true]; rfl
      · simp only [hdb, if_false]
        cases h2 : s1.getBlock db with
        | error e => rfl
        | ok b =>
          simp only
          cases h3 : needsTest s1 b with
          | error e => rfl
          | ok t =>
            cases t with
            | false => rfl
            | true =>
              simp only
              cases h4 : s1.getBlock (if b.father ≠ 0 then b.father else db) with
              | error e => rfl
              | ok f =>
                simp only
                by_cases hh : currentHash env f ≠ f.hash
                · rw [if_pos hh, if_pos hh]
                  simp only [DBGetBlock_dropCurrent_null]
                  cases h5 : FreeDynablock fuel s1 (if b.father ≠ 0 then b.father else db) with
                  | error e => rfl
                  | ok s2 =>
                    simp only
                    cases h6 : internalDBGetBlock env fuel s2 addr fa 1 0 with
                    | error e => rfl
                    | ok r2 => rfl
                · rw [if_neg hh, if_neg hh]; rfl
  exact ⟨key filladdr, fun _ _ => rfl, by rw [key addr]; rfl⟩

/-! ## `FindDynablockDynablocklist` -/

theorem FindDynablockDynablocklist_loop_spec (s : State) (a D : Nat) (l : dynablocklist_t)
    (arr : List Nat) (hl : s.getList D = .ok l) (hd : l.direct = some arr)
    (hlen : l.textsz ≤ arr.length) (hslots : ∀ d ∈ arr, d ≤ s.blocks.length) :
    ∀ n i, i + n = l.textsz → (∀ j, j < i → ¬ NativeHit s arr a j) →
      ∃ r, FindDynablockDynablocklist_loop s a D n i = .ok r ∧
        ((r = 0 ∧ ∀ j, j < l.textsz → ¬ NativeHit s arr a j) ∨
         (∃ k d bd, k < l.textsz ∧ arr[k]? = some d ∧ d ≠ 0 ∧ s.getBlock d = .ok bd ∧
            bd.holdsNative a ∧ (∀ j, j < k → ¬ NativeHit s arr a j) ∧
            r = (if bd.father ≠ 0 then bd.father else d))) := by
  intro n
  induction n with
  | zero =>
    intro i hi hno
    refine ⟨0, rfl, Or.inl ⟨rfl, ?_⟩⟩
    intro j hj
    exact hno j (by omega)
  | succ n ih =>
    intro i hi hno
    have hilt : i < arr.length := by omega
    obtain ⟨d, hdv⟩ : ∃ d, arr[i]? = some d := ⟨arr[i], by simp [hilt]⟩
    have hread : s.readDirect D i = .ok d := by rw [readDirect_eq hl hd, hdv]
    have hnext : (∀ j, j < i + 1 → ¬ NativeHit s arr a j) →
        ∃ r, FindDynablockDynablocklist_loop s a D n (i + 1) = .ok r ∧
        ((r = 0 ∧ ∀ j, j < l.textsz → ¬ NativeHit s arr a j) ∨
         (∃ k d bd, k < l.textsz ∧ arr[k]? = some d ∧ d ≠ 0 ∧ s.getBlock d = .ok bd ∧
            bd.holdsNative a ∧ (∀ j, j < k → ¬ NativeHit s arr a j) ∧
            r = (if bd.father ≠ 0 then bd.father else d))) := ih (i + 1) (by omega)
    by_cases hd0 : d = 0
    · obtain ⟨r, hr, hprop⟩ := hnext (by
        intro j hj
        by_cases hji : j = i
        · subst hji
          rintro ⟨d2, bd2, e1, e2, -, -⟩
          rw [hdv] at e1; cases e1
          exact e2 hd0
        · exact hno j (by omega))
      refine ⟨r, ?_, hprop⟩
      simp only [FindDynablockDynablocklist_loop, hread]
      rw [if_neg (by simpa using hd0)]
      exact hr
    · obtain ⟨bd, hbd⟩ := getBlock_of_le hd0 (hslots d (List.getElem?_mem hdv))
      by_cases hh : bd.holdsNative a
      · refine ⟨if bd.father ≠ 0 then bd.father else d, ?_,
          Or.inr ⟨i, d, bd, by omega, hdv, hd0, hbd, hh, hno, rfl⟩⟩
        simp only [FindDynablockDynablocklist_loop, hread, hbd]
        rw [if_pos hd0, if_pos hh]
      · obtain ⟨r, hr, hprop⟩ := hnext (by
          intro j hj
          by_cases hji : j = i
          · subst hji
            rintro ⟨d2, bd2, e1, -, e3, e4⟩
            rw [hdv] at e1; cases e1
            rw [hbd] at e3; cases e3
            exact hh e4
          · exact hno j (by omega))
        refine ⟨r, ?_, hprop⟩
        simp only [FindDynablockDynablocklist_loop, hread, hbd]
        rw [if_pos hd0, if_neg hh]
        exact hr

/-- C14: `FindDynablockDynablocklist` returns null for a null directory and
for a directory without `direct` array. With an allocated array it returns
null exactly when no slot holds a block `d` with `d.block <= a < d.block + d.size`;
otherwise, for the lowest slot whose block `d` satisfies this, it returns
`d.father` when that is not null and `d` otherwise. The function writes nothing. -/
theorem FindDynablockDynablocklist_spec (s : State) (a : Nat) :
    FindDynablockDynablocklist s a 0 = .ok 0 ∧
    (∀ D l, s.getList D = .ok l → l.direct = none → FindDynablockDynablocklist s a D = .ok 0) ∧
    (∀ D l arr, s.getList D = .ok l → l.direct = some arr → l.textsz ≤ arr.length →
      (∀ d ∈ arr, d ≤ s.blocks.length) →
      ∃ r, FindDynablockDynablocklist s a D = .ok r ∧
        (r = 0 ↔ ∀ k, k < l.textsz → ¬ NativeHit s arr a k) ∧
        (∀ k d bd, k < l.textsz → arr[k]? = some d → d ≠ 0 → s.getBlock d = .ok bd →
          bd.holdsNative a → (∀ j, j < k → ¬ NativeHit s arr a j) →
          r = (if bd.father ≠ 0 then bd.father else d))) := by
  refine ⟨by simp [FindDynablockDynablocklist], ?_, ?_⟩
  · intro D l hl hd
    obtain ⟨hD, -⟩ := getList_ne_zero hl
    simp [FindDynablockDynablocklist, hD, hl, hd]
  · intro D l arr hl hd hlen hslots
    obtain ⟨hD, -⟩ := getList_ne_zero hl
    obtain ⟨r, hr, hprop⟩ := FindDynablockDynablocklist_loop_spec s a D l arr hl hd hlen hslots
      l.textsz 0 (by omega) (fun j hj => by omega)
    refine ⟨r, ?_, ?_, ?_⟩
    · simp only [FindDynablockDynablocklist, hD, if_false, hl, hd, Option.isSome_some, if_true]
      exact hr
    · rcases hprop with ⟨h0, hno⟩ | ⟨k, d, bd, hk, hdv, hd0, hbd, hh, hlow, hreq⟩
      · exact ⟨fun _ => hno, fun _ => h0⟩
      · constructor
        · intro hr0
          exfalso
          rw [hr0] at hreq
          by_cases hf : bd.father ≠ 0
          · rw [if_pos hf] at hreq; exact hf hreq.symm
          · rw [if_neg hf] at hreq; exact hd0 hreq.symm
        · intro hno
          exact absurd ⟨d, bd, hdv, hd0, hbd, hh⟩ (hno k hk)
    · intro k d bd hk hdv hd0 hbd hh hlow
      rcases hprop with ⟨-, hno⟩ | ⟨k2, d2, bd2, hk2, hdv2, hd02, hbd2, hh2, hlow2, hreq⟩
      · exact absurd ⟨d, bd, hdv, hd0, hbd, hh⟩ (hno k hk)
      · have hkk : k = k2 := by
          rcases Nat.lt_trichotomy k k2 with h | h | h
          · exact absurd ⟨d, bd, hdv, hd0, hbd, hh⟩ (hlow2 k h)
          · exact h
          · exact absurd ⟨d2, bd2, hdv2, hd02, hbd2, hh2⟩ (hlow k2 h)
        subst hkk
        rw [hdv] at hdv2; cases hdv2
        rw [hbd] at hbd2; cases hbd2
        exact hreq

/-- Instance of C14 on `exState7`: the native address 4130 lies in the code of
both blocks; the lowest slot holds the son, whose father is returned. -/
theorem FindDynablockDynablocklist_spec_witness :
    FindDynablockDynablocklist exState7 4130 1 = .ok 1 ∧
    FindDynablockDynablocklist exState7 5000 1 = .ok 0 := by
  obtain ⟨r, hr, -, h2⟩ := (FindDynablockDynablocklist_spec exState7 4130).2.2 1 exList7
    [0, 2, 1, 0] rfl rfl (by decide) (by decide)
  obtain ⟨r0, hr0, h0, -⟩ := (FindDynablockDynablocklist_spec exState7 5000).2.2 1 exList7
    [0, 2, 1, 0] rfl rfl (by decide) (by decide)
  refine ⟨?_, ?_⟩
  · rw [hr]
    congr 1
    exact h2 1 2 _ (by decide) rfl (by decide) rfl (by decide) (by
      intro j hj
      have : j = 0 := by omega
      subst this
      rintro ⟨d, bd, e1, e2, -, -⟩
      simp at e1
      exact e2 e1.symm)
  · rw [hr0]
    congr 1
    refine h0.mpr ?_
    intro k hk
    rintro ⟨d, bd, e1, e2, e3, e4⟩
    have hk4 : k < 4 := hk
    interval_cases k <;> simp at e1 <;> subst e1 <;>
      first
      | exact e2 rfl
      | (cases e3; revert e4; decide)

/-! ## More on `FreeDynablock` -/

theorem FreePost.untouched {s s' : State} {db : Nat} {ps : List Nat} (h : FreePost s db s' ps)
    {c : Nat} {bc : dynablock_t} (hc : s.getBlock c = .ok bc) (hn : ¬ Desc s db c) :
    s'.getBlock c = .ok bc := by
  by_cases hg : bc.gone = 0
  · obtain ⟨bc', hbc', hr⟩ := h.ev.block_rel hc
    by_cases hg' : bc'.gone = 0
    · have := blockRel_of_live hr hg'
      subst this
      exact hbc'
    · have hmem : c ∈ ps := (h.mem c).mpr ⟨⟨bc, hc, hg⟩, by
        rintro ⟨b2, hb2, hg2⟩
        rw [hbc'] at hb2
        cases hb2
        exact hg' hg2⟩
      exact absurd (h.desc c hmem) hn
  · exact h.ev.gone_stays hc hg

/-- C16 fails as stated: in `exState8` block 1 is live with `x86_addr = 17`
inside the range of its parent, the slot of address 17 holds block 2, which is
another block and no son of block 1, and after `FreeDynablock` on block 1 that
slot is null. -/
theorem FreeDynablock_clears_foreign_slot :
    exState8.WF ∧ exState8.readDirect 1 1 = .ok 2 ∧
    FreeDynablock 3 exState8 1 = .ok exState8_after ∧
    exState8_after.readDirect 1 1 = .ok 0 := by
  decide

/-- C16 as amended: for a live block `b` (pointers sound), `FreeDynablock(b)`
leaves the slot `parent.direct[b.x86_addr - parent.text]` null whenever the
parent has a `direct` array and covers `b.x86_addr`, whatever the slot held
before; a block `c` that is not reachable from `b` along `sons[]` keeps all its
fields, also when it was the one in that slot. -/
theorem FreeDynablock_clears_slot (s : State) (b : Nat) (blk : dynablock_t)
    (hwf : s.WF) (hb : s.getBlock b = .ok blk) (hlive : blk.gone = 0) :
    ∃ s', (∀ fuel, s.liveCount < fuel → FreeDynablock fuel s b = .ok s') ∧
      (∀ parent arr, s'.getList blk.parent = .ok parent → parent.direct = some arr →
        parent.covers blk.x86_addr → arr[blk.x86_addr - parent.text]? = some 0) ∧
      (∀ c bc, s.getBlock c = .ok bc → ¬ Desc s b c → s'.getBlock c = .ok bc) := by
  obtain ⟨hb0, hbget⟩ := getBlock_ne_zero hb
  have hble : b ≤ s.blocks.length := by
    have := (List.getElem?_eq_some_iff.mp hbget).1
    omega
  obtain ⟨s', ps, hpost, hcall⟩ := FreeDynablock_total s b hwf hble
  obtain ⟨-, hcl, -⟩ := hpost.own blk hb hlive
  exact ⟨s', hcall, hcl, fun c bc hc hn => hpost.untouched hc hn⟩

/-- Instance of amended C16 on `exState8`. -/
theorem FreeDynablock_clears_slot_witness :
    ∃ s', (∀ fuel, exState8.liveCount < fuel → FreeDynablock fuel exState8 1 = .ok s') ∧
      (∀ parent arr, s'.getList 1 = .ok parent → parent.direct = some arr →
        parent.covers 17 → arr[17 - parent.text]? = some 0) ∧
      (∀ c bc, exState8.getBlock c = .ok bc → ¬ Desc exState8 1 c → s'.getBlock c = .ok bc) :=
  FreeDynablock_clears_slot exState8 1
    { dynablock_t.zero with parent := 1, block := 4096, size := 64, x86_addr := 17 }
    (by decide) rfl rfl

/-! ### One round of the loop over the sons, as lemmas of its own -/

theorem SonsInv_xchg {s t : State} {db : Nat} {b : dynablock_t} {i : Nat} {ps : List Nat}
    (hwf : s.WF) (hb : s.getBlock db = .ok b) (hg : b.gone = 0)
    (hinv : SonsInv s db b i t ps) (hi : i < b.sons.length) {son : Nat}
    (hson : b.sons[i]? = some son) :
    arm_lock_xchg_son t db i 0 = .ok (son, t.setBlock db
      { b with done := 0, gone := 1, sons := List.replicate (i + 1) 0 ++ b.sons.drop (i + 1) }) ∧
    Evolves s (t.setBlock db
      { b with done := 0, gone := 1, sons := List.replicate (i + 1) 0 ++ b.sons.drop (i + 1) }) ∧
    (t.setBlock db
      { b with done := 0, gone := 1,
               sons := List.replicate (i + 1) 0 ++ b.sons.drop (i + 1) }).getBlock db =
      .ok { b with done := 0, gone := 1, sons := List.replicate (i + 1) 0 ++ b.sons.drop (i + 1) } ∧
    (∀ p, (t.setBlock db
      { b with done := 0, gone := 1,
               sons := List.replicate (i + 1) 0 ++ b.sons.drop (i + 1) }).live p ↔ t.live p) ∧
    (t.setBlock db
      { b with done := 0, gone := 1,
               sons := List.replicate (i + 1) 0 ++ b.sons.drop (i + 1) }).WF ∧
    son ≤ (t.setBlock db
      { b with done := 0, gone := 1,
               sons := List.replicate (i + 1) 0 ++ b.sons.drop (i + 1) }).blocks.length ∧
    (t.setBlock db
      { b with done := 0, gone := 1,
               sons := List.replicate (i + 1) 0 ++ b.sons.drop (i + 1) }).liveCount < s.liveCount := by
  have hlive_s : s.live db := ⟨b, hb, hg⟩
  have hnl_t : ¬ t.live db := hinv.live_iff
  have hson_t : (List.replicate i 0 ++ b.sons.drop i)[i]? = some son := by
    rw [sons_progress_get]; exact hson
  have hxchg : arm_lock_xchg_son t db i 0 = .ok (son, t.setBlock db
      { b with done := 0, gone := 1,
               sons := List.replicate (i + 1) 0 ++ b.sons.drop (i + 1) }) := by
    simp only [arm_lock_xchg_son, hinv.own, bind, Except.bind, hson_t,
      sons_progress_set b.sons i hi]
  have hrel1 : blockRel b
      { b with done := 0, gone := 1,
               sons := List.replicate (i + 1) 0 ++ b.sons.drop (i + 1) } := by
    refine Or.inr ⟨hg, _, ?_, rfl⟩
    have h0 : List.Forall₂ slotRel b.sons (List.replicate i 0 ++ b.sons.drop i) := by
      obtain ⟨bt, hbt, hr⟩ := hinv.ev.block_rel hb
      rw [hinv.own] at hbt
      cases hbt
      rcases hr with hr | ⟨-, sons', hs, hr⟩
      · have := congrArg dynablock_t.gone hr
        simp [hg] at this
      · have := congrArg dynablock_t.sons hr
        simp only at this
        rw [this]; exact hs
    have := slots_set_zero h0 i
    rw [sons_progress_set b.sons i hi] at this
    exact this
  have hev1 := Evolves_setBlock hinv.ev hb _ hrel1
  have hown1 := getBlock_setBlock_same hinv.own
      { b with done := 0, gone := 1,
               sons := List.replicate (i + 1) 0 ++ b.sons.drop (i + 1) }
  have hlive1 : ∀ p, (t.setBlock db
      { b with done := 0, gone := 1,
               sons := List.replicate (i + 1) 0 ++ b.sons.drop (i + 1) }).live p ↔ t.live p := by
    intro p
    by_cases hp : p = db
    · subst hp
      constructor
      · rintro ⟨b', hb', hg'⟩
        rw [hown1] at hb'
        cases hb'
        simp at hg'
      · intro h; exact absurd h hnl_t
    · simp only [State.live, getBlock_setBlock_ne t _ hp]
  refine ⟨hxchg, hev1, hown1, hlive1, WF_of_Evolves hev1 hwf, ?_, ?_⟩
  · rw [hev1.blocks_length]
    exact (hwf.1 b (mem_blocks_of_getBlock hb)).2 son (List.getElem?_mem hson)
  · exact hev1.liveCount_lt hlive_s (fun h => hnl_t ((hlive1 db).mp h))

theorem SonsInv_round {s t t2 : State} {db : Nat} {b : dynablock_t} {i : Nat}
    {ps ps2 : List Nat} (hwf : s.WF) (hb : s.getBlock db = .ok b) (hg : b.gone = 0)
    (hinv : SonsInv s db b i t ps) (hi : i < b.sons.length) {son : Nat}
    (hson : b.sons[i]? = some son)
    (hpost : FreePost (t.setBlock db
      { b with done := 0, gone := 1, sons := List.replicate (i + 1) 0 ++ b.sons.drop (i + 1) })
      son t2 ps2) :
    SonsInv s db b (i + 1) t2 (ps ++ ps2) := by
  obtain ⟨-, hev1, hown1, hlive1, -, -, -⟩ := SonsInv_xchg hwf hb hg hinv hi hson
  have hev2 : Evolves s t2 := hev1.trans hpost.ev
  have hown2 := hpost.ev.gone_stays hown1 (by simp)
  refine ⟨hev2, ?_, ?_, ?_, ?_, hown2, ?_, ?_⟩
  · have hdis : ∀ p, p ∈ db :: ps → p ∉ ps2 := by
      intro p hp hp2
      have h1 := ((hinv.mem p).mp hp).2
      have h2 := ((hpost.mem p).mp hp2).1
      exact h1 ((hlive1 p).mp h2)
    have : (db :: ps ++ ps2).Nodup :=
      List.Nodup.append hinv.nodup hpost.nodup (fun p hp hp2 => hdis p hp hp2)
    simpa using this
  · intro p
    have hm1 := hinv.mem p
    have hm2 := hpost.mem p
    rw [hlive1] at hm2
    rw [← List.cons_append, List.mem_append, hm1, hm2]
    constructor
    · rintro (⟨h1, h2⟩ | ⟨h1, h2⟩)
      · exact ⟨h1, fun h3 => h2 ((hlive1 p).mp (hpost.ev.live_mono h3))⟩
      · exact ⟨hinv.ev.live_mono h1, h2⟩
    · rintro ⟨h1, h2⟩
      by_cases h3 : t.live p
      · exact Or.inr ⟨h3, h2⟩
      · exact Or.inl ⟨h1, h3⟩
  · rw [hpost.trace, setBlock_trace, hinv.trace, eventsOf_append, List.append_assoc]
    congr 1
    congr 1
    apply eventsOf_congr
    intro p hp
    obtain ⟨⟨bp, hbp, hgp⟩, -⟩ := (hpost.mem p).mp hp
    rw [hbp, hev1.live_back hbp hgp]
  · intro p hp
    rcases List.mem_append.mp hp with hp | hp
    · exact hinv.desc p hp
    · have hd1 : Desc s son p := Desc_mono hev1 (hpost.desc p hp)
      by_cases hs0 : son = 0
      · subst hs0
        have hp0 := Desc_zero hd1
        subst hp0
        exact absurd ((hpost.mem 0).mp hp).1 (not_live_zero _)
      · exact Desc_trans (Desc.son Desc.self hb hg (List.getElem?_mem hson) hs0) hd1
  · have hc1 : (t.setBlock db
        { b with done := 0, gone := 1,
                 sons := List.replicate (i + 1) 0 ++ b.sons.drop (i + 1) }).slotCleared b := by
      intro parent arr hl
      rw [getList_setBlock] at hl
      exact hinv.cleared parent arr hl
    exact slotCleared_of_Evolves hpost.ev hc1
  · intro j hj q hq hq0
    by_cases hji : j = i
    · subst hji
      rw [hson] at hq
      cases hq
      exact hpost.gone hq0
    · intro hl
      exact hinv.sonsGone j (by omega) q hq hq0 ((hlive1 q).mp (hpost.ev.live_mono hl))

theorem SonsInv_start {s s2 : State} {db : Nat} {b : dynablock_t}
    (hb : s.getBlock db = .ok b) (hg : b.gone = 0)
    (hev12 : Evolves (s.setBlock db { b with done := 0, gone := 1 }) s2)
    (hblocks2 : s2.blocks = (s.setBlock db { b with done := 0, gone := 1 }).blocks)
    (htrace2 : s2.trace = (s.setBlock db { b with done := 0, gone := 1 }).trace)
    (hcl2 : s2.slotCleared { b with done := 0, gone := 1 }) :
    SonsInv s db b 0 s2 [] := by
  have hlive : s.live db := ⟨b, hb, hg⟩
  have hrel1 : blockRel b { b with done := 0, gone := 1 } :=
    Or.inr ⟨hg, b.sons, slots_refl _, rfl⟩
  have hev1 := Evolves_setBlock (Evolves.refl s) hb _ hrel1
  have hown1 := getBlock_setBlock_same hb { b with done := 0, gone := 1 }
  have hget2 : ∀ p, s2.getBlock p = (s.setBlock db { b with done := 0, gone := 1 }).getBlock p := by
    intro p; simp only [State.getBlock, hblocks2]
  have hown2 : s2.getBlock db = .ok { b with done := 0, gone := 1 } := by
    rw [hget2]; exact hown1
  refine ⟨hev1.trans hev12, by simp, ?_, ?_, ?_, ?_, ?_, ?_⟩
  · intro p
    simp only [List.mem_singleton]
    constructor
    · rintro rfl
      refine ⟨hlive, ?_⟩
      rintro ⟨b', hb', hg'⟩
      rw [hown2] at hb'
      cases hb'
      simp at hg'
    · rintro ⟨⟨bp, hbp, hgp⟩, h2⟩
      by_contra hne
      apply h2
      refine ⟨bp, ?_, hgp⟩
      rw [hget2, getBlock_setBlock_ne s _ hne]
      exact hbp
  · rw [htrace2, setBlock_trace]; simp [eventsOf]
  · intro p hp; simp at hp
  · rw [hown2]; simp
  · exact hcl2
  · intro j hj; omega

/-! ### Which slots change, and which blocks are reached -/

theorem SlotFrame_of_lists {s s' : State} (h : s'.lists = s.lists) : SlotFrame s s' := by
  intro D l l' arr arr' j hl hl' hd hd' hne
  have : s'.getList D = s.getList D := by simp only [State.getList, h]
  rw [this, hl] at hl'
  cases hl'
  rw [hd] at hd'
  cases hd'
  exact absurd rfl hne

theorem SlotFrame_trans {s t t' : State} (h1 : Evolves s t) (h2 : Evolves t t')
    (f1 : SlotFrame s t) (f2 : SlotFrame t t') : SlotFrame s t' := by
  intro D l l' arr arr' j hl hl' hd hd' hne
  obtain ⟨lt, hlt, dt, hdt, hrt⟩ := h1.list_rel hl
  subst hrt
  cases hdt0 : dt with
  | none => rw [hdt0, hd] at hdt; simp [directRel] at hdt
  | some arrt =>
    by_cases hc : arrt[j]? = arr[j]?
    · rw [← hc] at hne
      obtain ⟨p, bp, hp, hg, hnl, hpar, hcov, hj⟩ :=
        f2 D _ l' arrt arr' j hlt hl' (by simp [hdt0]) hd' hne
      exact ⟨p, bp, h1.live_back hp hg, hg, hnl, hpar, hcov, hj⟩
    · obtain ⟨p, bp, hp, hg, hnl, hpar, hcov, hj⟩ :=
        f1 D l _ arr arrt j hl hlt hd (by simp [hdt0]) hc
      exact ⟨p, bp, hp, hg, fun h => hnl (h2.live_mono h), hpar, hcov, hj⟩

theorem SlotFrame_congr {s t t1 : State} (f : SlotFrame s t) (hl : t1.lists = t.lists)
    (hlive : ∀ p, t1.live p ↔ t.live p) : SlotFrame s t1 := by
  intro D l l' arr arr' j h1 h2 h3 h4 h5
  have : t1.getList D = t.getList D := by simp only [State.getList, hl]
  rw [this] at h2
  obtain ⟨p, bp, hp, hg, hnl, rest⟩ := f D l l' arr arr' j h1 h2 h3 h4 h5
  exact ⟨p, bp, hp, hg, fun h => hnl ((hlive p).mp h), rest⟩

theorem SonsClosed_congr {s t t1 : State} {ex : Nat} (f : SonsClosed s t ex)
    (hlive : ∀ p, t1.live p ↔ t.live p) : SonsClosed s t1 ex := by
  intro p bp hpe hp hg hnl q hq hq0 hlq
  exact f p bp hpe hp hg (fun h => hnl ((hlive p).mpr h)) q hq hq0 ((hlive q).mp hlq)

theorem SonsClosed_trans {s t t' : State} {ex : Nat} (h1 : Evolves s t) (h2 : Evolves t t')
    (c1 : SonsClosed s t ex) (c2 : SonsClosed t t' 0) : SonsClosed s t' ex := by
  intro p bp hpe hp hg hnl q hq hq0 hlq
  by_cases hlt : t.live p
  · obtain ⟨bp', hbp', hg'⟩ := hlt
    have := h1.live_back hbp' hg'
    rw [hp] at this
    cases this
    have hp0 : p ≠ 0 := (getBlock_ne_zero hp).1
    exact c2 p bp hp0 hbp' hg hnl q hq hq0 hlq
  · exact c1 p bp hpe hp hg hlt q hq hq0 (h2.live_mono hlq)

theorem FreeDynablock_unlink_frame {t t2 : State} {db : Nat} {b : dynablock_t}
    (hb : t.getBlock db = .ok b) (hrun : FreeDynablock_unlink t db = .ok t2)
    (D : Nat) (l l' : dynablocklist_t) (arr arr' : List Nat) (j : Nat)
    (hl : t.getList D = .ok l) (hl' : t2.getList D = .ok l') (hd : l.direct = some arr)
    (hd' : l'.direct = some arr') (hne : arr'[j]? ≠ arr[j]?) :
    b.parent = D ∧ l.covers b.x86_addr ∧ j = b.x86_addr - l.text := by
  have hsame : t2 = t → False := by
    intro h
    subst h
    rw [hl] at hl'
    cases hl'
    rw [hd] at hd'
    cases hd'
    exact hne rfl
  simp only [FreeDynablock_unlink, hb, bind_ok] at hrun
  cases hp : t.getList b.parent with
  | error e => rw [hp] at hrun; cases hrun
  | ok parent =>
    rw [hp] at hrun
    simp only [bind_ok] at hrun
    cases hpd : parent.direct with
    | none =>
      simp only [hpd, Option.isSome_none, Bool.false_eq_true, if_false] at hrun
      cases hrun
      exact (hsame rfl).elim
    | some parr =>
      simp only [hpd, Option.isSome_some, if_true] at hrun
      by_cases hcov : parent.covers b.x86_addr
      · have hc2 : b.x86_addr ≥ parent.text ∧
            b.x86_addr < (parent.text + parent.textsz) % W32 := hcov
        rw [if_pos hc2] at hrun
        obtain ⟨hsub, -, -⟩ := covers_sub parent _ hcov
        rw [hsub] at hrun
        by_cases hi : b.x86_addr - parent.text < parr.length
        · rw [writeDirect_eq hp hpd hi] at hrun
          cases hrun
          by_cases hD : D = b.parent
          · subst hD
            rw [hp] at hl
            cases hl
            rw [getList_setList_same hp] at hl'
            cases hl'
            rw [hpd] at hd
            cases hd
            simp only [Option.some.injEq] at hd'
            subst hd'
            refine ⟨rfl, hcov, ?_⟩
            by_contra hj
            exact hne (List.getElem?_set_ne (fun h => hj h.symm))
          · rw [getList_setList_ne t _ hD, hl] at hl'
            cases hl'
            rw [hd] at hd'
            cases hd'
            exact absurd rfl hne
        · simp only [State.writeDirect, hp, bind_ok, hpd, hi, if_false] at hrun
          cases hrun
      · have hc2 : ¬ (b.x86_addr ≥ parent.text ∧
            b.x86_addr < (parent.text + parent.textsz) % W32) := hcov
        rw [if_neg hc2] at hrun
        cases hrun
        exact (hsame rfl).elim

theorem FreeDynablock_sons_extra (fuel : Nat)
    (IHx : ∀ t q t', t.WF → q ≤ t.blocks.length → t.liveCount < fuel →
      FreeDynablock fuel t q = .ok t' → SlotFrame t t' ∧ SonsClosed t t' 0)
    (s : State) (db : Nat) (b : dynablock_t) (hwf : s.WF)
    (hb : s.getBlock db = .ok b) (hg : b.gone = 0) (hfuel : s.liveCount < fuel + 1) :
    ∀ n i t ps, SonsInv s db b i t ps → SlotFrame s t → SonsClosed s t db →
      i + n = b.sons.length →
      ∀ t', FreeDynablock_sons (FreeDynablock fuel) db n i t = .ok t' →
        ∃ ps', SonsInv s db b b.sons.length t' ps' ∧ SlotFrame s t' ∧ SonsClosed s t' db := by
  intro n
  induction n with
  | zero =>
    intro i t ps hinv hsf hsc hlen t' hrun
    have : i = b.sons.length := by omega
    subst this
    cases hrun
    exact ⟨ps, hinv, hsf, hsc⟩
  | succ n ih =>
    intro i t ps hinv hsf hsc hlen t' hrun
    have hi : i < b.sons.length := by omega
    obtain ⟨son, hson⟩ : ∃ son, b.sons[i]? = some son := ⟨b.sons[i], by simp [hi]⟩
    obtain ⟨hxchg, hev1, hown1, hlive1, hwf1, hson_le, hcount1⟩ :=
      SonsInv_xchg hwf hb hg hinv hi hson
    have hcount : (t.setBlock db
        { b with done := 0, gone := 1,
                 sons := List.replicate (i + 1) 0 ++ b.sons.drop (i + 1) }).liveCount < fuel := by omega
    obtain ⟨t2, ps2, hcall, hpost⟩ := FreeDynablock_spec fuel _ son hwf1 hson_le hcount
    obtain ⟨hsf2, hsc2⟩ := IHx _ son t2 hwf1 hson_le hcount hcall
    have hinv2 := SonsInv_round hwf hb hg hinv hi hson hpost
    have hlen_t : (List.replicate i 0 ++ b.sons.drop i).length = b.sons.length := by
      simp; omega
    simp only [FreeDynablock_sons, hinv.own, bind_ok, hlen_t, hi, if_true, hxchg, hcall] at hrun
    have hsf1 : SlotFrame s (t.setBlock db
        { b with done := 0, gone := 1,
                 sons := List.replicate (i + 1) 0 ++ b.sons.drop (i + 1) }) :=
      SlotFrame_congr hsf (setBlock_lists _ _ _) hlive1
    have hsc1 : SonsClosed s (t.setBlock db
        { b with done := 0, gone := 1,
                 sons := List.replicate (i + 1) 0 ++ b.sons.drop (i + 1) }) db :=
      SonsClosed_congr hsc hlive1
    exact ih (i + 1) t2 (ps ++ ps2) hinv2 (SlotFrame_trans hev1 hpost.ev hsf1 hsf2)
      (SonsClosed_trans hev1 hpost.ev hsc1 hsc2) (by omega) t' hrun

theorem FreeDynablock_extra : ∀ (fuel : Nat) (s : State) (db : Nat) (s' : State), s.WF →
    db ≤ s.blocks.length → s.liveCount < fuel → FreeDynablock fuel s db = .ok s' →
    SlotFrame s s' ∧ SonsClosed s s' 0 := by
  intro fuel
  induction fuel with
  | zero => intro s db s' _ _ h; omega
  | succ fuel IH =>
    intro s db s' hwf hle hfuel hrun
    have hnoop : s' = s → SlotFrame s s' ∧ SonsClosed s s' 0 := by
      intro h
      subst h
      refine ⟨SlotFrame_of_lists rfl, ?_⟩
      intro p bp _ hp hg hnl
      exact absurd ⟨bp, hp, hg⟩ hnl
    by_cases hdb : db = 0
    · subst hdb
      rw [FreeDynablock_null] at hrun
      cases hrun
      exact hnoop rfl
    obtain ⟨b, hb⟩ := getBlock_of_le hdb hle
    by_cases hg : b.gone = 0
    swap
    · rw [FreeDynablock_gone fuel s db b hb hg] at hrun
      cases hrun
      exact hnoop rfl
    have hrel1 : blockRel b { b with done := 0, gone := 1 } :=
      Or.inr ⟨hg, b.sons, slots_refl _, rfl⟩
    have hev1 := Evolves_setBlock (Evolves.refl s) hb _ hrel1
    have hown1 := getBlock_setBlock_same hb { b with done := 0, gone := 1 }
    have hwf1 := WF_of_Evolves hev1 hwf
    obtain ⟨s2, hunlink, hblocks2, htrace2, hev12, hcl2⟩ := FreeDynablock_unlink_spec hwf1 hown1
    have hinv0 := SonsInv_start hb hg hev12 hblocks2 htrace2 hcl2
    have hown2 : s2.getBlock db = .ok { b with done := 0, gone := 1 } := by
      have := hinv0.own
      simpa using this
    -- the slots and the closure before the loop
    have hsf0 : SlotFrame s s2 := by
      intro D l l' arr arr' j hl hl' hd hd' hne
      have hl1 : (s.setBlock db { b with done := 0, gone := 1 }).getList D = .ok l := by
        rw [getList_setBlock]; exact hl
      obtain ⟨h1, h2, h3⟩ :=
        FreeDynablock_unlink_frame hown1 hunlink D l l' arr arr' j hl1 hl' hd hd' hne
      exact ⟨db, b, hb, hg, hinv0.live_iff, h1, h2, h3⟩
    have hsc0 : SonsClosed s s2 db := by
      intro p bp hpe hp hgp hnl
      have : p ∈ [db] := (hinv0.mem p).mpr ⟨⟨bp, hp, hgp⟩, hnl⟩
      simp at this
      exact absurd this hpe
    obtain ⟨s3, ps3, hloop, -⟩ :=
      FreeDynablock_sons_spec fuel (FreeDynablock_spec fuel) s db b hwf hb hg hfuel
        b.sons.length 0 s2 [] hinv0 (by omega)
    obtain ⟨ps', hinv3, hsf3, hsc3⟩ :=
      FreeDynablock_sons_extra fuel
        (fun t q t' h1 h2 h3 h4 => IH t q t' h1 h2 h3 h4) s db b hwf hb hg hfuel
        b.sons.length 0 s2 [] hinv0 hsf0 hsc0 (by omega) s3 hloop
    have hown3 := hinv3.own
    rw [sons_progress_done] at hown3
    simp only [FreeDynablock, hdb, hb, hg, bind_ok, if_false, ne_eq,
      not_true_eq_false, hunlink, hown2] at hrun
    have hl1 : ({ b with done := 0, gone := 1 } : dynablock_t).sons.length = b.sons.length := rfl
    rw [hl1, hloop] at hrun
    simp only [bind_ok] at hrun
    rw [FreeDynablock_release_spec hown3] at hrun
    cases hrun
    have hlive' : ∀ p, (State.live { s3 with trace := s3.trace ++
        ((if b.father = 0 then [Event.FreeDynarecMap b.block b.size] else []) ++
          [Event.free db]) } p) ↔ s3.live p := fun p => Iff.rfl
    refine ⟨SlotFrame_congr hsf3 rfl hlive', ?_⟩
    intro p bp _ hp hgp hnl q hq hq0
    rw [hlive'] at hnl ⊢
    by_cases hpd : p = db
    · subst hpd
      rw [hb] at hp
      cases hp
      obtain ⟨j, hj⟩ := List.getElem?_of_mem hq
      have hjlt := (List.getElem?_eq_some_iff.mp hj).1
      exact hinv3.sonsGone j hjlt q hj hq0
    · exact hsc3 p bp hpd hp hgp hnl q hq hq0

theorem count_free_releaseEvents (s : State) (q p : Nat) (bq : dynablock_t)
    (hq : s.getBlock q = .ok bq) :
    (releaseEvents s q).count (Event.free p) = if q = p then 1 else 0 := by
  simp only [releaseEvents, hq]
  by_cases hf : bq.father = 0
  · by_cases hqp : q = p
    · subst hqp; simp [hf, List.count_cons]
    · simp [hf, List.count_cons, hqp]
  · by_cases hqp : q = p
    · subst hqp; simp [hf, List.count_cons]
    · simp [hf, List.count_cons, hqp]

theorem count_free_eventsOf (s : State) (p : Nat) :
    ∀ ps : List Nat, ps.Nodup → (∀ q ∈ ps, ∃ bq, s.getBlock q = .ok bq) →
      (eventsOf s ps).count (Event.free p) = if p ∈ ps then 1 else 0 := by
  intro ps
  induction ps with
  | nil => intro _ _; simp [eventsOf]
  | cons q qs ih =>
    intro hnd hv
    rw [List.nodup_cons] at hnd
    obtain ⟨bq, hbq⟩ := hv q (List.mem_cons_self _ _)
    have h1 := ih hnd.2 (fun r hr => hv r (List.mem_cons_of_mem _ hr))
    simp only [eventsOf, List.flatMap_cons, List.count_append] at h1 ⊢
    rw [h1, count_free_releaseEvents s q p bq hbq]
    by_cases hqp : q = p
    · subst hqp
      simp [hnd.1]
    · have : p ≠ q := fun h => hqp h.symm
      simp [hqp, this]

theorem not_live_of_Desc {s s' : State} {db : Nat} (hgone : db ≠ 0 → ¬ s'.live db)
    (hc : SonsClosed s s' 0) {p : Nat} (hd : Desc s db p) : ¬ s'.live p := by
  induction hd with
  | self =>
    by_cases h0 : db = 0
    · subst h0; exact not_live_zero s'
    · exact hgone h0
  | son _ hb hg hq hq0 ih =>
    exact hc _ _ (getBlock_ne_zero hb).1 hb hg ih _ hq hq0

/-- C19: on every store with sound pointers, whatever the `sons[]` graph
(cycles included), `FreeDynablock(b)` returns, with the same state for every
recursion budget above the number of live blocks. The blocks whose `gone`
flag it sets are exactly the live blocks reachable from `b` along non-null
`sons[]` entries of live blocks; they get `gone = 1`, every other block keeps
all its fields; and the trace gains the release of each of them exactly once. -/
theorem FreeDynablock_reaches (s : State) (b : Nat) (hwf : s.WF)
    (hb : b ≤ s.blocks.length) :
    ∃ s' ps, (∀ fuel, s.liveCount < fuel → FreeDynablock fuel s b = .ok s') ∧
      (∀ p, (s.live p ∧ ¬ s'.live p) ↔ (s.live p ∧ Desc s b p)) ∧
      (∀ p bp, s.getBlock p = .ok bp → bp.gone = 0 → Desc s b p →
        ∃ bp', s'.getBlock p = .ok bp' ∧ bp'.gone = 1) ∧
      (∀ p bp, s.getBlock p = .ok bp → ¬ (bp.gone = 0 ∧ Desc s b p) →
        s'.getBlock p = .ok bp) ∧
      ps.Nodup ∧ (∀ p, p ∈ ps ↔ (s.live p ∧ Desc s b p)) ∧
      s'.trace = s.trace ++ eventsOf s ps ∧
      (∀ p, (eventsOf s ps).count (Event.free p) = if p ∈ ps then 1 else 0) := by
  obtain ⟨s', ps, hpost, hcall⟩ := FreeDynablock_total s b hwf hb
  obtain ⟨-, hclosed⟩ := FreeDynablock_extra (s.liveCount + 1) s b s' hwf hb
    (Nat.lt_succ_self _) (hcall _ (Nat.lt_succ_self _))
  have hiff : ∀ p, (s.live p ∧ ¬ s'.live p) ↔ (s.live p ∧ Desc s b p) := by
    intro p
    constructor
    · rintro ⟨h1, h2⟩
      exact ⟨h1, hpost.desc p ((hpost.mem p).mpr ⟨h1, h2⟩)⟩
    · rintro ⟨h1, h2⟩
      exact ⟨h1, not_live_of_Desc hpost.gone hclosed h2⟩
  refine ⟨s', ps, hcall, hiff, ?_, ?_, hpost.nodup, ?_, hpost.trace, ?_⟩
  · intro p bp hp hg hd
    obtain ⟨bp', hbp', hr⟩ := hpost.ev.block_rel hp
    refine ⟨bp', hbp', ?_⟩
    rcases hr with hr | ⟨-, sons', -, hr⟩
    · subst hr
      exact absurd ⟨bp', hbp', hg⟩ ((hiff p).mpr ⟨⟨bp', hp, hg⟩, hd⟩).2
    · rw [hr]
  · intro p bp hp hn
    obtain ⟨bp', hbp', hr⟩ := hpost.ev.block_rel hp
    rcases hr with hr | ⟨hg, sons', -, hr⟩
    · subst hr; exact hbp'
    · have hnl : ¬ s'.live p := by
        rintro ⟨b2, hb2, hg2⟩
        rw [hbp'] at hb2
        cases hb2
        rw [hr] at hg2
        simp at hg2
      exact absurd ⟨hg, ((hiff p).mp ⟨⟨bp, hp, hg⟩, hnl⟩).2⟩ hn
  · intro p
    rw [hpost.mem p, hiff p]
  · intro p
    apply count_free_eventsOf s p ps hpost.nodup
    intro q hq
    obtain ⟨⟨bq, hbq, -⟩, -⟩ := (hpost.mem q).mp hq
    exact ⟨bq, hbq⟩

/-- Instance of C19 on the cyclic graph of `exState9`, freed from block 1. -/
theorem FreeDynablock_reaches_witness :
    ∃ s' ps, (∀ fuel, exState9.liveCount < fuel → FreeDynablock fuel exState9 1 = .ok s') ∧
      (∀ p, (exState9.live p ∧ ¬ s'.live p) ↔ (exState9.live p ∧ Desc exState9 1 p)) ∧
      (∀ p bp, exState9.getBlock p = .ok bp → bp.gone = 0 → Desc exState9 1 p →
        ∃ bp', s'.getBlock p = .ok bp' ∧ bp'.gone = 1) ∧
      (∀ p bp, exState9.getBlock p = .ok bp → ¬ (bp.gone = 0 ∧ Desc exState9 1 p) →
        s'.getBlock p = .ok bp) ∧
      ps.Nodup ∧ (∀ p, p ∈ ps ↔ (exState9.live p ∧ Desc exState9 1 p)) ∧
      s'.trace = exState9.trace ++ eventsOf exState9 ps ∧
      (∀ p, (eventsOf exState9 ps).count (Event.free p) = if p ∈ ps then 1 else 0) :=
  FreeDynablock_reaches exState9 1 (by decide) (by decide)

/-! ## `FreeRangeDynablock` on a range with blocks -/

theorem kh_put_nodup {blocks : List Nat} (h : blocks.Nodup) (db : Nat) :
    (kh_put blocks db).Nodup := by
  unfold kh_put
  by_cases hm : db ∈ blocks
  · rw [if_pos hm]; exact h
  · rw [if_neg hm]
    exact List.Nodup.append h (List.nodup_singleton db) (fun p hp hp2 => by
      rw [List.mem_singleton] at hp2
      subst hp2
      exact hm hp)

theorem mem_kh_put (blocks : List Nat) (db f : Nat) :
    f ∈ kh_put blocks db ↔ f ∈ blocks ∨ f = db := by
  unfold kh_put
  by_cases hm : db ∈ blocks
  · rw [if_pos hm]
    constructor
    · exact Or.inl
    · rintro (h | h)
      · exact h
      · subst h; exact hm
  · rw [if_neg hm, List.mem_append, List.mem_singleton]

theorem FreeRangeDynablock_collect_spec (s : State) (D : Nat) (l : dynablocklist_t)
    (arr : List Nat) (hl : s.getList D = .ok l) (hd : l.direct = some arr)
    (hslots : ∀ d ∈ arr, d ≤ s.blocks.length) (lo : Nat) :
    ∀ n i t blocks, CollectInv s D l arr lo i t blocks → lo ≤ i →
      (∀ j, i ≤ j → j < i + n → l.text ≤ j ∧ j < W32 ∧ j - l.text < arr.length) →
      ∃ t' blocks', FreeRangeDynablock_collect D l.text n i t blocks = .ok (t', blocks') ∧
        CollectInv s D l arr lo (i + n) t' blocks' := by
  intro n
  induction n with
  | zero => intro i t blocks hinv _ _; exact ⟨t, blocks, rfl, hinv⟩
  | succ n ih =>
    intro i t blocks hinv hlo hidx
    obtain ⟨h1, h2, h3⟩ := hidx i (Nat.le_refl _) (by omega)
    obtain ⟨arr_t, hlt, hzero, hkeep⟩ := hinv.slots
    obtain ⟨d, hdv⟩ : ∃ d, arr[i - l.text]? = some d := ⟨arr[i - l.text], by simp [h3]⟩
    have hdt : arr_t[i - l.text]? = some d := by
      rw [hkeep (i - l.text) (by omega)]; exact hdv
    have hit : i - l.text < arr_t.length := (List.getElem?_eq_some_iff.mp hdt).1
    -- the exchange
    have hx : arm_lock_xchg_direct t D (subU32 i l.text) 0 =
        .ok (d, t.setList D { l with direct := some (arr_t.set (i - l.text) 0) }) := by
      have hw := writeDirect_eq (v := 0) hlt rfl hit
      simp only [arm_lock_xchg_direct, subU32_eq _ _ h1 h2, readDirect_eq hlt rfl, hdt, bind_ok,
        hw]
    have hmh := MarkHit_succ s arr l.text lo i
    -- the state after the exchange
    have hinv1 : ∀ blocks1, blocks1.Nodup →
        (∀ f, f ∈ blocks1 ↔ MarkHit s arr l.text lo (i + 1) f) →
        CollectInv s D l arr lo (i + 1)
          (t.setList D { l with direct := some (arr_t.set (i - l.text) 0) }) blocks1 := by
      intro blocks1 hnd hmem
      refine ⟨?_, ?_, ?_, ?_, ?_, hnd, hmem⟩
      · refine Evolves_setList hinv.ev hl _ ⟨_, ?_, rfl⟩
        rw [hd]
        obtain ⟨lt, hlt2, dt, hdt2, hrt⟩ := hinv.ev.list_rel hl
        rw [hlt] at hlt2
        cases hlt2
        have : dt = some arr_t := by
          have := congrArg dynablocklist_t.direct hrt
          simpa using this.symm
        rw [this, hd] at hdt2
        exact slots_set_zero hdt2 _
      · rw [setList_blocks]; exact hinv.blocks_eq
      · rw [setList_trace]; exact hinv.trace
      · intro D' hD'
        rw [getList_setList_ne t _ hD']
        exact hinv.others D' hD'
      · refine ⟨arr_t.set (i - l.text) 0, getList_setList_same hlt _, ?_, ?_⟩
        · intro j hj1 hj2 hj3
          by_cases hji : j = i - l.text
          · subst hji
            simp [hit]
          · rw [List.getElem?_set_ne (fun h => hji h.symm)]
            exact hzero j hj1 (by omega) hj3
        · intro j hj
          have hji : i - l.text ≠ j := by omega
          rw [List.getElem?_set_ne hji]
          exact hkeep j (by omega)
    by_cases hd0 : d = 0
    · obtain ⟨t', blocks', hrun, hfin⟩ := ih (i + 1) _ blocks
        (hinv1 blocks hinv.nodup (by
          intro f
          rw [hinv.mem f, hmh f hlo]
          constructor
          · exact Or.inl
          · rintro (h | ⟨d2, bd2, e1, e2, -, -⟩)
            · exact h
            · rw [hdv] at e1; cases e1; exact absurd hd0 e2))
        (by omega) (fun j hj1 hj2 => hidx j (by omega) (by omega))
      refine ⟨t', blocks', ?_, ?_⟩
      · simp only [FreeRangeDynablock_collect, hx, bind_ok]
        rw [if_neg (by simpa using hd0)]
        exact hrun
      · have : i + (n + 1) = i + 1 + n := by omega
        rw [this]; exact hfin
    · obtain ⟨bd, hbd⟩ := getBlock_of_le hd0 (hslots d (List.getElem?_mem hdv))
      have hbd1 : (t.setList D { l with direct := some (arr_t.set (i - l.text) 0) }).getBlock d
          = .ok bd := by
        rw [getBlock_setList]
        simp only [State.getBlock, hinv.blocks_eq] at hbd ⊢
        exact hbd
      obtain ⟨t', blocks', hrun, hfin⟩ := ih (i + 1) _
        (kh_put blocks (if bd.father ≠ 0 then bd.father else d))
        (hinv1 _ (kh_put_nodup hinv.nodup _) (by
          intro f
          rw [mem_kh_put, hinv.mem f, hmh f hlo]
          constructor
          · rintro (h | h)
            · exact Or.inl h
            · exact Or.inr ⟨d, bd, hdv, hd0, hbd, h⟩
          · rintro (h | ⟨d2, bd2, e1, -, e3, e4⟩)
            · exact Or.inl h
            · rw [hdv] at e1; cases e1
              rw [hbd] at e3; cases e3
              exact Or.inr e4))
        (by omega) (fun j hj1 hj2 => hidx j (by omega) (by omega))
      refine ⟨t', blocks', ?_, ?_⟩
      · simp only [FreeRangeDynablock_collect, hx, bind_ok]
        rw [if_pos hd0]
        simp only [hbd1, bind_ok]
        exact hrun
      · have : i + (n + 1) = i + 1 + n := by omega
        rw [this]; exact hfin

theorem filter_eventsOf_mapCalls (s : State) (ps : List Nat) :
    (eventsOf s ps).filter Event.isFreeDynarecMap = mapCallsOf s ps := by
  induction ps with
  | nil => rfl
  | cons p ps ih =>
    simp only [eventsOf, mapCallsOf, List.flatMap_cons, List.filter_append] at ih ⊢
    rw [ih]
    congr 1
    unfold releaseEvents
    cases s.getBlock p with
    | error e => rfl
    | ok b =>
      by_cases hf : b.father = 0
      · simp [hf, Event.isFreeDynarecMap]
      · simp [hf, Event.isFreeDynarecMap]

theorem FreeRangeDynablock_purge_fuel_le {f1 f2 : Nat} (hle : f1 ≤ f2) :
    ∀ (blocks : List Nat) (t t' : State), FreeRangeDynablock_purge f1 blocks t = .ok t' →
      FreeRangeDynablock_purge f2 blocks t = .ok t' := by
  intro blocks
  induction blocks with
  | nil => intro t t' h; exact h
  | cons f rest ih =>
    intro t t' h
    simp only [FreeRangeDynablock_purge] at h ⊢
    cases h1 : FreeDynablock f1 t f with
    | error e => rw [h1] at h; simp [bind, Except.bind] at h
    | ok t1 =>
      rw [h1, bind_ok] at h
      rw [FreeDynablock_fuel_le hle h1, bind_ok]
      exact ih t1 t' h

/-- The loop that purges the collected blocks: it returns, the blocks released
are listed once each, each is reached from a collected block, every collected
block is gone afterwards, and a slot changes only as `SlotFrame` says. -/
theorem FreeRangeDynablock_purge_spec (fuel : Nat) : ∀ (blocks : List Nat) (t : State), t.WF →
    (∀ f ∈ blocks, f ≤ t.blocks.length) → t.liveCount < fuel →
    ∃ t' ps, FreeRangeDynablock_purge fuel blocks t = .ok t' ∧ Evolves t t' ∧ ps.Nodup ∧
      (∀ p, p ∈ ps ↔ (t.live p ∧ ¬ t'.live p)) ∧ t'.trace = t.trace ++ eventsOf t ps ∧
      SlotFrame t t' ∧ (∀ f ∈ blocks, f ≠ 0 → ¬ t'.live f) ∧
      (∀ p ∈ ps, ∃ f ∈ blocks, Desc t f p) := by
  intro blocks
  induction blocks with
  | nil =>
    intro t _ _ _
    refine ⟨t, [], rfl, Evolves.refl t, List.nodup_nil, ?_, by simp [eventsOf],
      SlotFrame_of_lists rfl, ?_, ?_⟩
    · intro p; simp
    · intro f hf; simp at hf
    · intro p hp; simp at hp
  | cons f rest ih =>
    intro t hwf hle hfuel
    obtain ⟨t1, ps1, hcall, hpost⟩ :=
      FreeDynablock_spec fuel t f hwf (hle f (List.mem_cons_self _ _)) hfuel
    obtain ⟨hsf1, -⟩ :=
      FreeDynablock_extra fuel t f t1 hwf (hle f (List.mem_cons_self _ _)) hfuel hcall
    obtain ⟨t', ps2, hrun, hev2, hnd2, hmem2, htr2, hsf2, hgone2, hdesc2⟩ :=
      ih t1 (WF_of_Evolves hpost.ev hwf)
        (fun g hg => by rw [hpost.ev.blocks_length]; exact hle g (List.mem_cons_of_mem _ hg))
        (Nat.lt_of_le_of_lt hpost.ev.liveCount_le hfuel)
    refine ⟨t', ps1 ++ ps2, ?_, hpost.ev.trans hev2, ?_, ?_, ?_,
      SlotFrame_trans hpost.ev hev2 hsf1 hsf2, ?_, ?_⟩
    · simp only [FreeRangeDynablock_purge, hcall, bind_ok]
      exact hrun
    · refine List.Nodup.append hpost.nodup hnd2 ?_
      intro p hp1 hp2
      exact ((hpost.mem p).mp hp1).2 ((hmem2 p).mp hp2).1
    · intro p
      rw [List.mem_append]
      constructor
      · rintro (hp | hp)
        · obtain ⟨h1, h2⟩ := (hpost.mem p).mp hp
          exact ⟨h1, fun h => h2 (hev2.live_mono h)⟩
        · obtain ⟨h1, h2⟩ := (hmem2 p).mp hp
          exact ⟨hpost.ev.live_mono h1, h2⟩
      · rintro ⟨h1, h2⟩
        by_cases h3 : t1.live p
        · exact Or.inr ((hmem2 p).mpr ⟨h3, h2⟩)
        · exact Or.inl ((hpost.mem p).mpr ⟨h1, h3⟩)
    · rw [htr2, hpost.trace, eventsOf_append, List.append_assoc]
      congr 2
      apply eventsOf_congr
      intro p hp
      obtain ⟨b, hb, hg⟩ := ((hmem2 p).mp hp).1
      rw [hb, hpost.ev.live_back hb hg]
    · intro g hg hg0
      rcases List.mem_cons.mp hg with rfl | hg
      · exact fun h => hpost.gone hg0 (hev2.live_mono h)
      · exact hgone2 g hg hg0
    · intro p hp
      rcases List.mem_append.mp hp with hp | hp
      · exact ⟨f, List.mem_cons_self _ _, hpost.desc p hp⟩
      · obtain ⟨g, hg, hd⟩ := hdesc2 p hp
        exact ⟨g, List.mem_cons_of_mem _ hg, Desc_mono hpost.ev hd⟩

theorem CollectInv_start {s : State} {D : Nat} {l : dynablocklist_t} {arr : List Nat}
    (hl : s.getList D = .ok l) (hd : l.direct = some arr) (lo : Nat) :
    CollectInv s D l arr lo lo s [] := by
  refine ⟨Evolves.refl s, rfl, rfl, fun _ _ => rfl, ⟨arr, ?_, ?_, ?_⟩, List.nodup_nil, ?_⟩
  · rw [hl, ← hd]
  · intro j h1 h2; omega
  · intro j _; rfl
  · intro f
    constructor
    · intro h; simp at h
    · rintro ⟨i, d, bd, h1, h2, -⟩; omega

/-- The collecting phase of `FreeRangeDynablock`, in the terms of the clamped
range `[max addr text, min (addr+size) enddb)`. -/
theorem FreeRangeDynablock_collect_phase (s : State) (D addr size : Nat) (l : dynablocklist_t)
    (arr : List Nat) (hwf : s.WF) (hl : s.getList D = .ok l) (hd : l.direct = some arr)
    (hslots : ∀ d ∈ arr, d ≤ s.blocks.length) (hsum : addr + size < W32) :
    ∃ t blocks, (∀ fuel, FreeRangeDynablock fuel s D addr size =
        FreeRangeDynablock_purge fuel blocks t) ∧
      CollectInv s D l arr (max addr l.text)
        (max addr l.text + (min (addr + size) ((l.text + l.textsz) % W32) - max addr l.text))
        t blocks := by
  obtain ⟨hD, hget⟩ := getList_ne_zero hl
  have hmod : (addr + size) % W32 = addr + size := Nat.mod_eq_of_lt hsum
  have hW : (l.text + l.textsz) % W32 < W32 := Nat.mod_lt _ (by unfold W32; omega)
  have hle : (l.text + l.textsz) % W32 ≤ l.text + l.textsz := Nat.mod_le _ _
  have hlen : l.textsz ≤ arr.length := hwf.2 l (List.getElem?_mem hget) arr (by rw [hd]; rfl)
  have hstart : (if addr < l.text then l.text else addr) = max addr l.text := by
    by_cases h : addr < l.text
    · simp only [h, if_true]; omega
    · simp only [h, if_false]; omega
  have hend : (if addr + size > (l.text + l.textsz) % W32 then (l.text + l.textsz) % W32
      else addr + size) = min (addr + size) ((l.text + l.textsz) % W32) := by
    by_cases h : addr + size > (l.text + l.textsz) % W32
    · simp only [h, if_true]; omega
    · simp only [h, if_false]; omega
  have hsome : l.direct.isSome = true := by rw [hd]; rfl
  by_cases hc : min (addr + size) ((l.text + l.textsz) % W32) > l.text ∧
      max addr l.text < (l.text + l.textsz) % W32
  · obtain ⟨t, blocks, hrun, hinv⟩ := FreeRangeDynablock_collect_spec s D l arr hl hd hslots
      (max addr l.text)
      (min (addr + size) ((l.text + l.textsz) % W32) - max addr l.text) (max addr l.text) s []
      (CollectInv_start hl hd _) (Nat.le_refl _) (by
        intro j h1 h2
        refine ⟨by omega, by omega, by omega⟩)
    refine ⟨t, blocks, ?_, hinv⟩
    intro fuel
    simp only [FreeRangeDynablock, hD, hl, hsome, bind_ok, if_false, if_true, hmod, hstart, hend]
    rw [if_pos hc, hrun]
    rfl
  · refine ⟨s, [], ?_, ?_⟩
    · intro fuel
      simp only [FreeRangeDynablock, hD, hl, hsome, bind_ok, if_false, if_true, hmod, hstart,
        hend]
      rw [if_neg hc]
    · have : min (addr + size) ((l.text + l.textsz) % W32) - max addr l.text = 0 := by omega
      rw [this]
      exact CollectInv_start hl hd _

theorem MarkHit_range (s : State) (arr : List Nat) (text lo hi f : Nat) :
    MarkHit s arr text lo (lo + (hi - lo)) f ↔ MarkHit s arr text lo hi f := by
  constructor
  · rintro ⟨i, d, bd, h1, h2, rest⟩
    exact ⟨i, d, bd, h1, by omega, rest⟩
  · rintro ⟨i, d, bd, h1, h2, rest⟩
    exact ⟨i, d, bd, h1, by omega, rest⟩

/-- C17: for a directory `D` with an allocated `direct` array, in a state with
sound pointers, and `addr + size` below 2^32, `FreeRangeDynablock(D, addr, size)`
returns, for every recursion budget above the number of live blocks, a state
`s'` in which: every slot of the intersection of `[addr, addr+size)` with the
range of `D` (the end of the range computed as in the code) is null; every
father-or-self `f` of a block found in these slots is not live, with
`gone = 1`; the released blocks `ps` are listed once each, are exactly the
blocks that were live and are no more, the calls added to the trace are those
of their release, among them one `FreeDynarecMap` for each released block
without father, every father-or-self that was live is in `ps` and every block
of `ps` is reached from one of them along `sons[]`; and a slot outside the
intersection that changed is the slot `x86_addr - text`, in its parent, of a
released block. -/
theorem FreeRangeDynablock_frees (s : State) (D addr size : Nat) (l : dynablocklist_t)
    (arr : List Nat) (hwf : s.WF) (hl : s.getList D = .ok l) (hd : l.direct = some arr)
    (hslots : ∀ d ∈ arr, d ≤ s.blocks.length)
    (hfathers : ∀ b ∈ s.blocks, b.father ≤ s.blocks.length)
    (hsum : addr + size < W32) :
    ∃ s' ps,
      (∀ fuel, s.liveCount < fuel → FreeRangeDynablock fuel s D addr size = .ok s') ∧
      (∃ l' arr', s'.getList D = .ok l' ∧ l'.direct = some arr' ∧
        ∀ i, max addr l.text ≤ i → i < min (addr + size) ((l.text + l.textsz) % W32) →
          arr'[i - l.text]? = some 0) ∧
      (∀ f, MarkHit s arr l.text (max addr l.text)
          (min (addr + size) ((l.text + l.textsz) % W32)) f →
        ∃ bf', s'.getBlock f = .ok bf' ∧ bf'.gone ≠ 0 ∧
          ∀ bf, s.getBlock f = .ok bf → bf.gone ≤ 1 → bf'.gone = 1) ∧
      ps.Nodup ∧ (∀ p, p ∈ ps ↔ (s.live p ∧ ¬ s'.live p)) ∧
      s'.trace = s.trace ++ eventsOf s ps ∧
      (eventsOf s ps).filter Event.isFreeDynarecMap = mapCallsOf s ps ∧
      (∀ f, MarkHit s arr l.text (max addr l.text)
          (min (addr + size) ((l.text + l.textsz) % W32)) f → s.live f → f ∈ ps) ∧
      (∀ p ∈ ps, ∃ f, MarkHit s arr l.text (max addr l.text)
          (min (addr + size) ((l.text + l.textsz) % W32)) f ∧ Desc s f p) ∧
      (∀ D' l0 l1 arr0 arr1 j, s.getList D' = .ok l0 → s'.getList D' = .ok l1 →
        l0.direct = some arr0 → l1.direct = some arr1 → arr1[j]? ≠ arr0[j]? →
        (D' = D ∧ max addr l.text ≤ j + l.text ∧
          j + l.text < min (addr + size) ((l.text + l.textsz) % W32)) ∨
        ∃ p ∈ ps, ∃ bp, s.getBlock p = .ok bp ∧ bp.parent = D' ∧ l0.covers bp.x86_addr ∧
          j = bp.x86_addr - l0.text) := by
  obtain ⟨t, blocks, hrunc, hinv⟩ :=
    FreeRangeDynablock_collect_phase s D addr size l arr hwf hl hd hslots hsum
  obtain ⟨hD, hget⟩ := getList_ne_zero hl
  have hlen : l.textsz ≤ arr.length := hwf.2 l (List.getElem?_mem hget) arr (by rw [hd]; rfl)
  have hle : (l.text + l.textsz) % W32 ≤ l.text + l.textsz := Nat.mod_le _ _
  have hgb : ∀ p, t.getBlock p = s.getBlock p := by
    intro p
    simp only [State.getBlock, hinv.blocks_eq]
  have hlive : ∀ p, t.live p ↔ s.live p := by
    intro p
    simp only [State.live, hgb]
  have hcount : t.liveCount = s.liveCount := by
    simp only [State.liveCount, hinv.blocks_eq]
  have hmemb : ∀ f, f ∈ blocks ↔ MarkHit s arr l.text (max addr l.text)
      (min (addr + size) ((l.text + l.textsz) % W32)) f := by
    intro f
    rw [hinv.mem f, MarkHit_range]
  have htarget : ∀ f, MarkHit s arr l.text (max addr l.text)
      (min (addr + size) ((l.text + l.textsz) % W32)) f → f ≠ 0 ∧ f ≤ s.blocks.length := by
    rintro f ⟨i, d, bd, -, -, hdv, hd0, hbd, hf⟩
    by_cases hfa : bd.father ≠ 0
    · rw [if_pos hfa] at hf
      subst hf
      exact ⟨hfa, hfathers bd (List.getElem?_mem (getBlock_ne_zero hbd).2)⟩
    · rw [if_neg hfa] at hf
      subst hf
      exact ⟨hd0, hslots f (List.getElem?_mem hdv)⟩
  obtain ⟨t', ps, hrun, hev, hnd, hmem, htr, hsf, hgone, hdesc⟩ :=
    FreeRangeDynablock_purge_spec (s.liveCount + 1) blocks t (WF_of_Evolves hinv.ev hwf)
      (fun f hf => by rw [hinv.blocks_eq]; exact (htarget f ((hmemb f).mp hf)).2)
      (by rw [hcount]; exact Nat.lt_succ_self _)
  have hevs : Evolves s t' := hinv.ev.trans hev
  have hmems : ∀ p, p ∈ ps ↔ (s.live p ∧ ¬ t'.live p) := by
    intro p
    rw [hmem p, hlive p]
  obtain ⟨arr_t, hlt, hzero, hkeep⟩ := hinv.slots
  refine ⟨t', ps, ?_, ?_, ?_, hnd, hmems, ?_, filter_eventsOf_mapCalls s ps, ?_, ?_, ?_⟩
  · intro fuel hf
    rw [hrunc fuel]
    exact FreeRangeDynablock_purge_fuel_le (by omega) blocks t t' hrun
  · obtain ⟨l', hl', d', hdr, hl'eq⟩ := hev.list_rel hlt
    cases d' with
    | none => simp [directRel] at hdr
    | some arr' =>
      refine ⟨l', arr', hl', by rw [hl'eq], ?_⟩
      intro i h1 h2
      have hz := hzero (i - l.text) (by omega) (by omega) (by omega)
      obtain ⟨y, hy, hr⟩ := forall₂_getElem? hdr (i - l.text) 0 hz
      rcases hr with hr | hr <;> (subst hr; exact hy)
  · intro f hf
    obtain ⟨hf0, hfle⟩ := htarget f hf
    obtain ⟨bf, hbf⟩ := getBlock_of_le hf0 hfle
    obtain ⟨bf', hbf', hr⟩ := hevs.block_rel hbf
    have hnl : ¬ t'.live f := hgone f ((hmemb f).mpr hf) hf0
    have hg' : bf'.gone ≠ 0 := fun h0 => hnl ⟨bf', hbf', h0⟩
    refine ⟨bf', hbf', hg', ?_⟩
    intro bf2 hbf2 hflag
    rw [hbf] at hbf2
    cases hbf2
    rcases hr with hr | ⟨-, sons', -, hr⟩
    · subst hr; omega
    · subst hr; rfl
  · rw [htr, hinv.trace, eventsOf_congr (fun p _ => hgb p)]
  · intro f hf hlf
    exact (hmems f).mpr ⟨hlf, hgone f ((hmemb f).mpr hf) (htarget f hf).1⟩
  · intro p hp
    obtain ⟨f, hf, hdf⟩ := hdesc p hp
    exact ⟨f, (hmemb f).mp hf, Desc_mono hinv.ev hdf⟩
  · intro D' l0 l1 arr0 arr1 j h0 h1 hd0 hd1 hne
    have hfromt : ∀ (lt : dynablocklist_t) (arrt : List Nat), t.getList D' = .ok lt →
        lt.direct = some arrt → lt.text = l0.text → lt.textsz = l0.textsz →
        arr1[j]? ≠ arrt[j]? →
        ∃ p ∈ ps, ∃ bp, s.getBlock p = .ok bp ∧ bp.parent = D' ∧ l0.covers bp.x86_addr ∧
          j = bp.x86_addr - l0.text := by
      intro lt arrt hlt2 hdt htext htsz hne2
      obtain ⟨p, bp, hp, hg, hnl, hpar, hcov, hj⟩ := hsf D' lt l1 arrt arr1 j hlt2 h1 hdt hd1 hne2
      refine ⟨p, (hmem p).mpr ⟨⟨bp, hp, hg⟩, hnl⟩, bp, (hgb p) ▸ hp, hpar, ?_, ?_⟩
      · unfold dynablocklist_t.covers at hcov ⊢
        rw [htext, htsz] at hcov
        exact hcov
      · rw [htext] at hj
        exact hj
    by_cases hDD : D' = D
    · subst hDD
      rw [hl] at h0
      cases h0
      rw [hd] at hd0
      cases hd0
      by_cases hin : max addr l.text ≤ j + l.text ∧
          j + l.text < min (addr + size) ((l.text + l.textsz) % W32)
      · exact Or.inl ⟨rfl, hin⟩
      · right
        have hk := hkeep j (by omega)
        exact hfromt _ arr_t hlt rfl rfl rfl (by rw [hk]; exact hne)
    · right
      have := hinv.others D' hDD
      rw [h0] at this
      exact hfromt l0 arr0 this hd0 rfl rfl hne

/-- Instance of C17: in `exState9` the byte at address 18 holds the son
(block 2) of block 1; the call on `[18, 19)` releases both, and nulls the slot
of address 17 with them. -/
theorem FreeRangeDynablock_frees_witness :
    ∃ s' ps,
      (∀ fuel, exState9.liveCount < fuel → FreeRangeDynablock fuel exState9 1 18 1 = .ok s') ∧
      (∃ l' arr', s'.getList 1 = .ok l' ∧ l'.direct = some arr' ∧
        ∀ i, max 18 exList9.text ≤ i →
          i < min (18 + 1) ((exList9.text + exList9.textsz) % W32) →
          arr'[i - exList9.text]? = some 0) ∧
      (∀ f, MarkHit exState9 [0, 1, 2, 3] exList9.text (max 18 exList9.text)
          (min (18 + 1) ((exList9.text + exList9.textsz) % W32)) f →
        ∃ bf', s'.getBlock f = .ok bf' ∧ bf'.gone ≠ 0 ∧
          ∀ bf, exState9.getBlock f = .ok bf → bf.gone ≤ 1 → bf'.gone = 1) ∧
      ps.Nodup ∧ (∀ p, p ∈ ps ↔ (exState9.live p ∧ ¬ s'.live p)) ∧
      s'.trace = exState9.trace ++ eventsOf exState9 ps ∧
      (eventsOf exState9 ps).filter Event.isFreeDynarecMap = mapCallsOf exState9 ps ∧
      (∀ f, MarkHit exState9 [0, 1, 2, 3] exList9.text (max 18 exList9.text)
          (min (18 + 1) ((exList9.text + exList9.textsz) % W32)) f →
        exState9.live f → f ∈ ps) ∧
      (∀ p ∈ ps, ∃ f, MarkHit exState9 [0, 1, 2, 3] exList9.text (max 18 exList9.text)
          (min (18 + 1) ((exList9.text + exList9.textsz) % W32)) f ∧ Desc exState9 f p) ∧
      (∀ D' l0 l1 arr0 arr1 j, exState9.getList D' = .ok l0 → s'.getList D' = .ok l1 →
        l0.direct = some arr0 → l1.direct = some arr1 → arr1[j]? ≠ arr0[j]? →
        (D' = 1 ∧ max 18 exList9.text ≤ j + exList9.text ∧
          j + exList9.text < min (18 + 1) ((exList9.text + exList9.textsz) % W32)) ∨
        ∃ p ∈ ps, ∃ bp, exState9.getBlock p = .ok bp ∧ bp.parent = D' ∧
          l0.covers bp.x86_addr ∧ j = bp.x86_addr - l0.text) :=
  FreeRangeDynablock_frees exState9 1 18 1 exList9 [0, 1, 2, 3] (by decide) rfl rfl
    (by decide) (by decide) (by decide)

/-! ## The hint of the dispatch path -/

theorem Keeps_same (s : State) : Keeps s s :=
  ⟨fun _ b h => ⟨b, h, rfl⟩, fun _ l h => ⟨l, h, rfl, rfl⟩, rfl, rfl⟩

theorem Keeps_step {a b c : State} (h1 : Keeps a b) (h2 : Keeps b c) : Keeps a c := by
  refine ⟨?_, ?_, h2.dynmap.trans h1.dynmap, h2.shift.trans h1.shift⟩
  · intro p x hx
    obtain ⟨y, hy, e1⟩ := h1.blocks p x hx
    obtain ⟨z, hz, e2⟩ := h2.blocks p y hy
    exact ⟨z, hz, e2.trans e1⟩
  · intro D x hx
    obtain ⟨y, hy, e1, e1b⟩ := h1.lists D x hx
    obtain ⟨z, hz, e2, e2b⟩ := h2.lists D y hy
    exact ⟨z, hz, e2.trans e1, e2b.trans e1b⟩

theorem Keeps_setBlock {s t : State} (h : Keeps s t) (p : Nat) (b2 : dynablock_t)
    (hpar : ∀ b, s.getBlock p = .ok b → b2.parent = b.parent) : Keeps s (t.setBlock p b2) := by
  refine ⟨?_, ?_, ?_, ?_⟩
  · intro q b hb
    obtain ⟨b', hb', e⟩ := h.blocks q b hb
    by_cases hq : q = p
    · subst hq
      exact ⟨b2, getBlock_setBlock_same hb' b2, hpar b hb⟩
    · exact ⟨b', by rw [getBlock_setBlock_ne t b2 hq]; exact hb', e⟩
  · intro D l hl
    rw [getList_setBlock]
    exact h.lists D l hl
  · cases p <;> exact h.dynmap
  · cases p <;> exact h.shift

theorem Keeps_setList {s t : State} (h : Keeps s t) (D : Nat) (l2 : dynablocklist_t)
    (hrange : ∀ l, s.getList D = .ok l → l2.text = l.text ∧ l2.textsz = l.textsz) :
    Keeps s (t.setList D l2) := by
  refine ⟨?_, ?_, ?_, ?_⟩
  · intro q b hb
    rw [getBlock_setList]
    exact h.blocks q b hb
  · intro D2 l hl
    obtain ⟨l', hl', e⟩ := h.lists D2 l hl
    by_cases hq : D2 = D
    · subst hq
      exact ⟨l2, getList_setList_same hl' l2, hrange l hl⟩
    · exact ⟨l', by rw [getList_setList_ne t l2 hq]; exact hl', e⟩
  · cases D <;> exact h.dynmap
  · cases D <;> exact h.shift

theorem Keeps_emit {s t : State} (h : Keeps s t) (e : Event) : Keeps s (t.emit e) :=
  ⟨h.blocks, h.lists, h.dynmap, h.shift⟩

theorem Keeps_append {s t : State} (h : Keeps s t) (b : dynablock_t) :
    Keeps s { t with blocks := t.blocks ++ [b] } := by
  refine ⟨?_, h.lists, h.dynmap, h.shift⟩
  intro q x hx
  obtain ⟨y, hy, e⟩ := h.blocks q x hx
  refine ⟨y, ?_, e⟩
  obtain ⟨hq, hget⟩ := getBlock_ne_zero hy
  rw [getBlock_eq_ok_iff]
  refine ⟨hq, ?_⟩
  show (t.blocks ++ [b])[q - 1]? = some y
  rw [List.getElem?_append_left (List.getElem?_eq_some_iff.mp hget).1]
  exact hget

theorem Keeps_writeDirect {s t t' : State} (h : Keeps s t) {D idx v : Nat}
    (hw : t.writeDirect D idx v = .ok t') : Keeps s t' := by
  unfold State.writeDirect at hw
  cases hl : t.getList D with
  | error e => rw [hl] at hw; simp [bind, Except.bind] at hw
  | ok l =>
    rw [hl, bind_ok] at hw
    cases hd : l.direct with
    | none => rw [hd] at hw; simp at hw
    | some arr =>
      rw [hd] at hw
      by_cases hi : idx < arr.length
      · simp only [hi, if_true] at hw
        cases hw
        refine Keeps_step h (Keeps_setList (Keeps_same t) D _ ?_)
        intro l0 hl0
        rw [hl] at hl0
        cases hl0
        exact ⟨rfl, rfl⟩
      · simp [hi] at hw

theorem bind_eq_ok {ε α β : Type} {x : Except ε α} {f : α → Except ε β} {b : β}
    (h : (x >>= f) = .ok b) : ∃ a, x = .ok a ∧ f a = .ok b := by
  cases x with
  | error e => simp [bind, Except.bind] at h
  | ok a => exact ⟨a, rfl, h⟩

theorem AddNewDynablock_keeps : ∀ (fuel : Nat) (s : State) (D addr created : Nat)
    (r : State × Nat × Nat), AddNewDynablock fuel s D addr created = .ok r → Keeps s r.1 := by
  intro fuel
  induction fuel with
  | zero => intro s D addr created r h; simp [AddNewDynablock] at h
  | succ fuel ih =>
    intro s D addr created r h
    by_cases hD : D = 0
    · subst hD
      rw [AddNewDynablock_null] at h
      cases h
      exact Keeps_same s
    cases hl : s.getList D with
    | error e => simp [AddNewDynablock, hD, hl, bind, Except.bind] at h
    | ok l =>
      by_cases hcov : l.covers addr
      · obtain ⟨hsub, -, -⟩ := covers_sub l addr hcov
        have hc := hcov
        unfold dynablocklist_t.covers at hc
        have hng : ¬ (addr < l.text ∨ addr ≥ (l.text + l.textsz) % W32) := by omega
        have hnew : ∀ (hempty : l.direct = none ∨
            ∃ arr, l.direct = some arr ∧ arr[addr - l.text]? = some 0), Keeps s r.1 := by
          intro hempty
          by_cases hc0 : created = 0
          · subst hc0
            rw [AddNewDynablock_miss fuel s D addr l hl hcov hempty] at h
            cases h
            exact Keeps_same s
          · obtain ⟨s', b, arr', hrun, hb0, hnone, hnewb, hothers, hlist, -, -, hlists, hdm, hsh, -⟩ :=
              AddNewDynablock_inrange_new fuel s D addr created l hl hcov hempty hc0
            rw [hrun] at h
            cases h
            refine ⟨?_, ?_, hdm, hsh⟩
            · intro p bp hp
              have hpb : p ≠ b := by
                rintro rfl
                rw [hnone] at hp
                cases hp
              exact ⟨bp, by rw [hothers p hpb]; exact hp, rfl⟩
            · intro D2 l2 hl2
              by_cases hDD : D2 = D
              · subst hDD
                rw [hl] at hl2
                cases hl2
                exact ⟨_, hlist, rfl, rfl⟩
              · exact ⟨l2, by rw [hlists D2 hDD]; exact hl2, rfl, rfl⟩
        cases hd : l.direct with
        | none => exact hnew (Or.inl hd)
        | some arr =>
          cases hslot : arr[addr - l.text]? with
          | none =>
            simp [AddNewDynablock, hD, hl, hng, hd, State.readDirect, hsub, hslot, bind,
              Except.bind] at h
          | some b =>
            by_cases hb : b = 0
            · subst hb
              exact hnew (Or.inr ⟨arr, hd, hslot⟩)
            · rw [AddNewDynablock_found fuel s D addr created l arr b hl hcov hd hslot hb] at h
              cases h
              exact Keeps_same s
      · rw [AddNewDynablock_unfold_out fuel s D addr created l hl hcov] at h
        exact ih s _ addr created r h

theorem FreeDynablock_unlink_keeps {t t2 : State} {db : Nat}
    (h : FreeDynablock_unlink t db = .ok t2) : Keeps t t2 := by
  unfold FreeDynablock_unlink at h
  obtain ⟨b, -, h⟩ := bind_eq_ok h
  obtain ⟨parent, -, h⟩ := bind_eq_ok h
  by_cases hs : parent.direct.isSome = true
  · simp only [hs, if_true] at h
    by_cases hc : b.x86_addr ≥ parent.text ∧ b.x86_addr < (parent.text + parent.textsz) % W32
    · rw [if_pos hc] at h
      exact Keeps_writeDirect (Keeps_same t) h
    · rw [if_neg hc] at h
      cases h
      exact Keeps_same t
  · simp only [hs] at h
    cases h
    exact Keeps_same t

theorem FreeDynablock_sons_keeps (rec : State → Nat → Except Fault State)
    (hrec : ∀ t q t', rec t q = .ok t' → Keeps t t') (db : Nat) :
    ∀ n i t t', FreeDynablock_sons rec db n i t = .ok t' → Keeps t t' := by
  intro n
  induction n with
  | zero =>
    intro i t t' h
    simp only [FreeDynablock_sons] at h
    cases h
    exact Keeps_same t
  | succ n ih =>
    intro i t t' h
    simp only [FreeDynablock_sons] at h
    obtain ⟨b, hb, h⟩ := bind_eq_ok h
    by_cases hi : i < b.sons.length
    · rw [if_pos hi] at h
      obtain ⟨⟨son, t1⟩, hx, h⟩ := bind_eq_ok h
      obtain ⟨t2, hr, h⟩ := bind_eq_ok h
      have hk1 : Keeps t t1 := by
        unfold arm_lock_xchg_son at hx
        obtain ⟨b1, hb1, hx⟩ := bind_eq_ok hx
        cases hs : b1.sons[i]? with
        | none => rw [hs] at hx; cases hx
        | some old =>
          rw [hs] at hx
          cases hx
          exact Keeps_setBlock (Keeps_same t) db _ (by
            intro b0 hb0
            rw [hb1] at hb0
            cases hb0
            rfl)
      exact Keeps_step hk1 (Keeps_step (hrec t1 son t2 hr) (ih (i + 1) t2 t' h))
    · rw [if_neg hi] at h
      cases h
      exact Keeps_same t

theorem FreeDynablock_keeps : ∀ (fuel : Nat) (s : State) (db : Nat) (s' : State),
    FreeDynablock fuel s db = .ok s' → Keeps s s' := by
  intro fuel
  induction fuel with
  | zero => intro s db s' h; simp [FreeDynablock] at h
  | succ fuel ih =>
    intro s db s' h
    simp only [FreeDynablock] at h
    by_cases hdb : db = 0
    · rw [if_pos hdb] at h
      cases h
      exact Keeps_same s
    · rw [if_neg hdb] at h
      obtain ⟨b, hb, h⟩ := bind_eq_ok h
      by_cases hg : b.gone ≠ 0
      · rw [if_pos hg] at h
        cases h
        exact Keeps_same s
      · rw [if_neg hg] at h
        obtain ⟨s2, hu, h⟩ := bind_eq_ok h
        obtain ⟨b2, hb2, h⟩ := bind_eq_ok h
        obtain ⟨s3, hs3, h⟩ := bind_eq_ok h
        have hk1 : Keeps s (s.setBlock db { b with done := 0, gone := 1 }) :=
          Keeps_setBlock (Keeps_same s) db _ (by
            intro b0 hb0
            rw [hb] at hb0
            cases hb0
            rfl)
        have hk3 := FreeDynablock_sons_keeps (FreeDynablock fuel) (fun t q t' => ih t q t') db
          _ _ _ _ hs3
        unfold FreeDynablock_release at h
        obtain ⟨b3, -, h⟩ := bind_eq_ok h
        cases h
        refine Keeps_step hk1 (Keeps_step (FreeDynablock_unlink_keeps hu) (Keeps_step hk3 ?_))
        refine Keeps_emit ?_ _
        by_cases hf : b3.father = 0
        · rw [if_pos hf]
          exact Keeps_emit (Keeps_same s3) _
        · rw [if_neg hf]
          exact Keeps_same s3

theorem internalDBGetBlock_keeps (env : Env)
    (hfill : ∀ t blk fa, Keeps t (env.FillBlock t blk fa)) (fuel : Nat) (s : State)
    (addr filladdr create current : Nat) (r : State × Nat)
    (h : internalDBGetBlock env fuel s addr filladdr create current = .ok r) : Keeps s r.1 := by
  unfold internalDBGetBlock at h
  cases hh : internalDBGetBlock_hint s addr current with
  | error e => rw [hh] at h; cases h
  | ok v =>
    obtain ⟨dyn0, blk0⟩ := v
    rw [hh] at h
    simp only at h
    by_cases hb0 : blk0 ≠ 0
    · rw [if_pos hb0] at h
      cases h
      exact Keeps_same s
    rw [if_neg hb0] at h
    generalize (if (if dyn0 = 0 then getDBFromAddress s addr else dyn0) = 0 then
      env.GetDynablocksFromAddress addr
      else if dyn0 = 0 then getDBFromAddress s addr else dyn0) = dyn2 at h
    by_cases hd2 : dyn2 = 0
    · rw [if_pos hd2] at h
      cases h
      exact Keeps_same s
    rw [if_neg hd2] at h
    cases hl : s.getList dyn2 with
    | error e => rw [hl] at h; cases h
    | ok l =>
      rw [hl] at h
      simp only at h
      cases hr : (if l.direct.isSome = true ∧ l.covers addr then
          s.readDirect dyn2 (subU32 addr l.text) else .ok 0) with
      | error e => rw [hr] at h; cases h
      | ok block =>
        rw [hr] at h
        simp only at h
        by_cases hblk : block ≠ 0
        · rw [if_pos hblk] at h
          cases h
          exact Keeps_same s
        rw [if_neg hblk] at h
        cases ha : AddNewDynablock fuel s dyn2 addr create with
        | error e => rw [ha] at h; cases h
        | ok v2 =>
          obtain ⟨s1, blk, created⟩ := v2
          rw [ha] at h
          simp only at h
          have hk1 : Keeps s s1 := AddNewDynablock_keeps fuel s dyn2 addr create _ ha
          by_cases hc : created = 0
          · rw [if_pos hc] at h
            cases h
            exact hk1
          rw [if_neg hc] at h
          cases hb : s1.getBlock blk with
          | error e => rw [hb] at h; cases h
          | ok b =>
            rw [hb] at h
            simp only at h
            cases h
            refine Keeps_step hk1 (Keeps_step ?_ (hfill _ blk filladdr))
            refine Keeps_emit (Keeps_setBlock (Keeps_same s1) blk _ ?_) _
            intro b0 hb0
            rw [hb] at hb0
            cases hb0
            rfl

theorem internalDBGetBlock_eq (env : Env) (fuel : Nat) (s : State)
    (addr filladdr create current : Nat) :
    internalDBGetBlock env fuel s addr filladdr create current =
      match internalDBGetBlock_hint s addr current with
      | .error e => .error e
      | .ok (dyn0, blk0) =>
        if blk0 ≠ 0 then .ok (s, blk0)
        else internalDBGetBlock_from env fuel s addr filladdr create
          (if (if dyn0 = 0 then getDBFromAddress s addr else dyn0) = 0 then
            env.GetDynablocksFromAddress addr
           else (if dyn0 = 0 then getDBFromAddress s addr else dyn0)) := rfl

theorem internalDBGetBlock_no_hint (env : Env) (fuel : Nat) (s : State)
    (addr filladdr create : Nat) :
    internalDBGetBlock env fuel s addr filladdr create 0 =
      internalDBGetBlock_from env fuel s addr filladdr create (route env s addr) := by
  rw [internalDBGetBlock_eq, internalDBGetBlock_hint_null]
  rfl

theorem internalDBGetBlock_from_hit (env : Env) (fuel : Nat) (s : State)
    (addr filladdr create D : Nat) (l : dynablocklist_t) (hl : s.getList D = .ok l)
    (hsome : l.direct.isSome = true) (hcov : l.covers addr) :
    internalDBGetBlock_from env fuel s addr filladdr create D =
      match s.readDirect D (subU32 addr l.text) with
      | .error e => .error e
      | .ok block =>
        if block ≠ 0 then .ok (s, block)
        else internalDBGetBlock_from env fuel s addr filladdr create D := by
  obtain ⟨hD, -⟩ := getList_ne_zero hl
  cases hr : s.readDirect D (subU32 addr l.text) with
  | error e =>
    unfold internalDBGetBlock_from
    rw [if_neg hD, hl]
    simp only
    rw [if_pos ⟨hsome, hcov⟩, hr]
  | ok block =>
    simp only
    by_cases hb : block ≠ 0
    · rw [if_pos hb]
      unfold internalDBGetBlock_from
      rw [if_neg hD, hl]
      simp only
      rw [if_pos ⟨hsome, hcov⟩, hr]
      simp only
      rw [if_pos hb]
    · rw [if_neg hb]

/-- With a hint that designates a block whose parent, when it covers `addr`, is
the directory of the address-space directory for `addr`, `internalDBGetBlock`
does what it does without hint. -/
theorem internalDBGetBlock_hint_irrelevant (env : Env) (fuel : Nat) (s : State)
    (addr filladdr create current : Nat) (c : dynablock_t) (lc : dynablocklist_t)
    (hc : s.getBlock current = .ok c) (hlc : s.getList c.parent = .ok lc)
    (hroute : lc.covers addr → getDBFromAddress s addr = c.parent) :
    internalDBGetBlock env fuel s addr filladdr create current =
      internalDBGetBlock env fuel s addr filladdr create 0 := by
  obtain ⟨hcur, -⟩ := getBlock_ne_zero hc
  obtain ⟨hpar, -⟩ := getList_ne_zero hlc
  rw [internalDBGetBlock_no_hint, internalDBGetBlock_eq]
  by_cases hcov : lc.covers addr
  · have hc2 : addr ≥ lc.text ∧ addr < (lc.text + lc.textsz) % W32 := hcov
    have hg := hroute hcov
    have hrt : route env s addr = c.parent := by
      unfold route
      rw [hg, if_neg hpar]
    have hdyn2 : (if (if c.parent = 0 then getDBFromAddress s addr else c.parent) = 0 then
        env.GetDynablocksFromAddress addr
        else if c.parent = 0 then getDBFromAddress s addr else c.parent) = c.parent := by
      rw [if_neg hpar, if_neg hpar]
    rw [hrt]
    cases hd : lc.direct with
    | none =>
      have hh : internalDBGetBlock_hint s addr current = .ok (c.parent, 0) := by
        unfold internalDBGetBlock_hint
        rw [if_neg hcur]
        simp only [hc, hlc, bind_ok]
        rw [if_neg (not_not.mpr hc2)]
        simp [hd]
      rw [hh]
      simp only
      rw [hdyn2]
      simp
    | some arr =>
      have hsome : lc.direct.isSome = true := by rw [hd]; rfl
      rw [internalDBGetBlock_from_hit env fuel s addr filladdr create c.parent lc hlc hsome hcov]
      cases hr : s.readDirect c.parent (subU32 addr lc.text) with
      | error e =>
        have hh : internalDBGetBlock_hint s addr current = .error e := by
          unfold internalDBGetBlock_hint
          rw [if_neg hcur]
          simp only [hc, hlc, bind_ok]
          rw [if_neg (not_not.mpr hc2), if_pos ⟨hsome, hc2⟩, hr]
          rfl
        rw [hh]
      | ok block =>
        have hh : internalDBGetBlock_hint s addr current = .ok (c.parent, block) := by
          unfold internalDBGetBlock_hint
          rw [if_neg hcur]
          simp only [hc, hlc, bind_ok]
          rw [if_neg (not_not.mpr hc2), if_pos ⟨hsome, hc2⟩, hr]
          rfl
        rw [hh]
        simp only
        rw [hdyn2]
  · have hc2 : ¬ (addr ≥ lc.text ∧ addr < (lc.text + lc.textsz) % W32) := hcov
    have hh : internalDBGetBlock_hint s addr current = .ok (0, 0) := by
      unfold internalDBGetBlock_hint
      rw [if_neg hcur]
      simp only [hc, hlc, bind_ok]
      rw [if_pos hc2]
    rw [hh]
    rfl

theorem getDBFromAddress_congr {s t : State} (h1 : t.dynmap = s.dynmap)
    (h2 : t.DYNAMAP_SHIFT = s.DYNAMAP_SHIFT) (addr : Nat) :
    getDBFromAddress t addr = getDBFromAddress s addr := by
  unfold getDBFromAddress
  rw [h1, h2]

/-- The hint stays usable along the dispatch path: after steps that keep the
layout, it designates a block with the same parent, of the same range, routed
as before. -/
theorem hint_kept {s t : State} (hk : Keeps s t) {addr current : Nat} {c : dynablock_t}
    {lc : dynablocklist_t} (hc : s.getBlock current = .ok c) (hlc : s.getList c.parent = .ok lc)
    (hroute : lc.covers addr → getDBFromAddress s addr = c.parent) :
    ∃ c2 lc2, t.getBlock current = .ok c2 ∧ t.getList c2.parent = .ok lc2 ∧
      (lc2.covers addr → getDBFromAddress t addr = c2.parent) := by
  obtain ⟨c2, hc2, hp⟩ := hk.blocks current c hc
  obtain ⟨lc2, hlc2, ht, hts⟩ := hk.lists c.parent lc hlc
  refine ⟨c2, lc2, hc2, by rw [hp]; exact hlc2, ?_⟩
  intro hcov
  rw [getDBFromAddress_congr hk.dynmap hk.shift, hp]
  apply hroute
  unfold dynablocklist_t.covers at hcov ⊢
  rw [ht, hts] at hcov
  exact hcov

/-- In the store, where a released block can still be read, `DBGetBlock` gives
the same block and state with a hint as without. For the C program this speaks
of the runs in which the call does not free the hint. -/
theorem DBGetBlock_hint_proj (env : Env) (fuel : Nat) (s : State) (addr create current : Nat)
    (c : dynablock_t) (lc : dynablocklist_t)
    (hc : s.getBlock current = .ok c) (hlc : s.getList c.parent = .ok lc)
    (hroute : lc.covers addr → getDBFromAddress s addr = c.parent)
    (hfill : ∀ t blk fa, Keeps t (env.FillBlock t blk fa)) :
    (DBGetBlock env fuel s addr create current).map (fun r => (r.1, r.2.1)) =
      (DBGetBlock env fuel s addr create 0).map (fun r => (r.1, r.2.1)) := by
  unfold DBGetBlock
  rw [internalDBGetBlock_hint_irrelevant env fuel s addr addr create current c lc hc hlc hroute]
  cases h1 : internalDBGetBlock env fuel s addr addr create 0 with
  | error e => rfl
  | ok r =>
    obtain ⟨s1, db⟩ := r
    have hk1 : Keeps s s1 := internalDBGetBlock_keeps env hfill fuel s addr addr create 0 _ h1
    simp only
    by_cases hdb : db = 0
    · simp only [hdb, if_true]; rfl
    · simp only [hdb, if_false]
      cases h2 : s1.getBlock db with
      | error e => rfl
      | ok b =>
        simp only
        cases h3 : needsTest s1 b with
        | error e => rfl
        | ok t =>
          cases t with
          | false => rfl
          | true =>
            simp only
            cases h4 : s1.getBlock (if b.father ≠ 0 then b.father else db) with
            | error e => rfl
            | ok f =>
              simp only
              by_cases hh : currentHash env f ≠ f.hash
              · rw [if_pos hh, if_pos hh]
                simp only [DBGetBlock_dropCurrent_null]
                obtain ⟨c1, hc1, -⟩ := hk1.blocks current c hc
                obtain ⟨hcur0, -⟩ := getBlock_ne_zero hc
                have hdrop : DBGetBlock_dropCurrent s1 f current = .ok 0 ∨
                    DBGetBlock_dropCurrent s1 f current = .ok current := by
                  unfold DBGetBlock_dropCurrent
                  rw [if_neg hcur0, hc1]
                  simp only
                  by_cases hcond : f.x86_addr ≥ c1.x86_addr ∧
                      (f.x86_addr + f.x86_size) % W32 < c1.x86_addr
                  · rw [if_pos hcond]; exact Or.inl rfl
                  · rw [if_neg hcond]; exact Or.inr rfl
                cases h5 : FreeDynablock fuel s1 (if b.father ≠ 0 then b.father else db) with
                | error e =>
                  rcases hdrop with hd | hd <;> rw [hd]
                | ok s2 =>
                  have hk2 : Keeps s s2 := Keeps_step hk1 (FreeDynablock_keeps _ _ _ _ h5)
                  rcases hdrop with hd | hd
                  · rw [hd]
                  · rw [hd]
                    simp only
                    obtain ⟨c2, lc2, hc2, hlc2, hr2⟩ := hint_kept hk2 hc hlc hroute
                    rw [internalDBGetBlock_hint_irrelevant env fuel s2 addr addr create current
                      c2 lc2 hc2 hlc2 hr2]
                    cases h6 : internalDBGetBlock env fuel s2 addr addr create 0 with
                    | error e => rfl
                    | ok r2 => rfl
              · rw [if_neg hh, if_neg hh]; rfl

/-- Where the hint does not matter: in a state where every directory whose
range contains `addr` is the one the address-space directory returns for
`addr`, and with a hint `current` that designates a block whose parent
designates a directory: `internalDBGetBlock` returns the same block and state
as with a null hint; so does `DBGetBlock` when the hint is a live block that
the call does not free (it is not reached along `sons[]` from the
father-or-self of the block the lookup finds), provided `FillBlock` keeps the
parent of every block, the range of every directory and the address-space
directory; and when the parent of the hint covers `addr` and holds a block `b`
at `addr - text`, `internalDBGetBlock` returns `b` with the state as given,
whatever the address-space directory, the ELF loader and the recursion budget
are. -/
theorem DBGetBlock_hint_irrelevant (env : Env) (fuel : Nat) (s : State)
    (addr filladdr create current : Nat) (c : dynablock_t) (lc : dynablocklist_t)
    (hroute : Routed s addr) (hc : s.getBlock current = .ok c)
    (hlc : s.getList c.parent = .ok lc)
    (hfill : ∀ t blk fa, Keeps t (env.FillBlock t blk fa)) :
    internalDBGetBlock env fuel s addr filladdr create current =
      internalDBGetBlock env fuel s addr filladdr create 0 ∧
    (c.gone = 0 →
      (∀ s1 db b, internalDBGetBlock env fuel s addr addr create 0 = .ok (s1, db) →
        s1.getBlock db = .ok b → ¬ Desc s1 (if b.father ≠ 0 then b.father else db) current) →
      (DBGetBlock env fuel s addr create current).map (fun r => (r.1, r.2.1)) =
        (DBGetBlock env fuel s addr create 0).map (fun r => (r.1, r.2.1))) ∧
    (∀ arr b, lc.covers addr → lc.direct = some arr → arr[addr - lc.text]? = some b → b ≠ 0 →
      ∀ (env2 : Env) (m : List (Option Nat)) (sh fuel2 : Nat),
        internalDBGetBlock env2 fuel2 { s with dynmap := m, DYNAMAP_SHIFT := sh }
          addr filladdr create current =
          .ok ({ s with dynmap := m, DYNAMAP_SHIFT := sh }, b)) := by
  refine ⟨internalDBGetBlock_hint_irrelevant env fuel s addr filladdr create current c lc hc hlc
      (hroute c.parent lc hlc),
    fun _ _ => DBGetBlock_hint_proj env fuel s addr create current c lc hc hlc
      (hroute c.parent lc hlc) hfill, ?_⟩
  intro arr b hcov hd hslot hb env2 m sh fuel2
  obtain ⟨hcur0, -⟩ := getBlock_ne_zero hc
  exact internalDBGetBlock_found env2 fuel2 _ addr filladdr create current c.parent b
    ⟨⟨lc, arr, hlc, hcov, hd, hslot, hb⟩,
     Or.inr ⟨c, lc, hcur0, hc, hlc, Or.inl ⟨hcov, rfl⟩⟩⟩

theorem exFill_keeps (t : State) (blk fa : Nat) : Keeps t (exFill t blk fa) := by
  unfold exFill
  cases h : t.getBlock blk with
  | error e => exact Keeps_same t
  | ok b =>
    refine Keeps_setBlock (Keeps_same t) blk _ ?_
    intro b0 hb0
    rw [h] at hb0
    cases hb0
    rfl

theorem exState6_routed : Routed exState6 17 := by
  intro D l hl _
  cases D with
  | zero => cases hl
  | succ D =>
    cases D with
    | zero => rfl
    | succ D => simp [State.getList, exState6] at hl

theorem Desc_of_no_sons {s : State} {a p : Nat} {b : dynablock_t}
    (hb : s.getBlock a = .ok b) (hs : b.sons = []) (hd : Desc s a p) : p = a := by
  induction hd with
  | self => rfl
  | son _ hp _ hq _ ih =>
    subst ih
    rw [hb] at hp
    cases hp
    rw [hs] at hq
    cases hq

theorem exState12_routed : Routed exState12 17 := by
  intro D l hl _
  cases D with
  | zero => cases hl
  | succ D =>
    cases D with
    | zero => rfl
    | succ D => simp [State.getList, exState12] at hl

/-- Instance on `exState12` at address 17, with the live block 2 as hint: the
call frees the stale block 1 and the hint stays. -/
theorem DBGetBlock_hint_irrelevant_witness :
    internalDBGetBlock exEnv 3 exState12 17 17 1 2 =
      internalDBGetBlock exEnv 3 exState12 17 17 1 0 ∧
    (DBGetBlock exEnv 3 exState12 17 1 2).map (fun r => (r.1, r.2.1)) =
      (DBGetBlock exEnv 3 exState12 17 1 0).map (fun r => (r.1, r.2.1)) ∧
    (∀ arr b, exList12.covers 17 → exList12.direct = some arr →
      arr[17 - exList12.text]? = some b → b ≠ 0 →
      ∀ (env2 : Env) (m : List (Option Nat)) (sh fuel2 : Nat),
        internalDBGetBlock env2 fuel2 { exState12 with dynmap := m, DYNAMAP_SHIFT := sh }
          17 17 1 2 =
          .ok ({ exState12 with dynmap := m, DYNAMAP_SHIFT := sh }, b)) :=
  have h := DBGetBlock_hint_irrelevant exEnv 3 exState12 17 17 1 2 _ exList12 exState12_routed
    rfl rfl exFill_keeps
  ⟨h.1, h.2.1 rfl (by
      intro s1 db b hrun hb hd
      have hrun2 : internalDBGetBlock exEnv 3 exState12 17 17 1 0 = .ok (exState12, 1) := by
        decide
      rw [hrun2] at hrun
      cases hrun
      have hb2 : exState12.getBlock 1 = .ok exStale := rfl
      rw [hb2] at hb
      cases hb
      exact absurd (Desc_of_no_sons (s := exState12) (a := 1) (b := exStale) rfl rfl hd)
        (by decide)), h.2.2⟩

/-- C20 fails on the code: in `exState6` the hint is the stale block 1 itself,
at address 17. The first lookup finds block 1, the test that should reset the
hint leaves it, `FreeDynablock` releases block 1 (`free(1)` is in the trace),
and the lookup is entered again with block 1 as hint: it reads the `parent` of
the released block (the directory 1 it returns comes from there), where the
call with a null hint reads no block at all. -/
theorem DBGetBlock_reenters_with_freed_hint :
    internalDBGetBlock exEnv 2 exState6 17 17 1 1 = .ok (exState6, 1) ∧
    exState6.getBlock 1 = .ok exStale ∧
    currentHash exEnv exStale ≠ exStale.hash ∧
    DBGetBlock_dropCurrent exState6 exStale 1 = .ok 1 ∧
    FreeDynablock 2 exState6 1 = .ok exState6_freed ∧
    Event.free 1 ∈ exState6_freed.trace ∧
    exState6_freed.getBlock 1 = .ok { exStale with gone := 1 } ∧
    internalDBGetBlock_hint exState6_freed 17 1 = .ok (1, 0) ∧
    internalDBGetBlock_hint exState6_freed 17 0 = .ok (0, 0) := by
  decide

/-! ## Invalidation in `DBGetBlock` -/

/-- C11 fails as stated: in `exState10` block 1 is reachable at address 18,
which is not its own address 17; it has `need_test` set and a stale hash.
`DBGetBlock` at address 18 frees it, finds it again in the slot of address 18
and returns it, with `gone = 1`. -/
theorem DBGetBlock_returns_freed_alias :
    exState10.WF ∧ exState10.readDirect 1 (18 - 16) = .ok 1 ∧
    exState10.getBlock 1 = .ok exStale ∧ exStale.need_test = 1 ∧
    currentHash exEnv exStale ≠ exStale.hash ∧
    DBGetBlock exEnv 2 exState10 18 1 0 = .ok (exState10_after, 1, 0) ∧
    exState10_after.getBlock 1 = .ok { exStale with gone := 1 } := by
  decide

theorem AllCleared_trans {s t t' : State} (h1 : Evolves s t) (h2 : Evolves t t')
    (c1 : AllCleared s t) (c2 : AllCleared t t') : AllCleared s t' := by
  intro p bp hp hg hnl
  by_cases hlt : t.live p
  · obtain ⟨bp', hbp', hg'⟩ := hlt
    have := h1.live_back hbp' hg'
    rw [hp] at this
    cases this
    exact c2 p bp hbp' hg hnl
  · exact slotCleared_of_Evolves h2 (c1 p bp hp hg hlt)

theorem AllCleared_congr {s t t1 : State} (c : AllCleared s t) (hl : t1.lists = t.lists)
    (hlive : ∀ p, t1.live p ↔ t.live p) : AllCleared s t1 := by
  intro p bp hp hg hnl
  have := c p bp hp hg (fun h => hnl ((hlive p).mpr h))
  intro parent arr h1 h2 h3
  have hgl : t1.getList bp.parent = t.getList bp.parent := by simp only [State.getList, hl]
  rw [hgl] at h1
  exact this parent arr h1 h2 h3

theorem FreeDynablock_sons_cleared (fuel : Nat)
    (IHx : ∀ t q t', t.WF → q ≤ t.blocks.length → t.liveCount < fuel →
      FreeDynablock fuel t q = .ok t' → AllCleared t t')
    (s : State) (db : Nat) (b : dynablock_t) (hwf : s.WF)
    (hb : s.getBlock db = .ok b) (hg : b.gone = 0) (hfuel : s.liveCount < fuel + 1) :
    ∀ n i t ps, SonsInv s db b i t ps → AllCleared s t →
      i + n = b.sons.length →
      ∀ t', FreeDynablock_sons (FreeDynablock fuel) db n i t = .ok t' →
        ∃ ps', SonsInv s db b b.sons.length t' ps' ∧ AllCleared s t' := by
  intro n
  induction n with
  | zero =>
    intro i t ps hinv hac hlen t' hrun
    have : i = b.sons.length := by omega
    subst this
    cases hrun
    exact ⟨ps, hinv, hac⟩
  | succ n ih =>
    intro i t ps hinv hac hlen t' hrun
    have hi : i < b.sons.length := by omega
    obtain ⟨son, hson⟩ : ∃ son, b.sons[i]? = some son := ⟨b.sons[i], by simp [hi]⟩
    obtain ⟨hxchg, hev1, hown1, hlive1, hwf1, hson_le, hcount1⟩ :=
      SonsInv_xchg hwf hb hg hinv hi hson
    have hcount : (t.setBlock db
        { b with done := 0, gone := 1,
                 sons := List.replicate (i + 1) 0 ++ b.sons.drop (i + 1) }).liveCount < fuel := by omega
    obtain ⟨t2, ps2, hcall, hpost⟩ := FreeDynablock_spec fuel _ son hwf1 hson_le hcount
    have hac2 := IHx _ son t2 hwf1 hson_le hcount hcall
    have hinv2 := SonsInv_round hwf hb hg hinv hi hson hpost
    have hlen_t : (List.replicate i 0 ++ b.sons.drop i).length = b.sons.length := by
      simp; omega
    simp only [FreeDynablock_sons, hinv.own, bind_ok, hlen_t, hi, if_true, hxchg, hcall] at hrun
    have hac1 : AllCleared s (t.setBlock db
        { b with done := 0, gone := 1,
                 sons := List.replicate (i + 1) 0 ++ b.sons.drop (i + 1) }) :=
      AllCleared_congr hac (setBlock_lists _ _ _) hlive1
    exact ih (i + 1) t2 (ps ++ ps2) hinv2 (AllCleared_trans hev1 hpost.ev hac1 hac2)
      (by omega) t' hrun

/-- Every block that `FreeDynablock` frees has its own slot nulled. -/
theorem FreeDynablock_cleared : ∀ (fuel : Nat) (s : State) (db : Nat) (s' : State), s.WF →
    db ≤ s.blocks.length → s.liveCount < fuel → FreeDynablock fuel s db = .ok s' →
    AllCleared s s' := by
  intro fuel
  induction fuel with
  | zero => intro s db s' _ _ h; omega
  | succ fuel IH =>
    intro s db s' hwf hle hfuel hrun
    have hnoop : s' = s → AllCleared s s' := by
      intro h
      subst h
      intro p bp hp hg hnl
      exact absurd ⟨bp, hp, hg⟩ hnl
    by_cases hdb : db = 0
    · subst hdb
      rw [FreeDynablock_null] at hrun
      cases hrun
      exact hnoop rfl
    obtain ⟨b, hb⟩ := getBlock_of_le hdb hle
    by_cases hg : b.gone = 0
    swap
    · rw [FreeDynablock_gone fuel s db b hb hg] at hrun
      cases hrun
      exact hnoop rfl
    have hrel1 : blockRel b { b with done := 0, gone := 1 } :=
      Or.inr ⟨hg, b.sons, slots_refl _, rfl⟩
    have hev1 := Evolves_setBlock (Evolves.refl s) hb _ hrel1
    have hown1 := getBlock_setBlock_same hb { b with done := 0, gone := 1 }
    have hwf1 := WF_of_Evolves hev1 hwf
    obtain ⟨s2, hunlink, hblocks2, htrace2, hev12, hcl2⟩ := FreeDynablock_unlink_spec hwf1 hown1
    have hinv0 := SonsInv_start hb hg hev12 hblocks2 htrace2 hcl2
    have hown2 : s2.getBlock db = .ok { b with done := 0, gone := 1 } := by
      have := hinv0.own
      simpa using this
    have hac0 : AllCleared s s2 := by
      intro p bp hp hgp hnl
      have : p ∈ [db] := (hinv0.mem p).mpr ⟨⟨bp, hp, hgp⟩, hnl⟩
      simp at this
      subst this
      rw [hb] at hp
      cases hp
      exact hinv0.cleared
    obtain ⟨s3, ps3, hloop, -⟩ :=
      FreeDynablock_sons_spec fuel (FreeDynablock_spec fuel) s db b hwf hb hg hfuel
        b.sons.length 0 s2 [] hinv0 (by omega)
    obtain ⟨ps', hinv3, hac3⟩ :=
      FreeDynablock_sons_cleared fuel
        (fun t q t' h1 h2 h3 h4 => IH t q t' h1 h2 h3 h4) s db b hwf hb hg hfuel
        b.sons.length 0 s2 [] hinv0 hac0 (by omega) s3 hloop
    have hown3 := hinv3.own
    rw [sons_progress_done] at hown3
    simp only [FreeDynablock, hdb, hb, hg, bind_ok, if_false, ne_eq,
      not_true_eq_false, hunlink, hown2] at hrun
    have hl1 : ({ b with done := 0, gone := 1 } : dynablock_t).sons.length = b.sons.length := rfl
    rw [hl1, hloop] at hrun
    simp only [bind_ok] at hrun
    rw [FreeDynablock_release_spec hown3] at hrun
    cases hrun
    exact AllCleared_congr hac3 rfl (fun p => Iff.rfl)

/-- With a hint whose parent, when it covers `addr`, is the routed directory,
`internalDBGetBlock` does the long way on the routed directory. -/
theorem internalDBGetBlock_hint_route (env : Env) (fuel : Nat) (s : State)
    (addr filladdr create current : Nat) (c : dynablock_t) (lc : dynablocklist_t)
    (hc : s.getBlock current = .ok c) (hlc : s.getList c.parent = .ok lc)
    (hroute : lc.covers addr → route env s addr = c.parent) :
    internalDBGetBlock env fuel s addr filladdr create current =
      internalDBGetBlock_from env fuel s addr filladdr create (route env s addr) := by
  obtain ⟨hcur, -⟩ := getBlock_ne_zero hc
  obtain ⟨hpar, -⟩ := getList_ne_zero hlc
  rw [internalDBGetBlock_eq]
  by_cases hcov : lc.covers addr
  · have hc2 : addr ≥ lc.text ∧ addr < (lc.text + lc.textsz) % W32 := hcov
    have hrt := hroute hcov
    have hdyn2 : (if (if c.parent = 0 then getDBFromAddress s addr else c.parent) = 0 then
        env.GetDynablocksFromAddress addr
        else if c.parent = 0 then getDBFromAddress s addr else c.parent) = c.parent := by
      rw [if_neg hpar, if_neg hpar]
    rw [hrt]
    cases hd : lc.direct with
    | none =>
      have hh : internalDBGetBlock_hint s addr current = .ok (c.parent, 0) := by
        unfold internalDBGetBlock_hint
        rw [if_neg hcur]
        simp only [hc, hlc, bind_ok]
        rw [if_neg (not_not.mpr hc2)]
        simp [hd]
      rw [hh]
      simp only
      rw [hdyn2]
      simp
    | some arr =>
      have hsome : lc.direct.isSome = true := by rw [hd]; rfl
      rw [internalDBGetBlock_from_hit env fuel s addr filladdr create c.parent lc hlc hsome hcov]
      cases hr : s.readDirect c.parent (subU32 addr lc.text) with
      | error e =>
        have hh : internalDBGetBlock_hint s addr current = .error e := by
          unfold internalDBGetBlock_hint
          rw [if_neg hcur]
          simp only [hc, hlc, bind_ok]
          rw [if_neg (not_not.mpr hc2), if_pos ⟨hsome, hc2⟩, hr]
          rfl
        rw [hh]
      | ok block =>
        have hh : internalDBGetBlock_hint s addr current = .ok (c.parent, block) := by
          unfold internalDBGetBlock_hint
          rw [if_neg hcur]
          simp only [hc, hlc, bind_ok]
          rw [if_neg (not_not.mpr hc2), if_pos ⟨hsome, hc2⟩, hr]
          rfl
        rw [hh]
        simp only
        rw [hdyn2]
  · have hc2 : ¬ (addr ≥ lc.text ∧ addr < (lc.text + lc.textsz) % W32) := hcov
    have hh : internalDBGetBlock_hint s addr current = .ok (0, 0) := by
      unfold internalDBGetBlock_hint
      rw [if_neg hcur]
      simp only [hc, hlc, bind_ok]
      rw [if_pos hc2]
    rw [hh]
    rfl

/-- The long way on a directory that covers `addr` with a null slot there,
with `create = 1`: a new block is installed in the slot, gets `x86_addr = addr`
and is handed to `FillBlock`. -/
theorem internalDBGetBlock_from_create (env : Env) (fuel : Nat) (s : State)
    (addr filladdr X : Nat) (lX : dynablocklist_t) (arr : List Nat)
    (hl : s.getList X = .ok lX) (hcov : lX.covers addr) (hd : lX.direct = some arr)
    (hslot : arr[addr - lX.text]? = some 0) :
    ∃ s4 blk arr4,
      internalDBGetBlock_from env (fuel + 1) s addr filladdr 1 X =
        .ok (env.FillBlock s4 blk filladdr, blk) ∧
      blk ≠ 0 ∧ s.getBlock blk = .error .nullDeref ∧
      s4.getBlock blk = .ok { dynablock_t.zero with parent := X, x86_addr := addr } ∧
      (∀ p, p ≠ blk → s4.getBlock p = s.getBlock p) ∧
      s4.getList X = .ok { lX with direct := some arr4 } ∧
      arr4[addr - lX.text]? = some blk ∧
      (∀ D2, D2 ≠ X → s4.getList D2 = s.getList D2) ∧
      s4.trace = s.trace ++ [Event.FillBlock blk filladdr] := by
  obtain ⟨hX, -⟩ := getList_ne_zero hl
  obtain ⟨hsub, -, -⟩ := covers_sub lX addr hcov
  have hsome : lX.direct.isSome = true := by rw [hd]; rfl
  obtain ⟨s3, blk, arr3, hrun, hb0, hnone, hnewb, hothers, hlist, hslot3, -, hlists, -, -, htr⟩ :=
    AddNewDynablock_inrange_new fuel s X addr 1 lX hl hcov (Or.inr ⟨arr, hd, hslot⟩)
      (by decide)
  have hread : s.readDirect X (subU32 addr lX.text) = .ok 0 := by
    rw [readDirect_eq hl hd, hsub, hslot]
  refine ⟨(s3.setBlock blk { dynablock_t.zero with parent := X, x86_addr := addr }).emit
      (.FillBlock blk filladdr), blk, arr3, ?_, hb0, hnone, ?_, ?_, ?_, hslot3, ?_, ?_⟩
  · rw [internalDBGetBlock_from_hit env (fuel + 1) s addr filladdr 1 X lX hl hsome hcov, hread]
    simp only [ne_eq, not_true_eq_false, if_false]
    unfold internalDBGetBlock_from
    rw [if_neg hX, hl]
    simp only
    rw [if_pos ⟨hsome, hcov⟩, hread]
    simp only [ne_eq, not_true_eq_false, if_false, hrun, hnewb]
    rfl
  · rw [getBlock_emit]
    exact getBlock_setBlock_same hnewb _
  · intro p hp
    rw [getBlock_emit, getBlock_setBlock_ne _ _ hp]
    exact hothers p hp
  · rw [getList_emit, getList_setBlock]
    exact hlist
  · intro D2 hD2
    rw [getList_emit, getList_setBlock]
    exact hlists D2 hD2
  · simp only [State.emit, setBlock_trace, htr]

/-- C11 as amended: in a state with sound pointers, let the lookup of
`DBGetBlock(addr, create = 1, current)` locate the live block `db` in the
directory `X` the address is routed to, at the slot of its own address
(`db.parent = X`, `db.x86_addr = addr`), let `db` or its father have
`need_test` set, and let the father-or-self `F` be live, list `db` among its
sons when `db` is a son, and have a hash that differs from the recomputed one.
Let the hint `current` be null or a live block that the call does not free
(not reached from `F` along `sons[]`). Then, for every recursion budget above
the number of live blocks, the call returns a block `blk` that did not exist
before, distinct from `db` and from `F`; in the state handed to `FillBlock`,
`blk` has `gone = 0`, `parent = X` and `x86_addr = addr` and sits in
`X.direct[addr - text]`, `F` has `gone = 1`, every non-null son of `F` has
`gone` set (to 1 when its flag was 0 or 1 before), and a non-null hint is the
block it was, untouched. -/
theorem DBGetBlock_invalidates (env : Env) (fuel : Nat) (s : State)
    (addr current X db F : Nat) (b bf : dynablock_t)
    (hwf : s.WF) (hfuel : s.liveCount < fuel)
    (hloc : Located env s addr current X db) (hrt : route env s addr = X)
    (hb : s.getBlock db = .ok b) (hpar : b.parent = X) (haddr : b.x86_addr = addr)
    (hlive : b.gone = 0)
    (htest : b.need_test ≠ 0 ∨
      (b.father ≠ 0 ∧ ∃ fb, s.getBlock b.father = .ok fb ∧ fb.need_test ≠ 0))
    (hF : F = if b.father ≠ 0 then b.father else db)
    (hbf : s.getBlock F = .ok bf) (hflive : bf.gone = 0)
    (hson : b.father ≠ 0 → db ∈ bf.sons)
    (hhash : currentHash env bf ≠ bf.hash)
    (hhintlive : current ≠ 0 → s.live current ∧ ¬ Desc s F current) :
    ∃ s4 blk cur1 l4 arr4 bf4,
      DBGetBlock env fuel s addr 1 current = .ok (env.FillBlock s4 blk addr, blk, cur1) ∧
      (cur1 = current ∨ cur1 = 0) ∧
      s.getBlock blk = .error .nullDeref ∧ blk ≠ 0 ∧ blk ≠ db ∧ blk ≠ F ∧
      s4.getBlock blk = .ok { dynablock_t.zero with parent := X, x86_addr := addr } ∧
      s4.getList X = .ok l4 ∧ l4.covers addr ∧ l4.direct = some arr4 ∧
      arr4[addr - l4.text]? = some blk ∧
      s4.getBlock F = .ok bf4 ∧ bf4.gone = 1 ∧
      (∀ q ∈ bf.sons, q ≠ 0 → ∃ bq, s4.getBlock q = .ok bq ∧ bq.gone ≠ 0 ∧
        ∀ bq0, s.getBlock q = .ok bq0 → bq0.gone ≤ 1 → bq.gone = 1) ∧
      (current ≠ 0 → ∃ c, s.getBlock current = .ok c ∧ c.gone = 0 ∧
        s4.getBlock current = .ok c) := by
  obtain ⟨⟨lX, arrX, hlX, hcovX, hdX, hslotX, hdb0⟩, hhint⟩ := hloc
  have hlook := internalDBGetBlock_found env fuel s addr addr 1 current X db
    ⟨⟨lX, arrX, hlX, hcovX, hdX, hslotX, hdb0⟩, hhint⟩
  obtain ⟨hF0, hFget⟩ := getBlock_ne_zero hbf
  have hFle : F ≤ s.blocks.length := by
    have := (List.getElem?_eq_some_iff.mp hFget).1
    omega
  obtain ⟨k, rfl⟩ : ∃ k, fuel = k + 1 := ⟨fuel - 1, by omega⟩
  -- the free
  obtain ⟨s2, ps, hcall, hpost⟩ := FreeDynablock_spec (k + 1) s F hwf hFle hfuel
  have hac := FreeDynablock_cleared (k + 1) s F s2 hwf hFle hfuel hcall
  obtain ⟨hFown, -, hsonsgone⟩ := hpost.own bf hbf hflive
  have hdbdead : ¬ s2.live db := by
    by_cases hfa : b.father ≠ 0
    · rw [if_pos hfa] at hF
      exact hsonsgone db (hson hfa) hdb0
    · rw [if_neg hfa] at hF
      subst hF
      exact hpost.gone hdb0
  have hcl := hac db b hb hlive hdbdead
  -- the directory after the free
  obtain ⟨lX2, hlX2, d2, hdr, hlX2eq⟩ := hpost.ev.list_rel hlX
  rw [hdX] at hdr
  cases d2 with
  | none => simp [directRel] at hdr
  | some arr2 =>
  subst hlX2eq
  have hslot2 : arr2[addr - lX.text]? = some 0 := by
    have := hcl _ arr2 (by rw [hpar]; exact hlX2) rfl (by rw [haddr]; exact hcovX)
    rw [haddr] at this
    exact this
  have hrt2 : route env s2 addr = X := by
    unfold route at hrt ⊢
    rw [getDBFromAddress_congr hpost.ev.dynmap hpost.ev.shift]
    exact hrt
  -- the second lookup
  have hsecond : ∀ cur1, (cur1 = current ∨ cur1 = 0) →
      internalDBGetBlock env (k + 1) s2 addr addr 1 cur1 =
        internalDBGetBlock_from env (k + 1) s2 addr addr 1 X := by
    intro cur1 hcur1
    by_cases h0 : cur1 = 0
    · subst h0
      rw [internalDBGetBlock_no_hint, hrt2]
    · rcases hcur1 with rfl | h
      swap
      · exact absurd h h0
      rcases hhint with ⟨hz, -⟩ | ⟨c, lc, -, hc, hlc, hcase⟩
      · exact absurd hz h0
      · obtain ⟨c2, hc2, hr2⟩ := hpost.ev.block_rel hc
        have hp2 : c2.parent = c.parent := by
          rcases hr2 with hr2 | ⟨-, sons2, -, hr2⟩ <;> (subst hr2; rfl)
        obtain ⟨lc2, hlc2, dd, -, hlc2eq⟩ := hpost.ev.list_rel hlc
        subst hlc2eq
        rw [internalDBGetBlock_hint_route env (k + 1) s2 addr addr 1 cur1 c2 _ hc2
          (by rw [hp2]; exact hlc2) (by
            intro hcov2
            rw [hrt2, hp2]
            rcases hcase with ⟨-, hX⟩ | ⟨hn, -⟩
            · exact hX.symm
            · exact absurd hcov2 hn), hrt2]
  obtain ⟨s4, blk, arr4, hcreate, hblk0, hnone2, hnew4, hothers4, hlist4, hslot4, -, -⟩ :=
    internalDBGetBlock_from_create env k s2 addr addr X _ arr2 hlX2 hcovX rfl hslot2
  have hnone : s.getBlock blk = .error .nullDeref := by
    cases blk with
    | zero => exact absurd rfl hblk0
    | succ i =>
      cases hi : s.blocks[i]? with
      | none => simp [State.getBlock, hi]
      | some x =>
        have hs : s.getBlock (i + 1) = .ok x := by simp [State.getBlock, hi]
        obtain ⟨y, hy, -⟩ := hpost.ev.block_rel hs
        rw [hnone2] at hy
        cases hy
  have hne : ∀ p x, s.getBlock p = .ok x → blk ≠ p := by
    rintro p x hp rfl
    rw [hnone] at hp
    cases hp
  -- the value of `*current`
  have hdrop : ∃ cur1, DBGetBlock_dropCurrent s bf current = .ok cur1 ∧
      (cur1 = current ∨ cur1 = 0) := by
    by_cases h0 : current = 0
    · subst h0
      exact ⟨0, DBGetBlock_dropCurrent_null s bf, Or.inl rfl⟩
    · rcases hhint with ⟨hz, -⟩ | ⟨c, lc, -, hc, -, -⟩
      · exact absurd hz h0
      · unfold DBGetBlock_dropCurrent
        rw [if_neg h0, hc]
        simp only
        by_cases hcond : bf.x86_addr ≥ c.x86_addr ∧
            (bf.x86_addr + bf.x86_size) % W32 < c.x86_addr
        · rw [if_pos hcond]; exact ⟨0, rfl, Or.inr rfl⟩
        · rw [if_neg hcond]; exact ⟨current, rfl, Or.inl rfl⟩
  obtain ⟨cur1, hdropeq, hcur1⟩ := hdrop
  have hFne : blk ≠ F := hne F bf hbf
  refine ⟨s4, blk, cur1, _, arr4,
    { bf with done := 0, gone := 1, sons := List.replicate bf.sons.length 0 }, ?_, hcur1, hnone, hblk0, hne db b hb, hFne, hnew4, hlist4,
    hcovX, rfl, hslot4, ?_, rfl, ?_, ?_⟩
  · subst hF
    simp only [DBGetBlock, hlook, hdb0, if_false, hb, needsTest_of s b htest, hbf]
    rw [if_pos hhash, hdropeq]
    simp only [hcall]
    rw [hsecond cur1 hcur1, hcreate]
  · rw [hothers4 F (Ne.symm hFne)]
    exact hFown
  · intro q hq hq0
    obtain ⟨hqle⟩ : q ≤ s.blocks.length ∧ True :=
      ⟨(hwf.1 bf (List.getElem?_mem hFget)).2 q hq, trivial⟩
    obtain ⟨bq0, hbq0⟩ := getBlock_of_le hq0 hqle
    obtain ⟨bq, hbq, hr⟩ := hpost.ev.block_rel hbq0
    have hdead := hsonsgone q hq hq0
    have hg : bq.gone ≠ 0 := fun h0 => hdead ⟨bq, hbq, h0⟩
    refine ⟨bq, ?_, hg, ?_⟩
    · rw [hothers4 q (Ne.symm (hne q bq0 hbq0))]
      exact hbq
    · intro x hx hflag
      rw [hbq0] at hx
      cases hx
      rcases hr with hr | ⟨-, sons2, -, hr⟩
      · subst hr; omega
      · subst hr; rfl
  · intro hc0
    obtain ⟨⟨c, hc, hcg⟩, hnd⟩ := hhintlive hc0
    refine ⟨c, hc, hcg, ?_⟩
    rw [hothers4 current (Ne.symm (hne current c hc))]
    exact hpost.untouched hc hnd

/-- Instance of amended C11: the stale block at address 17 of `exState12`,
looked up with the live block 2 as hint. -/
theorem DBGetBlock_invalidates_witness :
    ∃ s4 blk cur1 l4 arr4 bf4,
      DBGetBlock exEnv 3 exState12 17 1 2 = .ok (exEnv.FillBlock s4 blk 17, blk, cur1) ∧
      (cur1 = 2 ∨ cur1 = 0) ∧
      exState12.getBlock blk = .error .nullDeref ∧ blk ≠ 0 ∧ blk ≠ 1 ∧ blk ≠ 1 ∧
      s4.getBlock blk = .ok { dynablock_t.zero with parent := 1, x86_addr := 17 } ∧
      s4.getList 1 = .ok l4 ∧ l4.covers 17 ∧ l4.direct = some arr4 ∧
      arr4[17 - l4.text]? = some blk ∧
      s4.getBlock 1 = .ok bf4 ∧ bf4.gone = 1 ∧
      (∀ q ∈ exStale.sons, q ≠ 0 → ∃ bq, s4.getBlock q = .ok bq ∧ bq.gone ≠ 0 ∧
        ∀ bq0, exState12.getBlock q = .ok bq0 → bq0.gone ≤ 1 → bq.gone = 1) ∧
      (2 ≠ 0 → ∃ c, exState12.getBlock 2 = .ok c ∧ c.gone = 0 ∧ s4.getBlock 2 = .ok c) :=
  DBGetBlock_invalidates exEnv 3 exState12 17 2 1 1 1 exStale exStale (by decide) (by decide)
    ⟨⟨exList12, [0, 1, 0, 2], rfl, by decide, rfl, by decide, by decide⟩,
      Or.inr ⟨_, exList12, by decide, rfl, rfl, Or.inl ⟨by decide, rfl⟩⟩⟩
    (by decide) rfl rfl rfl rfl (Or.inl (by decide)) (by decide) rfl rfl (by decide) (by decide)
    (fun _ => ⟨⟨_, rfl, rfl⟩, fun hd => absurd (Desc_of_no_sons (s := exState12) (a := 1) (b := exStale) rfl rfl hd)
      (by decide)⟩)

/-! ## Collisions of the hash -/

theorem X31_hash_code_eq_specHash (mem : Nat → Nat) (addr m : Nat) :
    X31_hash_code mem addr (m + 1) = specHash mem addr m := by
  unfold X31_hash_code
  simp only [Nat.add_one_ne_zero, if_false, Nat.add_sub_cancel]
  have := X31_loop_spec mem addr m 0 ((readU8 mem addr : Nat) : Int) (by rw [toU32_readU8]; rfl)
  simpa using this

theorem specHash_collide (m1 m2 : Nat → Nat) (a : Nat)
    (h10 : readU8 m1 a = 0) (h11 : readU8 m1 (a + 1) = 31)
    (h20 : readU8 m2 a = 1) (h21 : readU8 m2 (a + 1) = 0) :
    ∀ k, (∀ i, 2 ≤ i → i < k + 2 → readU8 m1 (a + i) = readU8 m2 (a + i)) →
      specHash m1 a (k + 1) = specHash m2 a (k + 1) := by
  intro k
  induction k with
  | zero =>
    intro _
    simp only [specHash, h10, h11, h20, h21]
  | succ k ih =>
    intro hrest
    have hk := ih (fun i h1 h2 => hrest i h1 (by omega))
    have hb := hrest (k + 1 + 1) (by omega) (by omega)
    show (31 * specHash m1 a (k + 1) + readU8 m1 (a + (k + 1 + 1))) % W32 =
      (31 * specHash m2 a (k + 1) + readU8 m2 (a + (k + 1 + 1))) % W32
    rw [hk, hb]

theorem DBGetBlock_hash_equal_run (env : Env) (fuel : Nat) (s : State)
    (addr create current X db : Nat) (b f : dynablock_t)
    (hloc : Located env s addr current X db) (hb : s.getBlock db = .ok b)
    (htest : b.need_test ≠ 0 ∨
      (b.father ≠ 0 ∧ ∃ fb, s.getBlock b.father = .ok fb ∧ fb.need_test ≠ 0))
    (hf : s.getBlock (if b.father ≠ 0 then b.father else db) = .ok f)
    (hcur : currentHash env f = f.hash) :
    DBGetBlock env fuel s addr create current =
      .ok ((s.setBlock (if b.father ≠ 0 then b.father else db) { f with need_test := 0 }).emit
        (.protectDB f.x86_addr f.x86_size), db, current) := by
  have hdb : db ≠ 0 := hloc.1.choose_spec.choose_spec.2.2.2.2
  have hlook := internalDBGetBlock_found env fuel s addr addr create current X db hloc
  simp only [DBGetBlock, hlook, hdb, if_false, hb, needsTest_of s b htest, hf, hcur, ne_eq,
    not_true_eq_false]

/-- C21: `X31_hash_code` is not injective on byte sequences of equal length.
Two memories that hold `0, 31` and `1, 0` at `a, a+1` and the same bytes on the
rest of `[a, a+n)`, `n >= 2`, have different bytes and the same hash (31 when
`n = 2`). Consequently, when the lookup of `DBGetBlock` locates `db`, `db` or
its father has `need_test` set, and the father-or-self `f` is a `nolinker`
block over `[a, a+n)` whose stored hash is that of the first memory while the
guest memory now holds the second: the call returns `db`, `f` keeps every
field but `need_test`, which is 0 (so `gone` is as before), every other block
and every directory is unchanged, and the only call added to the trace is
`protectDB`: nothing is freed. -/
theorem X31_hash_code_collides (old : Nat → Nat) (env : Env) (a n : Nat) (hn : 2 ≤ n)
    (h10 : readU8 old a = 0) (h11 : readU8 old (a + 1) = 31)
    (h20 : readU8 env.mem a = 1) (h21 : readU8 env.mem (a + 1) = 0)
    (hrest : ∀ i, 2 ≤ i → i < n → readU8 old (a + i) = readU8 env.mem (a + i)) :
    readU8 old a ≠ readU8 env.mem a ∧
    X31_hash_code old a n = X31_hash_code env.mem a n ∧
    (n = 2 → X31_hash_code old a n = 31) ∧
    ∀ (fuel : Nat) (s : State) (addr create current X db father : Nat) (b f : dynablock_t),
      Located env s addr current X db → s.getBlock db = .ok b →
      (b.need_test ≠ 0 ∨
        (b.father ≠ 0 ∧ ∃ fb, s.getBlock b.father = .ok fb ∧ fb.need_test ≠ 0)) →
      father = (if b.father ≠ 0 then b.father else db) → s.getBlock father = .ok f →
      f.nolinker ≠ 0 → f.x86_addr = a → f.x86_size = n → f.hash = X31_hash_code old a n →
      ∃ s', DBGetBlock env fuel s addr create current = .ok (s', db, current) ∧
        s'.getBlock father = .ok { f with need_test := 0 } ∧
        (∀ p, p ≠ father → s'.getBlock p = s.getBlock p) ∧
        s'.lists = s.lists ∧
        s'.trace = s.trace ++ [Event.protectDB f.x86_addr f.x86_size] := by
  obtain ⟨k, rfl⟩ : ∃ k, n = k + 2 := ⟨n - 2, by omega⟩
  have hcol : X31_hash_code old a (k + 2) = X31_hash_code env.mem a (k + 2) := by
    rw [X31_hash_code_eq_specHash, X31_hash_code_eq_specHash]
    exact specHash_collide old env.mem a h10 h11 h20 h21 k hrest
  refine ⟨by rw [h10, h20]; decide, hcol, ?_, ?_⟩
  · intro h2
    have hk : k = 0 := by omega
    subst hk
    rw [X31_hash_code_eq_specHash]
    simp only [specHash, h10, h11]
    decide
  · intro fuel s addr create current X db father b f hloc hb htest hfather hf hnl hfa hfs hhash
    subst hfather
    have hcur : currentHash env f = f.hash := by
      unfold currentHash
      rw [if_pos hnl, hfa, hfs, hhash, hcol]
    refine ⟨_, DBGetBlock_hash_equal_run env fuel s addr create current X db b f hloc hb htest
      hf hcur, ?_, ?_, ?_, ?_⟩
    · rw [getBlock_emit]; exact getBlock_setBlock_same hf _
    · intro p hp
      rw [getBlock_emit]; exact getBlock_setBlock_ne s _ hp
    · exact setBlock_lists _ _ _
    · simp only [State.emit, setBlock_trace]

/-- Instance of C21: the block of `exState11` was translated from the bytes
`0, 31`; the memory now holds `1, 0`, and `DBGetBlock` validates the block. -/
theorem X31_hash_code_collides_witness :
    readU8 exMemOld 17 ≠ readU8 exEnvNew.mem 17 ∧
    X31_hash_code exMemOld 17 2 = X31_hash_code exEnvNew.mem 17 2 ∧
    (2 = 2 → X31_hash_code exMemOld 17 2 = 31) ∧
    ∀ (fuel : Nat) (s : State) (addr create current X db father : Nat) (b f : dynablock_t),
      Located exEnvNew s addr current X db → s.getBlock db = .ok b →
      (b.need_test ≠ 0 ∨
        (b.father ≠ 0 ∧ ∃ fb, s.getBlock b.father = .ok fb ∧ fb.need_test ≠ 0)) →
      father = (if b.father ≠ 0 then b.father else db) → s.getBlock father = .ok f →
      f.nolinker ≠ 0 → f.x86_addr = 17 → f.x86_size = 2 → f.hash = X31_hash_code exMemOld 17 2 →
      ∃ s', DBGetBlock exEnvNew fuel s addr create current = .ok (s', db, current) ∧
        s'.getBlock father = .ok { f with need_test := 0 } ∧
        (∀ p, p ≠ father → s'.getBlock p = s.getBlock p) ∧
        s'.lists = s.lists ∧
        s'.trace = s.trace ++ [Event.protectDB f.x86_addr f.x86_size] :=
  X31_hash_code_collides exMemOld exEnvNew 17 2 (by decide) (by decide) (by decide) (by decide)
    (by decide) (fun i h1 h2 => absurd h1 (by omega))

/-- The run of the instance: `DBGetBlock` at address 17 of `exState11`, whose
block holds the hash of the old bytes, returns block 1 with `need_test`
cleared, `gone = 0`, and asks for `protectDB(17, 2)` only. -/
theorem DBGetBlock_collision_run :
    X31_hash_code exMemOld 17 2 = 31 ∧ X31_hash_code exMemNew 17 2 = 31 ∧
    DBGetBlock exEnvNew 2 exState11 17 1 0 =
      .ok ({ exState11 with
              blocks := [{ exCollide with need_test := 0 }]
              trace := [Event.protectDB 17 2] }, 1, 0) := by
  decide

/-! ## Index bounds of the accesses to `direct` -/

theorem getBlock_error {s : State} {p : Nat} {e : Fault} (h : s.getBlock p = .error e) :
    e = .nullDeref := by
  cases p with
  | zero => simp only [State.getBlock] at h; cases h; rfl
  | succ i =>
    simp only [State.getBlock] at h
    cases hi : s.blocks[i]? with
    | none => rw [hi] at h; cases h; rfl
    | some x => rw [hi] at h; cases h

theorem getList_error {s : State} {p : Nat} {e : Fault} (h : s.getList p = .error e) :
    e = .nullDeref := by
  cases p with
  | zero => simp only [State.getList] at h; cases h; rfl
  | succ i =>
    simp only [State.getList] at h
    cases hi : s.lists[i]? with
    | none => rw [hi] at h; cases h; rfl
    | some x => rw [hi] at h; cases h

/-- An access to `direct[idx]` faults as out of bounds exactly when `idx` is
not below the number of slots. -/
theorem readDirect_oob_iff {s : State} {D : Nat} {l : dynablocklist_t} {arr : List Nat}
    (hl : s.getList D = .ok l) (hd : l.direct = some arr) (idx v : Nat) :
    (s.readDirect D idx = .error .outOfBounds ↔ arr.length ≤ idx) ∧
    (s.writeDirect D idx v = .error .outOfBounds ↔ arr.length ≤ idx) := by
  constructor
  · rw [readDirect_eq hl hd]
    constructor
    · intro h
      by_contra hlt
      have : arr[idx]? = some arr[idx] := List.getElem?_eq_getElem (by omega)
      rw [this] at h
      cases h
    · intro h
      rw [List.getElem?_eq_none h]
  · constructor
    · intro h
      by_contra hlt
      rw [writeDirect_eq hl hd (by omega)] at h
      cases h
    · intro h
      have : ¬ idx < arr.length := by omega
      simp only [State.writeDirect, hl, bind_ok, hd, this, if_false]

theorem bind_ne_oob {α β : Type} {x : Except Fault α} {f : α → Except Fault β}
    (hx : x ≠ .error .outOfBounds) (hf : ∀ a, x = .ok a → f a ≠ .error .outOfBounds) :
    (x >>= f) ≠ .error .outOfBounds := by
  cases x with
  | error e =>
    intro h
    rw [bind_error] at h
    cases h
    exact hx rfl
  | ok a => exact hf a rfl

theorem getBlock_ne_oob (s : State) (p : Nat) : s.getBlock p ≠ .error .outOfBounds := by
  intro h
  have := getBlock_error h
  cases this

theorem getList_ne_oob (s : State) (p : Nat) : s.getList p ≠ .error .outOfBounds := by
  intro h
  have := getList_error h
  cases this

theorem Shaped_of_lists {s t : State} (h : t.lists = s.lists) (hs : Shaped s) : Shaped t := by
  intro D l arr hl hd
  have : t.getList D = s.getList D := by simp only [State.getList, h]
  rw [this] at hl
  exact hs D l arr hl hd

theorem Shaped_writeDirect {s t : State} {D idx v : Nat} (hs : Shaped s)
    (hw : s.writeDirect D idx v = .ok t) : Shaped t := by
  unfold State.writeDirect at hw
  obtain ⟨l, hl, hw⟩ := bind_eq_ok hw
  cases hd : l.direct with
  | none => rw [hd] at hw; cases hw
  | some arr =>
    rw [hd] at hw
    by_cases hi : idx < arr.length
    · simp only [hi, if_true] at hw
      cases hw
      intro D2 l2 arr2 hl2 hd2
      by_cases hDD : D2 = D
      · subst hDD
        rw [getList_setList_same hl] at hl2
        cases hl2
        simp only [Option.some.injEq] at hd2
        subst hd2
        rw [List.length_set]
        exact hs D2 l arr hl hd
      · rw [getList_setList_ne s _ hDD] at hl2
        exact hs D2 l2 arr2 hl2 hd2
    · simp only [hi, if_false] at hw
      cases hw

theorem MarkDynablock_ne_oob (s : State) (db : Nat) :
    MarkDynablock s db ≠ .error .outOfBounds ∧
    ∀ s', MarkDynablock s db = .ok s' → s'.lists = s.lists := by
  unfold MarkDynablock
  by_cases hdb : db = 0
  · rw [if_pos hdb]
    exact ⟨(by intro h; cases h), fun s' h => by cases h; rfl⟩
  · rw [if_neg hdb]
    constructor
    · refine bind_ne_oob (getBlock_ne_oob s db) (fun b _ => ?_)
      refine bind_ne_oob (getBlock_ne_oob s _) (fun f _ => ?_)
      by_cases hn : f.nolinker ≠ 0
      · rw [if_pos hn]; intro h; cases h
      · rw [if_neg hn]; intro h; cases h
    · intro s' h
      obtain ⟨b, -, h⟩ := bind_eq_ok h
      obtain ⟨f, -, h⟩ := bind_eq_ok h
      by_cases hn : f.nolinker ≠ 0
      · rw [if_pos hn] at h
        cases h
        exact setBlock_lists _ _ _
      · rw [if_neg hn] at h
        cases h
        rfl

theorem MarkDirectDynablock_loop_ne_oob (D : Nat) (l : dynablocklist_t) (arr : List Nat)
    (hd : l.direct = some arr) :
    ∀ n i s, s.getList D = .ok l →
      (∀ j, i ≤ j → j < i + n → l.text ≤ j ∧ j < W32 ∧ j - l.text < arr.length) →
      MarkDirectDynablock_loop D l.text n i s ≠ .error .outOfBounds := by
  intro n
  induction n with
  | zero => intro i s _ _ h; cases h
  | succ n ih =>
    intro i s hl hidx
    obtain ⟨h1, h2, h3⟩ := hidx i (Nat.le_refl _) (by omega)
    simp only [MarkDirectDynablock_loop]
    have hread : s.readDirect D (subU32 i l.text) = .ok arr[i - l.text] := by
      rw [readDirect_eq hl hd, subU32_eq _ _ h1 h2, List.getElem?_eq_getElem h3]
    rw [hread, bind_ok]
    by_cases hdb : arr[i - l.text] ≠ 0
    · rw [if_pos hdb]
      obtain ⟨hne, hlists⟩ := MarkDynablock_ne_oob s arr[i - l.text]
      refine bind_ne_oob hne (fun s1 hs1 => ?_)
      refine ih (i + 1) s1 ?_ (fun j hj1 hj2 => hidx j (by omega) (by omega))
      have : s1.getList D = s.getList D := by simp only [State.getList, hlists s1 hs1]
      rw [this]; exact hl
    · rw [if_neg hdb, bind_ok]
      exact ih (i + 1) s hl (fun j hj1 hj2 => hidx j (by omega) (by omega))

theorem MarkDirectDynablock_ne_oob (s : State) (D addr size : Nat) (l : dynablocklist_t)
    (arr : List Nat) (hl : s.getList D = .ok l) (hd : l.direct = some arr)
    (hlen : arr.length = l.textsz) :
    MarkDirectDynablock s D addr size ≠ .error .outOfBounds := by
  obtain ⟨hD, -⟩ := getList_ne_zero hl
  have hle : (l.text + l.textsz) % W32 ≤ l.text + l.textsz := Nat.mod_le _ _
  have hW : (l.text + l.textsz) % W32 < W32 := Nat.mod_lt _ (by unfold W32; omega)
  unfold MarkDirectDynablock
  rw [if_neg hD, hl, bind_ok]
  by_cases hn : l.nolinker = 0
  · rw [if_pos hn]; intro h; cases h
  · rw [if_neg hn]
    simp only
    split_ifs with h1 h2 h3 h3 h2 h3 h3 <;>
      first
      | (intro h; cases h)
      | (refine MarkDirectDynablock_loop_ne_oob D l arr hd _ _ s hl ?_
         intro j hj1 hj2
         refine ⟨by omega, by omega, by omega⟩)

theorem FreeDynablock_unlink_ne_oob {t : State} (hs : Shaped t) (db : Nat) :
    FreeDynablock_unlink t db ≠ .error .outOfBounds ∧
    ∀ t2, FreeDynablock_unlink t db = .ok t2 → Shaped t2 := by
  unfold FreeDynablock_unlink
  constructor
  · refine bind_ne_oob (getBlock_ne_oob t db) (fun b _ => ?_)
    refine bind_ne_oob (getList_ne_oob t _) (fun parent hp => ?_)
    cases hpd : parent.direct with
    | none => simp only [Option.isSome_none, Bool.false_eq_true, if_false]; intro h; cases h
    | some arr =>
      simp only [Option.isSome_some, if_true]
      by_cases hc : b.x86_addr ≥ parent.text ∧ b.x86_addr < (parent.text + parent.textsz) % W32
      · rw [if_pos hc]
        obtain ⟨hsub, hlt, -⟩ := covers_sub parent b.x86_addr hc
        have hlen := hs _ parent arr hp hpd
        rw [hsub, writeDirect_eq hp hpd (by omega)]
        intro h; cases h
      · rw [if_neg hc]; intro h; cases h
  · intro t2 h
    obtain ⟨b, -, h⟩ := bind_eq_ok h
    obtain ⟨parent, -, h⟩ := bind_eq_ok h
    by_cases hsome : parent.direct.isSome = true
    · simp only [hsome, if_true] at h
      by_cases hc : b.x86_addr ≥ parent.text ∧ b.x86_addr < (parent.text + parent.textsz) % W32
      · rw [if_pos hc] at h
        exact Shaped_writeDirect hs h
      · rw [if_neg hc] at h
        cases h
        exact hs
    · simp only [hsome] at h
      cases h
      exact hs

theorem FreeDynablock_sons_ne_oob (rec : State → Nat → Except Fault State)
    (hrec : ∀ t q, Shaped t → rec t q ≠ .error .outOfBounds ∧
      ∀ t', rec t q = .ok t' → Shaped t') (db : Nat) :
    ∀ n i t, Shaped t → FreeDynablock_sons rec db n i t ≠ .error .outOfBounds ∧
      ∀ t', FreeDynablock_sons rec db n i t = .ok t' → Shaped t' := by
  intro n
  induction n with
  | zero =>
    intro i t hs
    exact ⟨(by intro h; cases h), fun t' h => by cases h; exact hs⟩
  | succ n ih =>
    intro i t hs
    have hx : ∀ b, t.getBlock db = .ok b → i < b.sons.length →
        ∃ son, arm_lock_xchg_son t db i 0 =
          .ok (son, t.setBlock db { b with sons := b.sons.set i 0 }) := by
      intro b hb hi
      refine ⟨b.sons[i], ?_⟩
      simp only [arm_lock_xchg_son, hb, bind_ok, List.getElem?_eq_getElem hi]
    simp only [FreeDynablock_sons]
    constructor
    · refine bind_ne_oob (getBlock_ne_oob t db) (fun b hb => ?_)
      by_cases hi : i < b.sons.length
      · rw [if_pos hi]
        obtain ⟨son, hxs⟩ := hx b hb hi
        rw [hxs, bind_ok]
        have hs1 : Shaped (t.setBlock db { b with sons := b.sons.set i 0 }) :=
          Shaped_of_lists (setBlock_lists _ _ _) hs
        obtain ⟨hne, hsh⟩ := hrec _ son hs1
        refine bind_ne_oob hne (fun t2 ht2 => ?_)
        exact (ih (i + 1) t2 (hsh t2 ht2)).1
      · rw [if_neg hi]; intro h; cases h
    · intro t' h
      obtain ⟨b, hb, h⟩ := bind_eq_ok h
      by_cases hi : i < b.sons.length
      · rw [if_pos hi] at h
        obtain ⟨son, hxs⟩ := hx b hb hi
        rw [hxs, bind_ok] at h
        have hs1 : Shaped (t.setBlock db { b with sons := b.sons.set i 0 }) :=
          Shaped_of_lists (setBlock_lists _ _ _) hs
        obtain ⟨t2, ht2, h⟩ := bind_eq_ok h
        exact (ih (i + 1) t2 ((hrec _ son hs1).2 t2 ht2)).2 t' h
      · rw [if_neg hi] at h
        cases h
        exact hs

theorem FreeDynablock_ne_oob : ∀ (fuel : Nat) (s : State) (db : Nat), Shaped s →
    FreeDynablock fuel s db ≠ .error .outOfBounds ∧
    ∀ s', FreeDynablock fuel s db = .ok s' → Shaped s' := by
  intro fuel
  induction fuel with
  | zero =>
    intro s db _
    exact ⟨(by intro h; cases h), fun s' h => by cases h⟩
  | succ fuel ih =>
    intro s db hs
    simp only [FreeDynablock]
    by_cases hdb : db = 0
    · rw [if_pos hdb]
      exact ⟨(by intro h; cases h), fun s' h => by cases h; exact hs⟩
    rw [if_neg hdb]
    have hs1 : ∀ b : dynablock_t, Shaped (s.setBlock db { b with done := 0, gone := 1 }) :=
      fun b => Shaped_of_lists (setBlock_lists _ _ _) hs
    have hrel : ∀ (s3 : State), Shaped s3 →
        FreeDynablock_release s3 db ≠ .error .outOfBounds ∧
        ∀ s', FreeDynablock_release s3 db = .ok s' → Shaped s' := by
      intro s3 hs3
      unfold FreeDynablock_release
      constructor
      · refine bind_ne_oob (getBlock_ne_oob s3 db) (fun b3 _ => ?_)
        intro h; cases h
      · intro s' h
        obtain ⟨b3, -, h⟩ := bind_eq_ok h
        cases h
        by_cases hf : b3.father = 0
        · rw [if_pos hf]; exact Shaped_of_lists rfl hs3
        · rw [if_neg hf]; exact Shaped_of_lists rfl hs3
    constructor
    · refine bind_ne_oob (getBlock_ne_oob s db) (fun b _ => ?_)
      by_cases hg : b.gone ≠ 0
      · rw [if_pos hg]; intro h; cases h
      · rw [if_neg hg]
        obtain ⟨hu1, hu2⟩ := FreeDynablock_unlink_ne_oob (hs1 b) db
        refine bind_ne_oob hu1 (fun s2 hs2 => ?_)
        refine bind_ne_oob (getBlock_ne_oob s2 db) (fun b2 _ => ?_)
        obtain ⟨hl1, hl2⟩ := FreeDynablock_sons_ne_oob (FreeDynablock fuel) ih db
          b2.sons.length 0 s2 (hu2 s2 hs2)
        refine bind_ne_oob hl1 (fun s3 hs3 => ?_)
        exact (hrel s3 (hl2 s3 hs3)).1
    · intro s' h
      obtain ⟨b, -, h⟩ := bind_eq_ok h
      by_cases hg : b.gone ≠ 0
      · rw [if_pos hg] at h
        cases h
        exact hs
      · rw [if_neg hg] at h
        obtain ⟨s2, hs2, h⟩ := bind_eq_ok h
        obtain ⟨b2, -, h⟩ := bind_eq_ok h
        obtain ⟨s3, hs3, h⟩ := bind_eq_ok h
        have hsh2 := (FreeDynablock_unlink_ne_oob (hs1 b) db).2 s2 hs2
        have hsh3 := (FreeDynablock_sons_ne_oob (FreeDynablock fuel) ih db
          b2.sons.length 0 s2 hsh2).2 s3 hs3
        exact (hrel s3 hsh3).2 s' h

theorem FreeRangeDynablock_collect_ne_oob (D text N : Nat) :
    ∀ n i s blocks, Shaped s →
      (∃ l arr, s.getList D = .ok l ∧ l.direct = some arr ∧ arr.length = N) →
      (∀ j, i ≤ j → j < i + n → text ≤ j ∧ j < W32 ∧ j - text < N) →
      FreeRangeDynablock_collect D text n i s blocks ≠ .error .outOfBounds ∧
      ∀ r, FreeRangeDynablock_collect D text n i s blocks = .ok r → Shaped r.1 := by
  intro n
  induction n with
  | zero =>
    intro i s blocks hs _ _
    exact ⟨(by intro h; cases h), fun r h => by cases h; exact hs⟩
  | succ n ih =>
    intro i s blocks hs hD hidx
    obtain ⟨l, arr, hl, hd, hlen⟩ := hD
    obtain ⟨h1, h2, h3⟩ := hidx i (Nat.le_refl _) (by omega)
    have hi : i - text < arr.length := by omega
    have hw := writeDirect_eq (v := 0) hl hd hi
    have hx : arm_lock_xchg_direct s D (subU32 i text) 0 =
        .ok (arr[i - text], s.setList D { l with direct := some (arr.set (i - text) 0) }) := by
      simp only [arm_lock_xchg_direct, subU32_eq _ _ h1 h2, readDirect_eq hl hd,
        List.getElem?_eq_getElem hi, bind_ok, hw]
    have hs1 : Shaped (s.setList D { l with direct := some (arr.set (i - text) 0) }) :=
      Shaped_writeDirect hs hw
    have hD1 : ∃ l1 arr1, (s.setList D { l with direct := some (arr.set (i - text) 0) }).getList D
        = .ok l1 ∧ l1.direct = some arr1 ∧ arr1.length = N :=
      ⟨_, _, getList_setList_same hl _, rfl, by rw [List.length_set]; exact hlen⟩
    have hnext : ∀ bl, FreeRangeDynablock_collect D text n (i + 1)
          (s.setList D { l with direct := some (arr.set (i - text) 0) }) bl
          ≠ .error .outOfBounds ∧
        ∀ r, FreeRangeDynablock_collect D text n (i + 1)
          (s.setList D { l with direct := some (arr.set (i - text) 0) }) bl = .ok r →
          Shaped r.1 :=
      fun bl => ih (i + 1) _ bl hs1 hD1 (fun j hj1 hj2 => hidx j (by omega) (by omega))
    simp only [FreeRangeDynablock_collect, hx, bind_ok]
    by_cases hdb : arr[i - text] ≠ 0
    · rw [if_pos hdb]
      constructor
      · refine bind_ne_oob (getBlock_ne_oob _ _) (fun b _ => ?_)
        exact (hnext _).1
      · intro r h
        obtain ⟨b, -, h⟩ := bind_eq_ok h
        exact (hnext _).2 r h
    · rw [if_neg hdb]
      exact hnext blocks

theorem FreeRangeDynablock_purge_ne_oob (fuel : Nat) :
    ∀ (blocks : List Nat) (s : State), Shaped s →
      FreeRangeDynablock_purge fuel blocks s ≠ .error .outOfBounds := by
  intro blocks
  induction blocks with
  | nil => intro s _ h; cases h
  | cons f rest ih =>
    intro s hs
    simp only [FreeRangeDynablock_purge]
    obtain ⟨h1, h2⟩ := FreeDynablock_ne_oob fuel s f hs
    exact bind_ne_oob h1 (fun s1 hs1 => ih s1 (h2 s1 hs1))

theorem FreeRangeDynablock_ne_oob (fuel : Nat) (s : State) (D addr size : Nat) (hs : Shaped s) :
    FreeRangeDynablock fuel s D addr size ≠ .error .outOfBounds := by
  unfold FreeRangeDynablock
  by_cases hD : D = 0
  · rw [if_pos hD]; intro h; cases h
  rw [if_neg hD]
  refine bind_ne_oob (getList_ne_oob s D) (fun l hl => ?_)
  cases hd : l.direct with
  | none =>
    simp only [Option.isSome_none, Bool.false_eq_true, if_false]
    intro h; cases h
  | some arr =>
    simp only [Option.isSome_some, if_true]
    have hlen := hs D l arr hl hd
    have hle : (l.text + l.textsz) % W32 ≤ l.text + l.textsz := Nat.mod_le _ _
    have hW : (l.text + l.textsz) % W32 < W32 := Nat.mod_lt _ (by unfold W32; omega)
    have hcollect : ∀ n i, (∀ j, i ≤ j → j < i + n →
        l.text ≤ j ∧ j < W32 ∧ j - l.text < l.textsz) →
        (FreeRangeDynablock_collect D l.text n i s [] >>= fun r =>
          FreeRangeDynablock_purge fuel r.2 r.1) ≠ .error .outOfBounds := by
      intro n i hidx
      obtain ⟨h1, h2⟩ := FreeRangeDynablock_collect_ne_oob D l.text l.textsz n i s [] hs
        ⟨l, arr, hl, hd, hlen⟩ hidx
      exact bind_ne_oob h1 (fun r hr => FreeRangeDynablock_purge_ne_oob fuel r.2 r.1 (h2 r hr))
    split_ifs with h1 h2 h3 h3 h2 h3 h3 <;>
      first
      | exact FreeRangeDynablock_purge_ne_oob fuel [] s hs
      | (refine hcollect _ _ ?_
         intro j hj1 hj2
         refine ⟨by omega, by omega, by omega⟩)

theorem AddNewDynablock_ne_oob : ∀ (fuel : Nat) (s : State) (D addr created : Nat), Shaped s →
    AddNewDynablock fuel s D addr created ≠ .error .outOfBounds := by
  intro fuel
  induction fuel with
  | zero => intro s D addr created _ h; cases h
  | succ fuel ih =>
    intro s D addr created hs
    by_cases hD : D = 0
    · subst hD
      rw [AddNewDynablock_null]
      intro h; cases h
    cases hl : s.getList D with
    | error e =>
      have he := getList_error hl
      subst he
      simp [AddNewDynablock, hD, hl, bind, Except.bind]
    | ok l =>
      by_cases hcov : l.covers addr
      · obtain ⟨hsub, hlt, -⟩ := covers_sub l addr hcov
        have hnew : ∀ (hempty : l.direct = none ∨
            ∃ arr, l.direct = some arr ∧ arr[addr - l.text]? = some 0),
            AddNewDynablock (fuel + 1) s D addr created ≠ .error .outOfBounds := by
          intro hempty
          by_cases hc0 : created = 0
          · subst hc0
            rw [AddNewDynablock_miss fuel s D addr l hl hcov hempty]
            intro h; cases h
          · rw [AddNewDynablock_create fuel s D addr created l hl hcov hempty hc0]
            intro h; cases h
        cases hd : l.direct with
        | none => exact hnew (Or.inl hd)
        | some arr =>
          have hlen := hs D l arr hl hd
          have hi : addr - l.text < arr.length := by omega
          by_cases hb : arr[addr - l.text] = 0
          · exact hnew (Or.inr ⟨arr, hd, by rw [List.getElem?_eq_getElem hi, hb]⟩)
          · rw [AddNewDynablock_found fuel s D addr created l arr _ hl hcov hd
              (List.getElem?_eq_getElem hi) hb]
            intro h; cases h
      · rw [AddNewDynablock_unfold_out fuel s D addr created l hl hcov]
        exact ih s _ addr created hs

/-- The addresses that the loops of `MarkDirectDynablock` and
`FreeRangeDynablock` visit (from the clamped start to the clamped end), for any
`addr` and `size` (their sum wrapped), give indices below `textsz`. -/
theorem clamped_index_bound (l : dynablocklist_t) (addr size i : Nat)
    (hlo : (if addr < l.text then l.text else addr) ≤ i)
    (hhi : i < (if (addr + size) % W32 > (l.text + l.textsz) % W32 then (l.text + l.textsz) % W32
        else (addr + size) % W32)) :
    l.text ≤ i ∧ subU32 i l.text = i - l.text ∧ i - l.text < l.textsz := by
  have hle : (l.text + l.textsz) % W32 ≤ l.text + l.textsz := Nat.mod_le _ _
  have hW : (l.text + l.textsz) % W32 < W32 := Nat.mod_lt _ (by unfold W32; omega)
  have h1 : l.text ≤ i := by
    by_cases h : addr < l.text
    · rw [if_pos h] at hlo; exact hlo
    · rw [if_neg h] at hlo; omega
  have h2 : i < (l.text + l.textsz) % W32 := by
    by_cases h : (addr + size) % W32 > (l.text + l.textsz) % W32
    · rw [if_pos h] at hhi; exact hhi
    · rw [if_neg h] at hhi; omega
  exact ⟨h1, subU32_eq _ _ h1 (by omega), by omega⟩

theorem exState9_shaped : Shaped exState9 := by
  intro D l arr hl hd
  cases D with
  | zero => cases hl
  | succ D =>
    cases D with
    | zero =>
      cases hl
      cases hd
      rfl
    | succ D => simp [State.getList, exState9] at hl

/-- C22: in a state where every allocated `direct` array has exactly `textsz`
slots, for every directory, `addr` and `size` (the sum `addr + size` wrapped
modulo 2^32): the addresses `i` that the loops of `MarkDirectDynablock` and
`FreeRangeDynablock` visit satisfy `text <= i` and `i - text < textsz`, and so
does the address at which `AddNewDynablock` reads and writes and
`FreeDynablock` clears a slot (an address the directory covers). An access to
`direct[idx]` is the fault `outOfBounds` exactly when `textsz <= idx`, and none
of the four functions ends with that fault, whatever the recursion budget. -/
theorem direct_index_in_bounds (s : State) (hs : Shaped s) :
    (∀ (l : dynablocklist_t) (addr size i : Nat),
      (if addr < l.text then l.text else addr) ≤ i →
      i < (if (addr + size) % W32 > (l.text + l.textsz) % W32 then (l.text + l.textsz) % W32
          else (addr + size) % W32) →
      l.text ≤ i ∧ subU32 i l.text = i - l.text ∧ i - l.text < l.textsz) ∧
    (∀ (l : dynablocklist_t) (addr : Nat), l.covers addr →
      subU32 addr l.text = addr - l.text ∧ addr - l.text < l.textsz) ∧
    (∀ D l arr idx v, s.getList D = .ok l → l.direct = some arr →
      (s.readDirect D idx = .error .outOfBounds ↔ l.textsz ≤ idx) ∧
      (s.writeDirect D idx v = .error .outOfBounds ↔ l.textsz ≤ idx)) ∧
    (∀ D l arr addr size, s.getList D = .ok l → l.direct = some arr →
      MarkDirectDynablock s D addr size ≠ .error .outOfBounds) ∧
    (∀ fuel D addr size, FreeRangeDynablock fuel s D addr size ≠ .error .outOfBounds) ∧
    (∀ fuel D addr created, AddNewDynablock fuel s D addr created ≠ .error .outOfBounds) ∧
    (∀ fuel db, FreeDynablock fuel s db ≠ .error .outOfBounds) := by
  refine ⟨fun l addr size i h2 h3 => clamped_index_bound l addr size i h2 h3,
    fun l addr hcov => ⟨(covers_sub l addr hcov).1, (covers_sub l addr hcov).2.1⟩, ?_, ?_,
    fun fuel D addr size => FreeRangeDynablock_ne_oob fuel s D addr size hs,
    fun fuel D addr created => AddNewDynablock_ne_oob fuel s D addr created hs,
    fun fuel db => (FreeDynablock_ne_oob fuel s db hs).1⟩
  · intro D l arr idx v hl hd
    have hlen := hs D l arr hl hd
    rw [← hlen]
    exact readDirect_oob_iff hl hd idx v
  · intro D l arr addr size hl hd
    exact MarkDirectDynablock_ne_oob s D addr size l arr hl hd (hs D l arr hl hd)

/-- Instance of C22 on `exState9`, whose directory `[16, 20)` has four slots. -/
theorem direct_index_in_bounds_witness :
    (∀ (l : dynablocklist_t) (addr size i : Nat),
      (if addr < l.text then l.text else addr) ≤ i →
      i < (if (addr + size) % W32 > (l.text + l.textsz) % W32 then (l.text + l.textsz) % W32
          else (addr + size) % W32) →
      l.text ≤ i ∧ subU32 i l.text = i - l.text ∧ i - l.text < l.textsz) ∧
    (∀ (l : dynablocklist_t) (addr : Nat), l.covers addr →
      subU32 addr l.text = addr - l.text ∧ addr - l.text < l.textsz) ∧
    (∀ D l arr idx v, exState9.getList D = .ok l → l.direct = some arr →
      (exState9.readDirect D idx = .error .outOfBounds ↔ l.textsz ≤ idx) ∧
      (exState9.writeDirect D idx v = .error .outOfBounds ↔ l.textsz ≤ idx)) ∧
    (∀ D l arr addr size, exState9.getList D = .ok l → l.direct = some arr →
      MarkDirectDynablock exState9 D addr size ≠ .error .outOfBounds) ∧
    (∀ fuel D addr size, FreeRangeDynablock fuel exState9 D addr size ≠ .error .outOfBounds) ∧
    (∀ fuel D addr created,
      AddNewDynablock fuel exState9 D addr created ≠ .error .outOfBounds) ∧
    (∀ fuel db, FreeDynablock fuel exState9 db ≠ .error .outOfBounds) :=
  direct_index_in_bounds exState9 exState9_shaped

/-- A wrapping range on `exState9`: `addr + size` is 2 modulo 2^32, the clamped
range is empty and both range functions return the state as given. -/
theorem wrapping_range_run :
    MarkDirectDynablock exState9 1 4294967294 4 = .ok exState9 ∧
    FreeRangeDynablock 4 exState9 1 4294967294 4 = .ok exState9 := by
  decide

/-! ## What `FreeDynablock` leaves in place -/

end Box86
